import Mathlib

/-!
Shallow embedding of the `go_localstack` package
(`pkg/localstack/localstack.go`, `pkg/localstack/localstackService.go`):
service descriptors and sets, the container lifecycle controller with its
docker adapter boundary, endpoint resolution and session configuration.
External collaborators (the docker engine, the AWS SDK default resolver,
the retry policy) are modelled as oracles supplied to the functions, and
every adapter call is recorded in an event trace so that call counts and
call order can be stated.
-/

set_option maxRecDepth 10000

/-- Embeds `LocalstackService` (localstackService.go): name, protocol and
port of one requested AWS service. -/
structure LocalstackService where
  Name : String
  Protocol : String
  Port : Nat
deriving Repr, DecidableEq

/-- Embeds `LocalstackService.GetNamePort`:
`fmt.Sprintf("%s:%d", service.Name, service.Port)`. -/
def LocalstackService.GetNamePort (service : LocalstackService) : String :=
  service.Name ++ ":" ++ toString service.Port

/-- Embeds `LocalstackService.GetPortProtocol`:
`fmt.Sprintf("%d/%s", service.Port, service.Protocol)`. -/
def LocalstackService.GetPortProtocol (service : LocalstackService) : String :=
  toString service.Port ++ "/" ++ service.Protocol

/-- The literal allow-list of service names inside `NewLocalstackService`
(localstackService.go, lines 51-73), including the `"secrestmanager"`
spelling found in the source. -/
def serviceNames : List String :=
  ["apigateway", "kinesis", "dynamodb", "dynamodbstreams", "es", "s3",
   "firehose", "lambda", "sns", "sqs", "redshift", "ses", "route53",
   "cloudformation", "cloudwatch", "ssm", "secrestmanager", "stepfunctions",
   "logs", "sts", "iam"]

/-- Embeds `NewLocalstackService`: the Go loop returns a descriptor at the
first allow-list entry equal to `name`, and otherwise the error
`unknown Localstack Service: <name>`.  `List.contains` performs the same
first-match scan. -/
def NewLocalstackService (name : String) : Except String LocalstackService :=
  if serviceNames.contains name then
    .ok { Name := name, Protocol := "tcp", Port := 4566 }
  else
    .error ("unknown Localstack Service: " ++ name)

/-- Embeds `LocalstackServiceCollection`, a slice of services. -/
abbrev LocalstackServiceCollection := List LocalstackService

/-- Embeds `LocalstackServiceCollection.GetServiceMap`:
`strings.Join` of the `GetNamePort` renderings with `","`. -/
def GetServiceMap (collection : LocalstackServiceCollection) : String :=
  String.intercalate "," (collection.map LocalstackService.GetNamePort)

/-- Embeds `LocalstackServiceCollection.Contains`: linear scan comparing
each element's `Name` to `name`. -/
def Contains (collection : LocalstackServiceCollection) (name : String) : Bool :=
  collection.any (fun value => value.Name == name)

/-- Embeds the fields of `docker.APIContainers` read by `getLocalstack`:
the container id, image string and name list of one listing entry. -/
structure APIContainers where
  ID : String
  Image : String
  Names : List String
deriving Repr, DecidableEq

/-- Embeds the fields of an inspected `docker.Container` that the code
reads: its id and the published port bindings
(`NetworkSettings.Ports`, as `port/proto` to `host:port`). -/
structure Container where
  ID : String
  ports : List (String × String)
deriving Repr, DecidableEq

/-- Embeds `dockertest.Resource.GetHostPort`: the published `host:port`
string for a `port/proto` key, or `""` when the port is not published. -/
def Container.getHostPort (c : Container) (portProto : String) : String :=
  (((c.ports.find? (fun kv => kv.fst == portProto)).map Prod.snd).getD "")

/-- Embeds `dockertest.Resource`: a wrapper around an inspected container. -/
structure Resource where
  Container : Container
deriving Repr, DecidableEq

/-- Embeds `dockertest.RunOptions`, restricted to the fields the code
sets: repository, tag, container name, environment and bind mounts. -/
structure RunOptions where
  Repository : String
  Tag : String
  Name : String
  Env : List String
  Mounts : List String
deriving Repr, DecidableEq

/-- Behaviour of one `DockerWrapper` adapter (the interface consumed by
the lifecycle controller), modelled as oracles: the outcome of the single
`ListContainers` call, of `InspectContainer` per container id, of
`RunWithOptions` per options value, and of the k-th `Retry` invocation
(`none` means the retry succeeded, `some e` that it failed with `e`). -/
structure DockerWrapper where
  listContainers : Except String (List APIContainers)
  inspectContainer : String → Except String Container
  runWithOptions : RunOptions → Except String Resource
  retryResults : Nat → Option String

/-- One recorded adapter call, for stating call counts and call order. -/
inductive DockerEvent where
  | listContainers : DockerEvent
  | inspectContainer : String → DockerEvent
  | runWithOptions : RunOptions → DockerEvent
  | retry : Nat → DockerEvent
deriving Repr, DecidableEq

/-- The `RunWithOptions` calls of a trace, in order. -/
def runCalls (trace : List DockerEvent) : List RunOptions :=
  trace.filterMap (fun ev =>
    match ev with
    | .runWithOptions o => some o
    | _ => none)

/-- The `Retry` calls of a trace, in order. -/
def retryCalls (trace : List DockerEvent) : List Nat :=
  trace.filterMap (fun ev =>
    match ev with
    | .retry k => some k
    | _ => none)

/-- Embeds the container scan inside `getLocalstack` (localstack.go,
lines 137-152): walk the listing, and at the first container whose
`Image` equals `image` and whose `Names` holds `slashName`, inspect it;
an inspect failure is wrapped, success is wrapped as a resource. -/
def findLocalstack (w : DockerWrapper) (image slashName : String) :
    List APIContainers → Except String (Option Resource) × List DockerEvent
  | [] => (.ok none, [])
  | c :: rest =>
    if c.Image == image then
      if c.Names.any (fun internalName => internalName == slashName) then
        match w.inspectContainer c.ID with
        | .error err =>
          (.error ("unable to inspect container " ++ c.ID ++ ": " ++ err),
           [.inspectContainer c.ID])
        | .ok container =>
          (.ok (some { Container := container }), [.inspectContainer c.ID])
      else findLocalstack w image slashName rest
    else findLocalstack w image slashName rest

/-- Embeds `getLocalstack` (localstack.go, lines 131-155): with an empty
name the result is `(nil, nil)`; otherwise list all containers (wrapping
a listing failure) and scan for `<repository>:<tag>` and `/<name>`. -/
def getLocalstack (w : DockerWrapper) (name repository tag : String) :
    Except String (Option Resource) × List DockerEvent :=
  if name ≠ "" then
    match w.listContainers with
    | .error err =>
      (.error ("unable to retrieve docker containers: " ++ err), [.listContainers])
    | .ok containers =>
      let scanned := findLocalstack w (repository ++ ":" ++ tag) ("/" ++ name) containers
      (scanned.fst, .listContainers :: scanned.snd)
  else (.ok none, [])

/-- Embeds the run-options construction in `newPersistentLocalstack`
(localstack.go, lines 169-190): repository, tag, name, a
`SERVICES=<GetServiceMap>` environment entry, and - only when `data` is
non-empty - an additional `DATA_DIR=<data>` entry plus the fixed
`/tmp/localstack/data` bind mount. -/
def buildRunOptions (services : LocalstackServiceCollection)
    (name repository tag data : String) : RunOptions :=
  let options : RunOptions :=
    { Repository := repository
      Tag := tag
      Name := name
      Env := ["SERVICES=" ++ GetServiceMap services]
      Mounts := [] }
  if data.length > 0 then
    { options with
        Env := options.Env ++ ["DATA_DIR=" ++ data]
        Mounts := ["/tmp/localstack/data:/tmp/localstack/data"] }
  else options

/-- Embeds the acquisition phase of `newPersistentLocalstack`
(localstack.go, lines 164-195): use the discovered resource when there is
one, otherwise run a fresh container with the built options, wrapping a
start failure as `could not start resource`. -/
def acquireLocalstack (services : LocalstackServiceCollection) (w : DockerWrapper)
    (name repository tag data : String) : Except String Resource × List DockerEvent :=
  match getLocalstack w name repository tag with
  | (.error e, t) => (.error e, t)
  | (.ok (some r), t) => (.ok r, t)
  | (.ok none, t) =>
    let options := buildRunOptions services name repository tag data
    match w.runWithOptions options with
    | .error err =>
      (.error ("could not start resource: " ++ err), t ++ [.runWithOptions options])
    | .ok r => (.ok r, t ++ [.runWithOptions options])

/-- Embeds the readiness loop of `newPersistentLocalstack` (localstack.go,
lines 199-238): for each service in collection order invoke the adapter's
`Retry`; a failing retry aborts with `unable to connect to <Name>: <err>`
and later services are not polled.  `k` counts the retry invocations
already made. -/
def pollServices (w : DockerWrapper) (k : Nat) :
    LocalstackServiceCollection → Except String Unit × List DockerEvent
  | [] => (.ok (), [])
  | service :: rest =>
    match w.retryResults k with
    | some err =>
      (.error ("unable to connect to " ++ service.Name ++ ": " ++ err), [.retry k])
    | none =>
      let later := pollServices w (k + 1) rest
      (later.fst, .retry k :: later.snd)

/-- Embeds `Localstack`: the controller handle wrapping the resolved
resource and the requested service collection. -/
structure Localstack where
  Resource : Resource
  Services : LocalstackServiceCollection
deriving Repr, DecidableEq

/-- Embeds `newPersistentLocalstack` (localstack.go, lines 162-244):
discovery or creation of the container followed by the readiness loop,
returning the handle only when every phase succeeded. -/
def newPersistentLocalstack (services : LocalstackServiceCollection) (w : DockerWrapper)
    (name repository tag data : String) : Except String Localstack × List DockerEvent :=
  match acquireLocalstack services w name repository tag data with
  | (.error e, t) => (.error e, t)
  | (.ok res, t) =>
    match pollServices w 0 services with
    | (.error e, t2) => (.error e, t ++ t2)
    | (.ok _, t2) => (.ok { Resource := res, Services := services }, t ++ t2)

/-- Embeds the constant `LocalstackRepository`. -/
def LocalstackRepository : String := "localstack/localstack"

/-- Embeds the constant `LocalstackTag`. -/
def LocalstackTag : String := "0.11.5"

/-- Embeds `NewPersistentSpecificLocalstack`; the docker adapter, which
the Go code instantiates as the production `_DockerWrapper`, is a
parameter here. -/
def NewPersistentSpecificLocalstack (services : LocalstackServiceCollection)
    (name repository tag data : String) (w : DockerWrapper) :
    Except String Localstack × List DockerEvent :=
  newPersistentLocalstack services w name repository tag data

/-- Embeds `NewPersistentLocalstack`: repository `localstack/localstack`,
tag `latest`, runtime-assigned name, with the data directory threaded
through. -/
def NewPersistentLocalstack (services : LocalstackServiceCollection)
    (data : String) (w : DockerWrapper) :
    Except String Localstack × List DockerEvent :=
  NewPersistentSpecificLocalstack services "" LocalstackRepository "latest" data w

/-- Embeds `NewNamedPersistentLocalstack`. -/
def NewNamedPersistentLocalstack (services : LocalstackServiceCollection)
    (name data : String) (w : DockerWrapper) :
    Except String Localstack × List DockerEvent :=
  NewPersistentSpecificLocalstack services name LocalstackRepository "latest" data w

/-- First listing entry matching both discovery conditions: image equal to
`image` and name list holding `slashName`.  This mirrors the scan order of
`findLocalstack` and is used to state which container wins. -/
def firstMatch (image slashName : String) (containers : List APIContainers) :
    Option APIContainers :=
  containers.find? (fun c =>
    c.Image == image && c.Names.any (fun internalName => internalName == slashName))

/-- Embeds `endpoints.ResolvedEndpoint`, restricted to the `URL` field the
code sets and the tests read. -/
structure ResolvedEndpoint where
  URL : String
deriving Repr, DecidableEq

/-- The entries of the `availableServices` map literal inside `EndpointFor`
(localstack.go, lines 64-85), from SDK service identifier to descriptor
name. -/
def availableServices : List (String × String) :=
  [("apigateway", "apigateway"), ("kinesis", "kinesis"), ("dynamodb", "dynamodb"),
   ("streams.dynamodb", "dynamodbstreams"), ("es", "es"), ("s3", "s3"),
   ("firehose", "firehose"), ("lambda", "lambda"), ("sns", "sns"), ("sqs", "sqs"),
   ("redshift", "redshift"), ("email", "ses"), ("route53", "route53"),
   ("cloudformation", "cloudformation"), ("monitoring", "cloudwatch"),
   ("ssm", "ssm"), ("secretsmanager", "secretsmanager"),
   ("states", "stepfunctions"), ("logs", "logs"), ("sts", "sts"), ("iam", "iam")]

/-- Go map indexing `availableServices[service]`: the value stored at the
key, if the key is present. -/
def mapLookup (entries : List (String × String)) (key : String) : Option String :=
  (entries.find? (fun kv => kv.fst == key)).map Prod.snd

/-- Embeds `Localstack.EndpointFor` (localstack.go, lines 63-92).  The Go
loop ranges over the map's keys in arbitrary order, but its body fires
exactly when `k == service` and the service set contains
`availableServices[service]`, so the outcome is the one written here: the
emulator URL for port `4566/tcp` in that case, and otherwise whatever the
SDK's default resolver - here the oracle `defaultResolver` - produces.
The Go result pair `(endpoints.ResolvedEndpoint, error)` is kept. -/
def EndpointFor (defaultResolver : String → String → ResolvedEndpoint × Option String)
    (ls : Localstack) (service region : String) : ResolvedEndpoint × Option String :=
  match mapLookup availableServices service with
  | some descriptorName =>
    if Contains ls.Services descriptorName then
      ({ URL := "http://" ++ ls.Resource.Container.getHostPort "4566/tcp" }, none)
    else defaultResolver service region
  | none => defaultResolver service region

/-- Embeds `credentials.NewStaticCredentials("a", "b", "c")`. -/
structure StaticCredentials where
  id : String
  secret : String
  token : String
deriving Repr, DecidableEq

/-- Embeds the `aws.Config` fields that `CreateAWSSession` sets.  The
endpoint resolver field holds the `Localstack` value itself, as in
`EndpointResolver: *ls`; `none` models a nil field. -/
structure AWSConfig where
  Region : Option String
  EndpointResolver : Option Localstack
  DisableSSL : Option Bool
  S3ForcePathStyle : Option Bool
  Credentials : Option StaticCredentials
deriving Repr, DecidableEq

/-- Embeds `Localstack.CreateAWSSession` (localstack.go, lines 95-103):
the fixed configuration handed to `session.NewSession`. -/
def CreateAWSSession (ls : Localstack) : AWSConfig :=
  { Region := some "us-east-1"
    EndpointResolver := some ls
    DisableSSL := some true
    S3ForcePathStyle := some true
    Credentials := some { id := "a", secret := "b", token := "c" } }

/-- Embeds `unicode.IsSpace`, the predicate behind `strings.TrimSpace`:
the Latin-1 whitespace characters (including NEL and NBSP) plus the
White_Space code points outside Latin-1 (OGHAM SPACE MARK, the EN QUAD
through HAIR SPACE block, LINE and PARAGRAPH SEPARATOR, NARROW NO-BREAK
SPACE, MEDIUM MATHEMATICAL SPACE and IDEOGRAPHIC SPACE). -/
def goIsSpace (c : Char) : Bool :=
  c == ' ' || c == '\t' || c == '\n' || c == '\x0b' || c == '\x0c' ||
  c == '\r' || c == '\u0085' || c == '\u00A0' ||
  c == '\u1680' || (decide ('\u2000' ≤ c) && decide (c ≤ '\u200A')) ||
  c == '\u2028' || c == '\u2029' || c == '\u202F' || c == '\u205F' ||
  c == '\u3000'

/-- Embeds `strings.TrimSpace`: drop whitespace from both ends. -/
def trimSpace (s : String) : String :=
  ⟨((s.data.dropWhile goIsSpace).reverse.dropWhile goIsSpace).reverse⟩

/-- Substring scan over character lists: does `sub` occur contiguously in
the second list? -/
def listContainsSub (sub : List Char) : List Char → Bool
  | [] => sub.isEmpty
  | c :: rest => sub.isPrefixOf (c :: rest) || listContainsSub sub rest

/-- Embeds `strings.Contains s substr`: substring containment. -/
def goContains (s substr : String) : Bool :=
  listContainsSub substr.data s.data

/-- Embeds `bufio.dropCR`: remove one trailing carriage return. -/
def dropCR (l : List Char) : List Char :=
  if l.getLast? = some '\r' then l.dropLast else l

/-- Byte length of a character sequence under UTF-8, the unit in which
`bufio.Scanner` buffers its input. -/
def utf8Len : List Char → Nat
  | [] => 0
  | c :: rest => c.utf8Size + utf8Len rest

/-- Token scan of `bufio.Scanner` with `bufio.ScanLines` over character
lists: `current` is the reversed partial line read so far and `len` its
byte length.  The scanner's window holds at most `MaxScanTokenSize`
(64 * 1024) bytes, so a line whose content reaches 65536 bytes can never
expose its newline (or the end of input) inside the window: scanning
stops there with `ErrTooLong` after having emitted the earlier tokens
(the `Bool` of the result).  Otherwise a newline emits the accumulated
token and a non-empty remainder at the end of the buffer is the final
token; the empty buffer yields no token. -/
def scanLinesAux (current : List Char) (len : Nat) :
    List Char → List (List Char) × Bool
  | [] =>
    if 65536 ≤ len then ([], true)
    else if current.isEmpty then ([], false)
    else ([dropCR current.reverse], false)
  | c :: rest =>
    if 65536 ≤ len then ([], true)
    else if c = '\n' then
      let r := scanLinesAux [] 0 rest
      (dropCR current.reverse :: r.1, r.2)
    else scanLinesAux (c :: current) (len + c.utf8Size) rest

/-- Embeds `bufio.Scanner` with its default line splitter over an
in-memory buffer: the buffer's lines without their terminating newline,
a trailing carriage return dropped from each line, up to the first line
of 64 KiB or more; the flag records whether scanning aborted there with
`ErrTooLong`. -/
def scanLines (s : String) : List String × Bool :=
  ((scanLinesAux [] 0 s.data).1.map String.mk, (scanLinesAux [] 0 s.data).2)

/-- Embeds the readiness check closure passed to `Retry` (localstack.go,
lines 200-234).  The docker client construction and the log fetch are
oracles.  Each scanned line is trimmed into `token`, and the line scan
succeeds at the first token whose trimmed form contains the literal
`Ready.`; otherwise, if the scanner stopped at a 64 KiB-or-longer line,
`scanner.Err()` is `bufio.ErrTooLong` and the check reports
`reading input: bufio.Scanner: token too long`; otherwise it reports
`not Ready`. -/
def readinessCheck (clientResult : Except String Unit)
    (logsResult : Except String String) (containerId : String) :
    Except String Unit :=
  match clientResult with
  | .error err => .error ("unable to create a docker client: " ++ err)
  | .ok _ =>
    match logsResult with
    | .error err =>
      .error ("unable to retrieve logs for container " ++ containerId ++ ": " ++ err)
    | .ok buffer =>
      if (scanLines buffer).1.any (fun line =>
          let token := trimSpace line
          goContains (trimSpace token) "Ready.") then
        .ok ()
      else if (scanLines buffer).2 then
        .error "reading input: bufio.Scanner: token too long"
      else .error "not Ready"

/-- A log buffer consisting of one newline-free 65536-byte line ending in
`Ready.`: its only line announces readiness, but the line exceeds the
scanner window. -/
def tooLongLine : String :=
  ⟨List.replicate 65530 'a' ++ "Ready.".data⟩

/-- A concrete inspected container used by the witness statements. -/
def sampleContainer : Container :=
  { ID := "abc123", ports := [("4566/tcp", "127.0.0.1:32768")] }

/-- A concrete resource used by the witness statements. -/
def sampleResource : Resource := { Container := sampleContainer }

/-- The `sqs` descriptor used by the witness statements. -/
def sampleSqs : LocalstackService := { Name := "sqs", Protocol := "tcp", Port := 4566 }

/-- The `s3` descriptor used by the witness statements. -/
def sampleS3 : LocalstackService := { Name := "s3", Protocol := "tcp", Port := 4566 }

/-- A listing entry for the sample container, matching image
`localstack/localstack:0.11.5` and name `/testname`. -/
def sampleListing : APIContainers :=
  { ID := "abc123", Image := "localstack/localstack:0.11.5", Names := ["/testname"] }

/-- An adapter whose listing is empty, whose inspect and run calls succeed
with the sample container, and whose retries all succeed. -/
def sampleWrapper : DockerWrapper :=
  { listContainers := .ok []
    inspectContainer := fun _ => .ok sampleContainer
    runWithOptions := fun _ => .ok sampleResource
    retryResults := fun _ => none }

/-- An adapter like `sampleWrapper` whose listing holds `sampleListing`. -/
def sampleWrapperFound : DockerWrapper :=
  { sampleWrapper with listContainers := .ok [sampleListing] }

/-- An adapter like `sampleWrapper` whose second retry (index 1) fails. -/
def sampleWrapperRetryFails : DockerWrapper :=
  { sampleWrapper with
      retryResults := fun k => if k = 1 then some "dummyError" else none }

instance : Inhabited LocalstackService where
  default := { Name := "", Protocol := "", Port := 0 }

/-- Embeds `LocalstackServiceCollection.Len`. -/
def Len (collection : LocalstackServiceCollection) : Nat := collection.length

/-- Lexicographic comparison of character lists, mirroring Go's `<` on
strings: Go compares byte-wise, and on UTF-8 data byte order coincides
with this code-point order. -/
def charListLt : List Char → List Char → Bool
  | [], [] => false
  | [], _ :: _ => true
  | _ :: _, [] => false
  | c :: cs, d :: ds => if c < d then true else if d < c then false else charListLt cs ds

/-- Go's `<` on strings. -/
def goStringLt (s t : String) : Bool := charListLt s.data t.data

/-- Embeds `LocalstackServiceCollection.Less`:
`collection[i].Name < collection[j].Name`. -/
def Less (collection : LocalstackServiceCollection) (i j : Nat) : Bool :=
  goStringLt (collection.getD i default).Name (collection.getD j default).Name

/-- Embeds `LocalstackServiceCollection.Swap`:
`collection[i], collection[j] = collection[j], collection[i]`.  Indices
outside the collection leave it unchanged (the Go code would panic there;
the sort never indexes out of bounds). -/
def Swap (collection : LocalstackServiceCollection) (i j : Nat) :
    LocalstackServiceCollection :=
  if i < collection.length ∧ j < collection.length then
    (collection.set i (collection.getD j default)).set j
      (collection.getD i default)
  else collection

/-! The Go standard library carries out the reordering behind
`sort.Sort`.  That code ships with the toolchain, not with this
repository, so the definitions below reconstruct `sort.go` as shipped
with the Go releases contemporary with this package (the algorithm used
from Go 1.6 through Go 1.18): introsort with a shell-plus-insertion pass
for intervals of at most 12 elements, median-of-three (or ninther) pivot
selection with duplicate protection, and a heapsort fallback when the
depth budget is exhausted.  Loops whose indices move toward a bound are
written with an explicit fuel argument that is at least the maximal
iteration count at every call, so every function is structurally
recursive and evaluates inside the kernel. -/

/-- Embeds `insertionSort`'s inner loop: starting at position `j`, move
the element left while it is strictly smaller than its predecessor and
the position is still above `a`. -/
def insertionSortInner (d : LocalstackServiceCollection) (a : Nat) :
    Nat → LocalstackServiceCollection
  | 0 => d
  | j + 1 =>
    if j + 1 > a && Less d (j + 1) j then
      insertionSortInner (Swap d (j + 1) j) a j
    else d

/-- Embeds `insertionSort(data, a, b)`: insert each element of the
interval `[a+1, b)` in turn. -/
def insertionSort (d : LocalstackServiceCollection) (a b : Nat) :
    LocalstackServiceCollection :=
  (List.range' (a + 1) (b - (a + 1))).foldl
    (fun d i => insertionSortInner d a i) d

/-- Embeds the shell-sort pass with gap 6 that `quickSort` applies to
intervals of at most 12 elements before the insertion sort. -/
def shellPass (d : LocalstackServiceCollection) (a b : Nat) :
    LocalstackServiceCollection :=
  (List.range' (a + 6) (b - (a + 6))).foldl
    (fun d i => if Less d i (i - 6) then Swap d i (i - 6) else d) d

/-- Embeds `siftDown`'s loop: walk the element at `root` down the heap
over `[first, first+hi)` toward the larger child while smaller than it.
The root index strictly grows each step, so fuel `hi` always suffices. -/
def siftDownAux (d : LocalstackServiceCollection) (root hi first : Nat) :
    Nat → LocalstackServiceCollection
  | 0 => d
  | fuel + 1 =>
    let child := 2 * root + 1
    if hi ≤ child then d
    else
      let child :=
        if child + 1 < hi && Less d (first + child) (first + child + 1) then
          child + 1
        else child
      if ! Less d (first + root) (first + child) then d
      else siftDownAux (Swap d (first + root) (first + child)) child hi first fuel

/-- Embeds `siftDown(data, lo, hi, first)`. -/
def siftDown (d : LocalstackServiceCollection) (lo hi first : Nat) :
    LocalstackServiceCollection :=
  siftDownAux d lo hi first hi

/-- Embeds `heapSort(data, a, b)`: build a max-heap over `[a, b)`, then
repeatedly swap the maximum to the end of the shrinking interval and
restore the heap. -/
def heapSort (d : LocalstackServiceCollection) (a b : Nat) :
    LocalstackServiceCollection :=
  let first := a
  let lo := 0
  let hi := b - a
  let d1 := ((List.range ((hi - 1) / 2 + 1)).reverse).foldl
    (fun d i => siftDown d i hi first) d
  ((List.range hi).reverse).foldl
    (fun d i => siftDown (Swap d first (first + i)) lo i first) d1

/-- Embeds `medianOfThree(data, m1, m0, m2)`: order the three positions
so that `data[m0] <= data[m1] <= data[m2]`. -/
def medianOfThree (d : LocalstackServiceCollection) (m1 m0 m2 : Nat) :
    LocalstackServiceCollection :=
  let d := if Less d m1 m0 then Swap d m1 m0 else d
  if Less d m2 m1 then
    let d := Swap d m2 m1
    if Less d m1 m0 then Swap d m1 m0 else d
  else d

/-- Embeds `doPivot`'s first loop: advance `a` while `a < c` and
`data[a] < data[pivot]`. -/
def doPivotLoopA (d : LocalstackServiceCollection) (pivot c : Nat) (a : Nat) :
    Nat → Nat
  | 0 => a
  | fuel + 1 =>
    if a < c && Less d a pivot then doPivotLoopA d pivot c (a + 1) fuel else a

/-- Embeds the `b`-advance of `doPivot`'s partition loop: advance `b`
while `b < c` and `data[b] <= data[pivot]`. -/
def doPivotLoopB (d : LocalstackServiceCollection) (pivot c : Nat) (b : Nat) :
    Nat → Nat
  | 0 => b
  | fuel + 1 =>
    if b < c && ! Less d pivot b then doPivotLoopB d pivot c (b + 1) fuel else b

/-- Embeds the `c`-retreat of `doPivot`'s partition loop: decrement `c`
while `b < c` and `data[c-1] > data[pivot]`. -/
def doPivotLoopC (d : LocalstackServiceCollection) (pivot b : Nat) (c : Nat) :
    Nat → Nat
  | 0 => c
  | fuel + 1 =>
    if b < c && Less d pivot (c - 1) then doPivotLoopC d pivot b (c - 1) fuel else c

/-- Embeds `doPivot`'s partition loop: advance `b`, retreat `c`, and
while they have not crossed swap `data[b]` with `data[c-1]`.  Each pass
shrinks `c - b`, so the initial `c - b + 1` is always enough fuel. -/
def doPivotMain (d : LocalstackServiceCollection) (pivot : Nat) (b c : Nat) :
    Nat → LocalstackServiceCollection × Nat × Nat
  | 0 => (d, b, c)
  | fuel + 1 =>
    let b := doPivotLoopB d pivot c b (c - b)
    let c := doPivotLoopC d pivot b c (c - b)
    if c ≤ b then (d, b, c)
    else doPivotMain (Swap d b (c - 1)) pivot (b + 1) (c - 1) fuel

/-- Embeds the `b`-retreat of the duplicate-protection loop: decrement
`b` while `a < b` and `data[b-1] >= data[pivot]`. -/
def protectLoopB (d : LocalstackServiceCollection) (pivot a : Nat) (b : Nat) :
    Nat → Nat
  | 0 => b
  | fuel + 1 =>
    if a < b && ! Less d (b - 1) pivot then protectLoopB d pivot a (b - 1) fuel
    else b

/-- Embeds the `a`-advance of the duplicate-protection loop: advance `a`
while `a < b` and `data[a] < data[pivot]`. -/
def protectLoopA (d : LocalstackServiceCollection) (pivot b : Nat) (a : Nat) :
    Nat → Nat
  | 0 => a
  | fuel + 1 =>
    if a < b && Less d a pivot then protectLoopA d pivot b (a + 1) fuel else a

/-- Embeds `doPivot`'s duplicate-protection loop: gather the elements
equal to the pivot that remain in `[a, b)` at the top of that interval. -/
def protectMain (d : LocalstackServiceCollection) (pivot : Nat) (a b : Nat) :
    Nat → LocalstackServiceCollection × Nat × Nat
  | 0 => (d, a, b)
  | fuel + 1 =>
    let b := protectLoopB d pivot a b (b - a)
    let a := protectLoopA d pivot b a (b - a)
    if b ≤ a then (d, a, b)
    else protectMain (Swap d a (b - 1)) pivot (a + 1) (b - 1) fuel

/-- Embeds `doPivot(data, lo, hi)`: choose a pivot by median-of-three (or
ninther for long intervals), Hoare-partition `[lo, hi)` around it with
the duplicate heuristics, and return the new data together with
`(midlo, midhi)`. -/
def doPivot (d : LocalstackServiceCollection) (lo hi : Nat) :
    LocalstackServiceCollection × Nat × Nat :=
  let m := (lo + hi) / 2
  let d :=
    if hi - lo > 40 then
      let s := (hi - lo) / 8
      let d := medianOfThree d lo (lo + s) (lo + 2 * s)
      let d := medianOfThree d m (m - s) (m + s)
      medianOfThree d (hi - 1) (hi - 1 - s) (hi - 1 - 2 * s)
    else d
  let d := medianOfThree d lo m (hi - 1)
  let pivot := lo
  let a := doPivotLoopA d pivot (hi - 1) (lo + 1) ((hi - 1) - (lo + 1))
  let part := doPivotMain d pivot a (hi - 1) (((hi - 1) - a) + 1)
  let d := part.fst
  let b := part.snd.fst
  let c := part.snd.snd
  let protect := hi - c < 5
  let state :=
    if ! protect && hi - c < (hi - lo) / 4 then
      let dups0 := 0
      let step1 :=
        if ! Less d pivot (hi - 1) then (Swap d c (hi - 1), c + 1, dups0 + 1)
        else (d, c, dups0)
      let d := step1.fst
      let c := step1.snd.fst
      let dups1 := step1.snd.snd
      let step2 := if ! Less d (b - 1) pivot then (b - 1, dups1 + 1) else (b, dups1)
      let b := step2.fst
      let dups2 := step2.snd
      let step3 :=
        if ! Less d m pivot then (Swap d m (b - 1), b - 1, dups2 + 1)
        else (d, b, dups2)
      let d := step3.fst
      let b := step3.snd.fst
      let dups3 := step3.snd.snd
      (d, b, c, decide (dups3 > 1))
    else (d, b, c, decide protect)
  let d := state.fst
  let b := state.snd.fst
  let c := state.snd.snd.fst
  let protect := state.snd.snd.snd
  let protected_ :=
    if protect then protectMain d pivot (lo + 1) b ((b - (lo + 1)) + 1)
    else (d, lo + 1, b)
  let d := protected_.fst
  let b := protected_.snd.snd
  let d := Swap d pivot (b - 1)
  (d, b - 1, c)

/-- Embeds `quickSort(data, a, b, maxDepth)`.  The Go loop re-tests
`b - a > 12` after handling the smaller half, decrementing the depth
budget on every pass, so the recursion is structural in the budget:
exhausting it hands the interval to `heapSort`, and short intervals get
the shell pass followed by insertion sort. -/
def quickSort (d : LocalstackServiceCollection) (a b : Nat) :
    Nat → LocalstackServiceCollection
  | 0 =>
    if b - a > 12 then heapSort d a b
    else if b - a > 1 then insertionSort (shellPass d a b) a b
    else d
  | depth + 1 =>
    if b - a > 12 then
      let part := doPivot d a b
      let d1 := part.fst
      let mlo := part.snd.fst
      let mhi := part.snd.snd
      if mlo - a < b - mhi then
        quickSort (quickSort d1 a mlo depth) mhi b depth
      else
        quickSort (quickSort d1 mhi b depth) a mlo depth
    else if b - a > 1 then insertionSort (shellPass d a b) a b
    else d

/-- Embeds `maxDepth(n)`: twice the number of halvings needed to reach
zero.  The loop runs at most `n` times, so fuel `n` suffices. -/
def maxDepthAux (i depth : Nat) : Nat → Nat
  | 0 => depth
  | fuel + 1 => if i > 0 then maxDepthAux (i / 2) (depth + 1) fuel else depth

/-- Embeds `maxDepth(n) = depth * 2`. -/
def maxDepth (n : Nat) : Nat := maxDepthAux n 0 n * 2

/-- Embeds `sort.Sort(data)`:
`quickSort(data, 0, data.Len(), maxDepth(data.Len()))`. -/
def sortSort (collection : LocalstackServiceCollection) :
    LocalstackServiceCollection :=
  quickSort collection 0 (Len collection) (maxDepth (Len collection))

/-- Embeds `LocalstackServiceCollection.Sort` (localstackService.go,
lines 119-122): `sort.Sort(collection); return collection`.  The sort
happens in place and the method returns the pointer to the calling
collection, so the returned collection is the sorted one. -/
def LocalstackServiceCollection.Sort (collection : LocalstackServiceCollection) :
    LocalstackServiceCollection :=
  sortSort collection

/-- The segment `[a, b)` of a collection, for stating what the sort
does to an interval. -/
def seg (d : LocalstackServiceCollection) (a b : Nat) :
    LocalstackServiceCollection :=
  (d.drop a).take (b - a)

/-- A seven-element collection with two services of equal name `a`
(distinguished by port) on which the shell pass of the standard library
sort reorders the equal-named pair. -/
def sortCounterexampleInput : LocalstackServiceCollection :=
  [{ Name := "z", Protocol := "tcp", Port := 4566 },
   { Name := "b", Protocol := "tcp", Port := 4566 },
   { Name := "a", Protocol := "tcp", Port := 1111 },
   { Name := "c", Protocol := "tcp", Port := 4566 },
   { Name := "d", Protocol := "tcp", Port := 4566 },
   { Name := "e", Protocol := "tcp", Port := 4566 },
   { Name := "a", Protocol := "tcp", Port := 2222 }]

/-- Name at position `i` (empty for out-of-range positions), the value
the sort's comparator inspects. -/
def nmAt (d : LocalstackServiceCollection) (i : Nat) : String :=
  (d.getD i default).Name

/-- The relation between a collection and a reordering of it that only
permutes the segment `[a, b)`: equal length, untouched positions outside
the segment, and a permuted segment. -/
def PermWithin (d d' : LocalstackServiceCollection) (a b : Nat) : Prop :=
  d'.length = d.length ∧
  (∀ k, k < a ∨ b ≤ k → d'.getD k default = d.getD k default) ∧
  (seg d' a b).Perm (seg d a b)

/-- Non-decreasing comparator order on the positions `[a, b)`: the
property the sort is meant to establish. -/
def SortedOn (d : LocalstackServiceCollection) (a b : Nat) : Prop :=
  ∀ i j, a ≤ i → i ≤ j → j < b → nmAt d i ≤ nmAt d j

/-! Theorems.  Helper lemmas come first, then one theorem per claim with
its witness where the statement carries hypotheses. -/

theorem List.dropWhile_dropWhile_self {α : Type} (p : α → Bool) (l : List α) :
    (l.dropWhile p).dropWhile p = l.dropWhile p := by
  induction l with
  | nil => simp
  | cons a t ih =>
    by_cases h : p a <;> simp [List.dropWhile_cons, h, ih]

theorem dropWhile_head_false {α : Type} (p : α → Bool) (l : List α) (a : α)
    (t : List α) (h : l.dropWhile p = a :: t) : p a = false := by
  induction l with
  | nil => simp at h
  | cons b r ih =>
    by_cases hb : p b
    · rw [List.dropWhile_cons_of_pos hb] at h
      exact ih h
    · rw [List.dropWhile_cons_of_neg hb] at h
      injection h with h1 h2
      subst h1
      simpa using hb

theorem trimSpace_idem (s : String) : trimSpace (trimSpace s) = trimSpace s := by
  unfold trimSpace
  congr 1
  show ((((s.data.dropWhile goIsSpace).reverse.dropWhile goIsSpace).reverse.dropWhile
      goIsSpace).reverse.dropWhile goIsSpace).reverse
    = ((s.data.dropWhile goIsSpace).reverse.dropWhile goIsSpace).reverse
  set A := s.data.dropWhile goIsSpace with hA
  set C := A.reverse.dropWhile goIsSpace with hC
  have h1 : C.reverse.dropWhile goIsSpace = C.reverse := by
    rcases hCr : C.reverse with _ | ⟨a, t⟩
    · simp
    · have hsuf : C <:+ A.reverse := by
        rw [hC]
        exact List.dropWhile_suffix goIsSpace
      have hpref : C.reverse <+: A := by
        have := List.reverse_prefix.mpr hsuf
        rwa [List.reverse_reverse] at this
      rcases hpref with ⟨u, hu⟩
      rw [hCr] at hu
      have hAeq : s.data.dropWhile goIsSpace = a :: (t ++ u) := by
        rw [← hA, ← hu]
        simp
      have hpa : goIsSpace a = false := dropWhile_head_false _ _ _ _ hAeq
      exact List.dropWhile_cons_of_neg (by simp [hpa])
  rw [h1, List.reverse_reverse, hC, List.dropWhile_dropWhile_self]

/-- C6: for every name in the fixed allow-list, `NewLocalstackService`
returns a descriptor with that name, protocol `tcp` and port 4566 whose
`GetNamePort` rendering is `name:4566`; for every other name it returns
no descriptor and the `unknown Localstack Service` error, with no retry
performed anywhere in the code. -/
theorem NewLocalstackService_spec (name : String) :
    (name ∈ serviceNames →
      NewLocalstackService name = .ok { Name := name, Protocol := "tcp", Port := 4566 } ∧
      LocalstackService.GetNamePort { Name := name, Protocol := "tcp", Port := 4566 }
        = name ++ ":4566") ∧
    (name ∉ serviceNames →
      NewLocalstackService name = .error ("unknown Localstack Service: " ++ name)) := by
  constructor
  · intro h
    refine ⟨by simp [NewLocalstackService, h], ?_⟩
    show name ++ ":" ++ toString (4566 : Nat) = name ++ ":4566"
    have : (":" : String) ++ toString (4566 : Nat) = ":4566" := by decide
    rw [String.append_assoc, this]
  · intro h
    simp [NewLocalstackService, h]

/-- C6 witness: the allow-list case at `s3` and the rejection case at the
correctly spelled `secretsmanager`, which is absent from the list. -/
theorem NewLocalstackService_spec_witness :
    NewLocalstackService "s3" = .ok { Name := "s3", Protocol := "tcp", Port := 4566 } ∧
    LocalstackService.GetNamePort { Name := "s3", Protocol := "tcp", Port := 4566 }
      = "s3" ++ ":4566" ∧
    NewLocalstackService "secretsmanager"
      = .error ("unknown Localstack Service: " ++ "secretsmanager") :=
  ⟨((NewLocalstackService_spec "s3").1 (by decide)).1,
   ((NewLocalstackService_spec "s3").1 (by decide)).2,
   (NewLocalstackService_spec "secretsmanager").2 (by decide)⟩

theorem utf8Len_append (l r : List Char) :
    utf8Len (l ++ r) = utf8Len l + utf8Len r := by
  induction l with
  | nil => simp [utf8Len]
  | cons c t ih =>
    show c.utf8Size + utf8Len (t ++ r) = c.utf8Size + utf8Len t + utf8Len r
    rw [ih]
    omega

theorem utf8Len_replicate (n : Nat) (c : Char) :
    utf8Len (List.replicate n c) = n * c.utf8Size := by
  induction n with
  | zero => simp [List.replicate, utf8Len]
  | succ n ih =>
    rw [List.replicate_succ]
    show c.utf8Size + utf8Len (List.replicate n c) = (n + 1) * c.utf8Size
    rw [ih]
    ring

theorem scanLinesAux_toolong : ∀ (cs current : List Char) (len : Nat),
    (∀ c ∈ cs, c ≠ '\n') → 65536 ≤ len + utf8Len cs →
    scanLinesAux current len cs = ([], true) := by
  intro cs
  induction cs with
  | nil =>
    intro current len h1 h2
    unfold scanLinesAux
    rw [if_pos (by unfold utf8Len at h2; omega)]
  | cons c rest ih =>
    intro current len h1 h2
    unfold scanLinesAux
    rcases Nat.lt_or_ge len 65536 with hlt | hge
    · rw [if_neg (by omega), if_neg (h1 c (List.mem_cons_self c rest))]
      apply ih
      · intro x hx
        exact h1 x (List.mem_cons_of_mem c hx)
      · unfold utf8Len at h2
        omega
    · rw [if_pos hge]

theorem listContainsSub_append_right (sub l r : List Char)
    (h : listContainsSub sub r = true) :
    listContainsSub sub (l ++ r) = true := by
  induction l with
  | nil => simpa using h
  | cons c t ih =>
    show listContainsSub sub (c :: (t ++ r)) = true
    unfold listContainsSub
    rw [Bool.or_eq_true]
    exact Or.inr ih

theorem dropWhile_head_not_space (l : List Char)
    (h : ∀ c, l.head? = some c → goIsSpace c = false) :
    l.dropWhile goIsSpace = l := by
  cases l with
  | nil => rfl
  | cons c t => simp [List.dropWhile_cons, h c rfl]

/-- C5 (amended): with the docker client and the log fetch succeeding,
the readiness check accepts a log buffer exactly when some scanned line
(a line wholly inside the scanner's 64 KiB token window), trimmed of
surrounding whitespace, contains the literal substring `Ready.`; when no
scanned line does, it reports the `reading input` scanner error if a line
of 64 KiB or more stopped the scan, and the `not Ready` error
otherwise. -/
theorem readinessCheck_ready_iff (buffer containerId : String) :
    (readinessCheck (.ok ()) (.ok buffer) containerId = .ok () ↔
      ∃ line ∈ (scanLines buffer).1, goContains (trimSpace line) "Ready." = true) ∧
    ((∀ line ∈ (scanLines buffer).1, goContains (trimSpace line) "Ready." = false) →
      readinessCheck (.ok ()) (.ok buffer) containerId =
        if (scanLines buffer).2 then
          .error "reading input: bufio.Scanner: token too long"
        else .error "not Ready") := by
  have hfn : ∀ line : String,
      goContains (trimSpace (trimSpace line)) "Ready." = goContains (trimSpace line) "Ready." := by
    intro line
    rw [trimSpace_idem]
  constructor
  · constructor
    · intro h
      by_cases hc : (scanLines buffer).1.any (fun line =>
          goContains (trimSpace (trimSpace line)) "Ready.") = true
      · rcases List.any_eq_true.mp hc with ⟨line, hmem, hline⟩
        exact ⟨line, hmem, by rw [← hfn line]; exact hline⟩
      · exfalso
        simp only [readinessCheck, hc] at h
        rw [if_neg (by simp [hc])] at h
        split at h
        · exact Except.noConfusion h
        · exact Except.noConfusion h
    · intro ⟨line, hmem, hline⟩
      have hc : (scanLines buffer).1.any (fun line =>
          goContains (trimSpace (trimSpace line)) "Ready.") = true :=
        List.any_eq_true.mpr ⟨line, hmem, by rw [hfn line]; exact hline⟩
      simp only [readinessCheck]
      rw [if_pos hc]
  · intro hall
    have hc : (scanLines buffer).1.any (fun line =>
        goContains (trimSpace (trimSpace line)) "Ready.") = false := by
      rcases hany : (scanLines buffer).1.any (fun line =>
          goContains (trimSpace (trimSpace line)) "Ready.") with _ | _
      · rfl
      · rcases List.any_eq_true.mp hany with ⟨line, hmem, hline⟩
        rw [hfn line] at hline
        rw [hall line hmem] at hline
        exact Bool.noConfusion hline
    simp only [readinessCheck]
    rw [if_neg (by simp [hc])]

/-- C5 witness: a buffer whose second line announces readiness is
accepted, and a buffer with no such line (all lines well under the 64 KiB
window) is reported `not Ready`. -/
theorem readinessCheck_ready_iff_witness :
    readinessCheck (.ok ()) (.ok "starting services\n Ready.\n") "abc123" = .ok () ∧
    readinessCheck (.ok ()) (.ok "starting services\n") "abc123"
      = .error "not Ready" := by
  constructor
  · exact (readinessCheck_ready_iff "starting services\n Ready.\n" "abc123").1.mpr
      (by decide)
  · have h := (readinessCheck_ready_iff "starting services\n" "abc123").2 (by decide)
    rw [h]
    rfl

/-- C5 counterexample: on a log buffer that is a single newline-free
65536-byte line ending in `Ready.`, the buffer's only line does contain
`Ready.` after trimming, yet the check does not succeed: the scanner
aborts with `ErrTooLong` before producing any token and the closure
returns the `reading input` error, which is neither success nor
`not Ready`.  This refutes the original claim's universal
line-containment characterisation. -/
theorem readinessCheck_toolong_counterexample :
    goContains (trimSpace tooLongLine) "Ready." = true ∧
    readinessCheck (.ok ()) (.ok tooLongLine) "abc123"
      = .error "reading input: bufio.Scanner: token too long" := by
  have hdata : tooLongLine.data = List.replicate 65530 'a' ++ "Ready.".data := rfl
  have hcons : (List.replicate 65530 'a' : List Char)
      = 'a' :: List.replicate 65529 'a' := by
    rw [(by norm_num : (65530 : Nat) = 65529 + 1), List.replicate_succ]
  have htrim : trimSpace tooLongLine = tooLongLine := by
    unfold trimSpace
    have h1 : tooLongLine.data.dropWhile goIsSpace = tooLongLine.data := by
      apply dropWhile_head_not_space
      intro c hc
      rw [hdata, hcons, List.cons_append] at hc
      simp only [List.head?_cons, Option.some.injEq] at hc
      rw [← hc]
      decide
    have h2 : tooLongLine.data.reverse.dropWhile goIsSpace
        = tooLongLine.data.reverse := by
      apply dropWhile_head_not_space
      intro c hc
      rw [List.head?_reverse, hdata, List.getLast?_append] at hc
      have hcc : ('.' : Char) = c := Option.some.inj hc
      rw [← hcc]
      decide
    rw [h1, h2, List.reverse_reverse]
  refine ⟨?_, ?_⟩
  · rw [htrim]
    show listContainsSub "Ready.".data tooLongLine.data = true
    rw [hdata]
    exact listContainsSub_append_right _ _ _ (by decide)
  · have hscan : scanLinesAux [] 0 tooLongLine.data = ([], true) := by
      apply scanLinesAux_toolong
      · intro c hc
        rw [hdata] at hc
        rcases List.mem_append.mp hc with h | h
        · rw [List.eq_of_mem_replicate h]
          decide
        · have hall : ∀ c ∈ "Ready.".data, c ≠ '\n' := by decide
          exact hall c h
      · rw [hdata, utf8Len_append, utf8Len_replicate]
        have ha : Char.utf8Size 'a' = 1 := rfl
        have h6 : utf8Len "Ready.".data = 6 := rfl
        omega
    have hsl : scanLines tooLongLine = ([], true) := by
      unfold scanLines
      rw [hscan]
      rfl
    simp only [readinessCheck, hsl]
    rfl

/-- C9: for every handle, whatever services it holds, the session
configuration is the fixed one: region `us-east-1`, SSL disabled, S3
path-style addressing forced on, the endpoint resolver bound to this very
handle (in particular non-nil), and the static placeholder credentials. -/
theorem CreateAWSSession_constant (ls : Localstack) :
    CreateAWSSession ls =
      { Region := some "us-east-1"
        EndpointResolver := some ls
        DisableSSL := some true
        S3ForcePathStyle := some true
        Credentials := some { id := "a", secret := "b", token := "c" } } ∧
    (CreateAWSSession ls).EndpointResolver ≠ none := by
  refine ⟨rfl, ?_⟩
  simp [CreateAWSSession]

/-- C3: the identifier mapping holds the four remapped entries named by
the specification; an identifier mapped to a descriptor name contained in
the handle's service set resolves to the emulator URL for port `4566/tcp`
with no error; an identifier outside the mapping, or one whose mapped
name the service set lacks, is delegated to the default resolver. -/
theorem EndpointFor_gating (defaultResolver : String → String → ResolvedEndpoint × Option String)
    (ls : Localstack) (service region : String) :
    (mapLookup availableServices "streams.dynamodb" = some "dynamodbstreams" ∧
     mapLookup availableServices "email" = some "ses" ∧
     mapLookup availableServices "monitoring" = some "cloudwatch" ∧
     mapLookup availableServices "states" = some "stepfunctions") ∧
    (∀ descriptorName, mapLookup availableServices service = some descriptorName →
      Contains ls.Services descriptorName = true →
      EndpointFor defaultResolver ls service region =
        ({ URL := "http://" ++ ls.Resource.Container.getHostPort "4566/tcp" }, none)) ∧
    (mapLookup availableServices service = none →
      EndpointFor defaultResolver ls service region = defaultResolver service region) ∧
    (∀ descriptorName, mapLookup availableServices service = some descriptorName →
      Contains ls.Services descriptorName = false →
      EndpointFor defaultResolver ls service region = defaultResolver service region) := by
  refine ⟨⟨by decide, by decide, by decide, by decide⟩, ?_, ?_, ?_⟩
  · intro descriptorName hmap hin
    simp [EndpointFor, hmap, hin]
  · intro hmap
    simp [EndpointFor, hmap]
  · intro descriptorName hmap hout
    simp [EndpointFor, hmap, hout]

/-- C3 witness: on a handle whose service set is `{sqs, s3}` and whose
container publishes `4566/tcp` at `127.0.0.1:32768`, the identifier `s3`
resolves to the emulator URL while `states` (mapped to the absent
`stepfunctions`) and the unmapped `docdb` fall through to the default
resolver. -/
theorem EndpointFor_gating_witness :
    EndpointFor (fun _ _ => ({ URL := "https://aws.example" }, none))
        { Resource := sampleResource, Services := [sampleSqs, sampleS3] } "s3" "us-west-2"
      = ({ URL := "http://127.0.0.1:32768" }, none) ∧
    EndpointFor (fun _ _ => ({ URL := "https://aws.example" }, none))
        { Resource := sampleResource, Services := [sampleSqs, sampleS3] } "states" "us-west-2"
      = ({ URL := "https://aws.example" }, none) ∧
    EndpointFor (fun _ _ => ({ URL := "https://aws.example" }, none))
        { Resource := sampleResource, Services := [sampleSqs, sampleS3] } "docdb" "us-west-2"
      = ({ URL := "https://aws.example" }, none) := by
  refine ⟨?_, ?_, ?_⟩
  · have h := (EndpointFor_gating (fun _ _ => ({ URL := "https://aws.example" }, none))
      { Resource := sampleResource, Services := [sampleSqs, sampleS3] } "s3" "us-west-2").2.1
      "s3" (by decide) (by decide)
    rw [h]
    decide
  · exact (EndpointFor_gating (fun _ _ => ({ URL := "https://aws.example" }, none))
      { Resource := sampleResource, Services := [sampleSqs, sampleS3] } "states" "us-west-2").2.2.2
      "stepfunctions" (by decide) (by decide)
  · exact (EndpointFor_gating (fun _ _ => ({ URL := "https://aws.example" }, none))
      { Resource := sampleResource, Services := [sampleSqs, sampleS3] } "docdb" "us-west-2").2.2.1
      (by decide)

/-- C10: the allow-list rejects the correctly spelled `secretsmanager` yet
accepts the misspelled `secrestmanager`, while the resolver mapping keys
`secretsmanager` to descriptor name `secretsmanager`; as a consequence, a
service set assembled only from successful `NewLocalstackService` results
can never contain that descriptor name, so `EndpointFor` always delegates
the `secretsmanager` identifier to the default resolver. -/
theorem secretsmanager_mismatch :
    NewLocalstackService "secretsmanager"
      = .error ("unknown Localstack Service: " ++ "secretsmanager") ∧
    NewLocalstackService "secrestmanager"
      = .ok { Name := "secrestmanager", Protocol := "tcp", Port := 4566 } ∧
    mapLookup availableServices "secretsmanager" = some "secretsmanager" ∧
    (∀ (defaultResolver : String → String → ResolvedEndpoint × Option String)
       (ls : Localstack) (region : String),
      (∀ svc ∈ ls.Services, ∃ nm, NewLocalstackService nm = .ok svc) →
      EndpointFor defaultResolver ls "secretsmanager" region
        = defaultResolver "secretsmanager" region) := by
  refine ⟨by rfl, by rfl, by decide, ?_⟩
  intro defaultResolver ls region hok
  have hnot : Contains ls.Services "secretsmanager" = false := by
    rcases hc : Contains ls.Services "secretsmanager" with _ | _
    · rfl
    · exfalso
      rcases List.any_eq_true.mp hc with ⟨svc, hmem, hname⟩
      rcases hok svc hmem with ⟨nm, hnm⟩
      have hnmem : svc.Name ∈ serviceNames := by
        by_cases hin : serviceNames.contains nm = true
        · simp only [NewLocalstackService, if_pos hin] at hnm
          injection hnm with h
          rw [← h]
          exact List.elem_iff.mp hin
        · simp only [NewLocalstackService, if_neg hin] at hnm
          exact Except.noConfusion hnm
      have : svc.Name = "secretsmanager" := by simpa using hname
      rw [this] at hnmem
      revert hnmem
      decide
  have := (EndpointFor_gating defaultResolver ls "secretsmanager" region).2.2.2
  exact this "secretsmanager" (by decide) hnot

/-- C10 witness: on a handle whose service set is the successfully
constructed `{sqs}`, the `secretsmanager` identifier falls through to the
default resolver. -/
theorem secretsmanager_mismatch_witness :
    EndpointFor (fun _ _ => ({ URL := "https://aws.example/sm" }, none))
        { Resource := sampleResource, Services := [sampleSqs] } "secretsmanager" "us-east-1"
      = ({ URL := "https://aws.example/sm" }, none) := by
  have h := secretsmanager_mismatch.2.2.2
      (fun _ _ => ({ URL := "https://aws.example/sm" }, none))
      { Resource := sampleResource, Services := [sampleSqs] } "us-east-1"
      (by
        intro svc hmem
        have hsvc : svc = sampleSqs := by simpa using hmem
        exact ⟨"sqs", by rw [hsvc]; rfl⟩)
  exact h

theorem findLocalstack_eq_firstMatch (w : DockerWrapper) (image slashName : String)
    (cs : List APIContainers) :
    findLocalstack w image slashName cs =
      match firstMatch image slashName cs with
      | none => (.ok none, [])
      | some c =>
        match w.inspectContainer c.ID with
        | .error err =>
          (.error ("unable to inspect container " ++ c.ID ++ ": " ++ err),
           [.inspectContainer c.ID])
        | .ok container =>
          (.ok (some { Container := container }), [.inspectContainer c.ID]) := by
  induction cs with
  | nil => simp [findLocalstack, firstMatch]
  | cons c rest ih =>
    rcases h1 : (c.Image == image) with _ | _
    · simpa [findLocalstack, firstMatch, List.find?_cons, h1] using ih
    · rcases h2 : c.Names.any (fun internalName => internalName == slashName) with _ | _
      · simpa [findLocalstack, firstMatch, List.find?_cons, h1, h2] using ih
      · simp [findLocalstack, firstMatch, List.find?_cons, h1, h2]

theorem findLocalstack_events (w : DockerWrapper) (image slashName : String)
    (cs : List APIContainers) :
    ∀ ev ∈ (findLocalstack w image slashName cs).snd,
      ∃ id, ev = DockerEvent.inspectContainer id := by
  induction cs with
  | nil => simp [findLocalstack]
  | cons c rest ih =>
    intro ev hev
    rcases h1 : (c.Image == image) with _ | _
    · rw [findLocalstack, if_neg (by simp [h1])] at hev
      exact ih ev hev
    · rcases h2 : c.Names.any (fun internalName => internalName == slashName) with _ | _
      · rw [findLocalstack, if_pos (by simp [h1]), if_neg (by simp [h2])] at hev
        exact ih ev hev
      · rw [findLocalstack, if_pos (by simp [h1]), if_pos h2] at hev
        rcases hins : w.inspectContainer c.ID with err | container <;>
          rw [hins] at hev <;> simp at hev <;> exact ⟨c.ID, hev⟩

theorem getLocalstack_events (w : DockerWrapper) (name repository tag : String) :
    ∀ ev ∈ (getLocalstack w name repository tag).snd,
      ev = DockerEvent.listContainers ∨ ∃ id, ev = DockerEvent.inspectContainer id := by
  intro ev hev
  unfold getLocalstack at hev
  by_cases hname : name ≠ ""
  · rw [if_pos hname] at hev
    rcases hlist : w.listContainers with err | containers <;> rw [hlist] at hev
    · simp at hev
      exact Or.inl hev
    · simp at hev
      rcases hev with hev | hev
      · exact Or.inl hev
      · exact Or.inr (findLocalstack_events w _ _ containers ev hev)
  · rw [if_neg hname] at hev
    simp at hev

theorem pollServices_events (w : DockerWrapper) (k : Nat)
    (l : LocalstackServiceCollection) :
    ∀ ev ∈ (pollServices w k l).snd, ∃ j, ev = DockerEvent.retry j := by
  induction l generalizing k with
  | nil => simp [pollServices]
  | cons s rest ih =>
    intro ev hev
    unfold pollServices at hev
    rcases hr : w.retryResults k with _ | err <;> rw [hr] at hev <;> simp at hev
    · rcases hev with hev | hev
      · exact ⟨k, hev⟩
      · exact ih (k + 1) ev hev
    · exact ⟨k, hev⟩

theorem acquireLocalstack_events (services : LocalstackServiceCollection)
    (w : DockerWrapper) (name repository tag data : String) :
    ∀ ev ∈ (acquireLocalstack services w name repository tag data).snd,
      ev = DockerEvent.listContainers ∨ (∃ id, ev = DockerEvent.inspectContainer id) ∨
      (∃ o, ev = DockerEvent.runWithOptions o) := by
  intro ev hev
  unfold acquireLocalstack at hev
  rcases hget : getLocalstack w name repository tag with ⟨res, t⟩
  rw [hget] at hev
  have hg : ∀ ev ∈ t, ev = DockerEvent.listContainers ∨
      ∃ id, ev = DockerEvent.inspectContainer id := by
    intro e he
    have := getLocalstack_events w name repository tag e
    rw [hget] at this
    exact this he
  rcases res with e | found
  · rcases hg ev hev with h | h
    · exact Or.inl h
    · exact Or.inr (Or.inl h)
  · rcases found with _ | r
    · have hev' : ev ∈ t ++ [DockerEvent.runWithOptions
          (buildRunOptions services name repository tag data)] := by
        rcases hrun : w.runWithOptions (buildRunOptions services name repository tag data)
          with err | r
        · simpa [hrun] using hev
        · simpa [hrun] using hev
      rcases List.mem_append.mp hev' with h | h
      · rcases hg ev h with h2 | h2
        · exact Or.inl h2
        · exact Or.inr (Or.inl h2)
      · simp at h
        exact Or.inr (Or.inr ⟨_, h⟩)
    · rcases hg ev hev with h | h
      · exact Or.inl h
      · exact Or.inr (Or.inl h)

theorem retryCalls_acquireLocalstack (services : LocalstackServiceCollection)
    (w : DockerWrapper) (name repository tag data : String) :
    retryCalls (acquireLocalstack services w name repository tag data).snd = [] := by
  rw [retryCalls, List.filterMap_eq_nil_iff]
  intro ev hev
  rcases acquireLocalstack_events services w name repository tag data ev hev with
    h | ⟨id, h⟩ | ⟨o, h⟩ <;> rw [h]

theorem runCalls_getLocalstack (w : DockerWrapper) (name repository tag : String) :
    runCalls (getLocalstack w name repository tag).snd = [] := by
  rw [runCalls, List.filterMap_eq_nil_iff]
  intro ev hev
  rcases getLocalstack_events w name repository tag ev hev with h | ⟨id, h⟩ <;> rw [h]

theorem runCalls_pollServices (w : DockerWrapper) (k : Nat)
    (l : LocalstackServiceCollection) :
    runCalls (pollServices w k l).snd = [] := by
  rw [runCalls, List.filterMap_eq_nil_iff]
  intro ev hev
  rcases pollServices_events w k l ev hev with ⟨j, h⟩
  rw [h]

theorem retryCalls_retryRange (k n : Nat) :
    retryCalls ((List.range' k n).map DockerEvent.retry) = List.range' k n := by
  rw [retryCalls, List.filterMap_map]
  rw [show ((fun ev => match ev with
      | DockerEvent.retry j => some j
      | _ => none) ∘ DockerEvent.retry) = some from rfl]
  exact List.filterMap_some _

theorem pollServices_all_ok (w : DockerWrapper) (l : LocalstackServiceCollection)
    (k : Nat) (h : ∀ i, i < l.length → w.retryResults (k + i) = none) :
    pollServices w k l = (.ok (), (List.range' k l.length).map DockerEvent.retry) := by
  induction l generalizing k with
  | nil => simp [pollServices]
  | cons s rest ih =>
    have h0 : w.retryResults k = none := by
      have := h 0 (by simp)
      simpa using this
    have hrest := ih (k + 1) (fun i hi => by
      have hval := h (i + 1) (by simpa using Nat.succ_lt_succ hi)
      have harith : k + 1 + i = k + (i + 1) := by omega
      rw [harith]
      exact hval)
    unfold pollServices
    rw [h0, hrest]
    simp [List.range'_succ]

theorem pollServices_fails_at (w : DockerWrapper) (l : LocalstackServiceCollection)
    (k n : Nat) (e : String) (hn : n < l.length)
    (hok : ∀ i, i < n → w.retryResults (k + i) = none)
    (herr : w.retryResults (k + n) = some e) :
    pollServices w k l =
      (.error ("unable to connect to " ++ (l.get ⟨n, hn⟩).Name ++ ": " ++ e),
       (List.range' k (n + 1)).map DockerEvent.retry) := by
  induction l generalizing k n with
  | nil => simp at hn
  | cons s rest ih =>
    cases n with
    | zero =>
      have h0 : w.retryResults k = some e := by simpa using herr
      unfold pollServices
      rw [h0]
      simp
    | succ m =>
      have h0 : w.retryResults k = none := by
        have := hok 0 (by simp)
        simpa using this
      have hm : m < rest.length := by simpa using Nat.lt_of_succ_lt_succ hn
      have hrest := ih (k + 1) m hm
        (fun i hi => by
          have hval := hok (i + 1) (Nat.succ_lt_succ hi)
          have harith : k + 1 + i = k + (i + 1) := by omega
          rw [harith]
          exact hval)
        (by
          have harith : k + 1 + m = k + (m + 1) := by omega
          rw [harith]
          exact herr)
      unfold pollServices
      rw [h0, hrest]
      simp [List.range'_succ]

theorem newPersistentLocalstack_of_acquired (services : LocalstackServiceCollection)
    (w : DockerWrapper) (name repository tag data : String) (res : Resource)
    (t : List DockerEvent)
    (h : acquireLocalstack services w name repository tag data = (.ok res, t)) :
    newPersistentLocalstack services w name repository tag data =
      match pollServices w 0 services with
      | (.error e, t2) => (.error e, t ++ t2)
      | (.ok _, t2) => (.ok { Resource := res, Services := services }, t ++ t2) := by
  unfold newPersistentLocalstack
  rw [h]

/-- C1: once construction has acquired a container resource, readiness is
polled through the adapter's retry operation exactly once per service in
collection order; when every retry succeeds there is one retry call per
service (indices 0, 1, ... in order) and construction succeeds, and when
the retry for the service at position n is the first to fail, exactly the
retries 0 through n happen - none for any later service - and
construction returns no handle but an error naming that service. -/
theorem readiness_polling_order (services : LocalstackServiceCollection)
    (w : DockerWrapper) (name repository tag data : String) (res : Resource)
    (hacq : (acquireLocalstack services w name repository tag data).fst
      = Except.ok res) :
    ((∀ k, k < services.length → w.retryResults k = none) →
      retryCalls (newPersistentLocalstack services w name repository tag data).snd
        = List.range services.length ∧
      (newPersistentLocalstack services w name repository tag data).fst
        = .ok { Resource := res, Services := services }) ∧
    (∀ n e (hn : n < services.length),
      (∀ k, k < n → w.retryResults k = none) →
      w.retryResults n = some e →
      retryCalls (newPersistentLocalstack services w name repository tag data).snd
        = List.range (n + 1) ∧
      (newPersistentLocalstack services w name repository tag data).fst
        = .error ("unable to connect to " ++ (services.get ⟨n, hn⟩).Name ++ ": " ++ e)) := by
  rcases hpair : acquireLocalstack services w name repository tag data with ⟨f, t⟩
  rw [hpair] at hacq
  simp only at hacq
  subst hacq
  have hnew := newPersistentLocalstack_of_acquired services w name repository tag data
    res t hpair
  have htr : retryCalls t = [] := by
    have := retryCalls_acquireLocalstack services w name repository tag data
    rw [hpair] at this
    exact this
  constructor
  · intro hall
    have hpoll := pollServices_all_ok w services 0 (fun i hi => by
      have := hall i hi
      simpa using this)
    rw [hpoll] at hnew
    rw [hnew]
    constructor
    · simp only [retryCalls, List.filterMap_append] at htr ⊢
      rw [htr]
      have := retryCalls_retryRange 0 services.length
      rw [retryCalls] at this
      rw [this, List.range_eq_range']
      simp
    · rfl
  · intro n e hn hok herr
    have hpoll := pollServices_fails_at w services 0 n e hn
      (fun i hi => by simpa using hok i hi) (by simpa using herr)
    rw [hpoll] at hnew
    rw [hnew]
    constructor
    · simp only [retryCalls, List.filterMap_append] at htr ⊢
      rw [htr]
      have := retryCalls_retryRange 0 (n + 1)
      rw [retryCalls] at this
      rw [this, List.range_eq_range']
      simp
    · rfl

/-- C1 witness: on the two-service set `{sqs, s3}`, the all-success
adapter performs exactly retries 0 and 1 and construction succeeds, and
the adapter whose retry 1 fails performs exactly retries 0 and 1 and
construction fails naming the second service `s3`. -/
theorem readiness_polling_order_witness :
    (retryCalls (newPersistentLocalstack [sampleSqs, sampleS3] sampleWrapper
        "" "localstack/localstack" "latest" "").snd = List.range 2 ∧
      (newPersistentLocalstack [sampleSqs, sampleS3] sampleWrapper
        "" "localstack/localstack" "latest" "").fst
        = .ok { Resource := sampleResource, Services := [sampleSqs, sampleS3] }) ∧
    (retryCalls (newPersistentLocalstack [sampleSqs, sampleS3] sampleWrapperRetryFails
        "" "localstack/localstack" "latest" "").snd = List.range 2 ∧
      (newPersistentLocalstack [sampleSqs, sampleS3] sampleWrapperRetryFails
        "" "localstack/localstack" "latest" "").fst
        = .error ("unable to connect to " ++ "s3" ++ ": " ++ "dummyError")) := by
  constructor
  · exact (readiness_polling_order [sampleSqs, sampleS3] sampleWrapper
      "" "localstack/localstack" "latest" "" sampleResource (by rfl)).1
      (by intro k hk; rfl)
  · exact (readiness_polling_order [sampleSqs, sampleS3] sampleWrapperRetryFails
      "" "localstack/localstack" "latest" "" sampleResource (by rfl)).2
      1 "dummyError" (by decide)
      (by
        intro k hk
        interval_cases k
        rfl)
      (by rfl)

/-- C2: with a non-empty explicit name and a successful listing, discovery
returns the inspected container of the first listed entry whose image is
exactly `<repository>:<tag>` and whose name list holds `/<name>`, and the
whole construction then performs no run call; when no listed entry
matches both conditions, discovery returns no resource and no error and
the construction performs exactly one run call (the creation path). -/
theorem getLocalstack_discovery (w : DockerWrapper)
    (services : LocalstackServiceCollection) (name repository tag data : String)
    (containers : List APIContainers)
    (hname : name ≠ "") (hlist : w.listContainers = .ok containers) :
    (∀ c container,
      firstMatch (repository ++ ":" ++ tag) ("/" ++ name) containers = some c →
      w.inspectContainer c.ID = .ok container →
      (getLocalstack w name repository tag).fst = .ok (some { Container := container }) ∧
      runCalls (newPersistentLocalstack services w name repository tag data).snd = []) ∧
    (firstMatch (repository ++ ":" ++ tag) ("/" ++ name) containers = none →
      (getLocalstack w name repository tag).fst = .ok none ∧
      ∃ o, runCalls (newPersistentLocalstack services w name repository tag data).snd
        = [o]) := by
  have hget : getLocalstack w name repository tag =
      ((findLocalstack w (repository ++ ":" ++ tag) ("/" ++ name) containers).fst,
       .listContainers ::
         (findLocalstack w (repository ++ ":" ++ tag) ("/" ++ name) containers).snd) := by
    unfold getLocalstack
    rw [if_pos hname, hlist]
  have hfind := findLocalstack_eq_firstMatch w (repository ++ ":" ++ tag) ("/" ++ name)
    containers
  constructor
  · intro c container hfirst hins
    rw [hfirst] at hfind
    dsimp only at hfind
    rw [hins] at hfind
    have hgeq : getLocalstack w name repository tag
        = (.ok (some { Container := container }),
           [DockerEvent.listContainers, DockerEvent.inspectContainer c.ID]) := by
      rw [hget, hfind]
    refine ⟨by rw [hgeq], ?_⟩
    have hacq : acquireLocalstack services w name repository tag data
        = (.ok { Container := container },
           [DockerEvent.listContainers, DockerEvent.inspectContainer c.ID]) := by
      unfold acquireLocalstack
      rw [hgeq]
    rcases hpoll : pollServices w 0 services with ⟨pf, pt⟩
    have hnew := newPersistentLocalstack_of_acquired services w name repository tag data
      { Container := container } _ hacq
    rw [hpoll] at hnew
    have hptrun : runCalls pt = [] := by
      have := runCalls_pollServices w 0 services
      rw [hpoll] at this
      exact this
    rcases pf with e | u <;> rw [hnew] <;>
      simp only [runCalls, List.filterMap_append, List.filterMap_cons,
        List.filterMap_nil] at hptrun ⊢ <;>
      simp [hptrun]
  · intro hfirst
    rw [hfirst] at hfind
    dsimp only at hfind
    have hgeq : getLocalstack w name repository tag
        = (.ok none, [DockerEvent.listContainers]) := by
      rw [hget, hfind]
    refine ⟨by rw [hgeq], ⟨buildRunOptions services name repository tag data, ?_⟩⟩
    rcases hrun : w.runWithOptions (buildRunOptions services name repository tag data)
      with err | r
    · have hacq : acquireLocalstack services w name repository tag data
          = (.error ("could not start resource: " ++ err),
             [DockerEvent.listContainers,
              DockerEvent.runWithOptions (buildRunOptions services name repository tag data)]) := by
        unfold acquireLocalstack
        rw [hgeq]
        dsimp only
        rw [hrun]
        rfl
      unfold newPersistentLocalstack
      rw [hacq]
      simp [runCalls]
    · have hacq : acquireLocalstack services w name repository tag data
          = (.ok r,
             [DockerEvent.listContainers,
              DockerEvent.runWithOptions (buildRunOptions services name repository tag data)]) := by
        unfold acquireLocalstack
        rw [hgeq]
        dsimp only
        rw [hrun]
        rfl
      rcases hpoll : pollServices w 0 services with ⟨pf, pt⟩
      have hnew := newPersistentLocalstack_of_acquired services w name repository tag data
        r _ hacq
      rw [hpoll] at hnew
      have hptrun : runCalls pt = [] := by
        have := runCalls_pollServices w 0 services
        rw [hpoll] at this
        exact this
      rcases pf with e | u <;> rw [hnew] <;>
        simp only [runCalls, List.filterMap_append, List.filterMap_cons,
          List.filterMap_nil] at hptrun ⊢ <;>
        simp [hptrun]

/-- C2 witness: requesting name `testname` against a listing holding the
sample container (image `localstack/localstack:0.11.5`, name
`/testname`) yields its inspected handle and no run call, while an empty
listing yields no resource, no error, and exactly one run call. -/
theorem getLocalstack_discovery_witness :
    (getLocalstack sampleWrapperFound "testname" "localstack/localstack" "0.11.5").fst
      = .ok (some { Container := sampleContainer }) ∧
    runCalls (newPersistentLocalstack [sampleSqs] sampleWrapperFound
        "testname" "localstack/localstack" "0.11.5" "").snd = [] ∧
    (getLocalstack sampleWrapper "testname" "localstack/localstack" "0.11.5").fst
      = .ok none ∧
    ∃ o, runCalls (newPersistentLocalstack [sampleSqs] sampleWrapper
        "testname" "localstack/localstack" "0.11.5" "").snd = [o] := by
  have h1 := (getLocalstack_discovery sampleWrapperFound [sampleSqs] "testname"
      "localstack/localstack" "0.11.5" "" [sampleListing] (by decide) (by rfl)).1
      sampleListing sampleContainer (by decide) (by rfl)
  have h2 := (getLocalstack_discovery sampleWrapper [sampleSqs] "testname"
      "localstack/localstack" "0.11.5" "" [] (by decide) (by rfl)).2 (by decide)
  exact ⟨h1.1, h1.2, h2.1, h2.2⟩

theorem string_length_pos_iff (s : String) : 0 < s.length ↔ s ≠ "" := by
  rcases s with ⟨l⟩
  rcases l with _ | ⟨c, cs⟩
  · simp [String.length, show ("" : String) = { data := [] } from rfl]
  · simp only [String.length, show ("" : String) = { data := [] } from rfl]
    constructor
    · intro _ h
      simpa using congrArg String.data h
    · intro _
      simp

theorem runCalls_of_creation (services : LocalstackServiceCollection)
    (w : DockerWrapper) (name repository tag data : String)
    (hdisc : (getLocalstack w name repository tag).fst = .ok none) :
    runCalls (newPersistentLocalstack services w name repository tag data).snd
      = [buildRunOptions services name repository tag data] := by
  rcases hg : getLocalstack w name repository tag with ⟨gf, gt⟩
  rw [hg] at hdisc
  simp only at hdisc
  subst hdisc
  have hgt : runCalls gt = [] := by
    have := runCalls_getLocalstack w name repository tag
    rw [hg] at this
    exact this
  rcases hrun : w.runWithOptions (buildRunOptions services name repository tag data)
    with err | r
  · have hacq : acquireLocalstack services w name repository tag data
        = (.error ("could not start resource: " ++ err),
           gt ++ [DockerEvent.runWithOptions
             (buildRunOptions services name repository tag data)]) := by
      unfold acquireLocalstack
      rw [hg]
      dsimp only
      rw [hrun]
    unfold newPersistentLocalstack
    rw [hacq]
    simp only [runCalls, List.filterMap_append, List.filterMap_cons,
      List.filterMap_nil] at hgt ⊢
    simp [hgt]
  · have hacq : acquireLocalstack services w name repository tag data
        = (.ok r,
           gt ++ [DockerEvent.runWithOptions
             (buildRunOptions services name repository tag data)]) := by
      unfold acquireLocalstack
      rw [hg]
      dsimp only
      rw [hrun]
    rcases hpoll : pollServices w 0 services with ⟨pf, pt⟩
    have hnew := newPersistentLocalstack_of_acquired services w name repository tag data
      r _ hacq
    rw [hpoll] at hnew
    have hpt : runCalls pt = [] := by
      have := runCalls_pollServices w 0 services
      rw [hpoll] at this
      exact this
    rcases pf with e | u <;> rw [hnew] <;>
      simp only [runCalls, List.filterMap_append, List.filterMap_cons,
        List.filterMap_nil] at hgt hpt ⊢ <;>
      simp [hgt, hpt]

/-- C4: when discovery yields no container, construction performs exactly
one run call, whose options carry image `<repository>:<tag>` (as the
repository and tag fields), the supplied name, and a
`SERVICES=<enablement string>` environment entry; a non-empty
persisted-data path additionally contributes a `DATA_DIR=<path>`
environment entry and the fixed `/tmp/localstack/data` bind mount, while
an empty path contributes neither. -/
theorem runOptions_spec (services : LocalstackServiceCollection)
    (w : DockerWrapper) (name repository tag data : String)
    (hdisc : (getLocalstack w name repository tag).fst = .ok none) :
    ∃ o, runCalls (NewPersistentSpecificLocalstack
        services name repository tag data w).snd = [o] ∧
      o.Repository = repository ∧ o.Tag = tag ∧ o.Name = name ∧
      ("SERVICES=" ++ GetServiceMap services) ∈ o.Env ∧
      (data ≠ "" → ("DATA_DIR=" ++ data) ∈ o.Env ∧
        o.Mounts = ["/tmp/localstack/data:/tmp/localstack/data"]) ∧
      (data = "" → o.Env = ["SERVICES=" ++ GetServiceMap services] ∧
        o.Mounts = []) := by
  refine ⟨buildRunOptions services name repository tag data,
    runCalls_of_creation services w name repository tag data hdisc, ?_⟩
  by_cases hd : data = ""
  · subst hd
    refine ⟨rfl, rfl, rfl, ?_, ?_, ?_⟩
    · simp [buildRunOptions]
    · intro hne
      exact absurd rfl hne
    · intro _
      exact ⟨rfl, rfl⟩
  · have hpos : 0 < data.length := (string_length_pos_iff data).mpr hd
    have hbuild : buildRunOptions services name repository tag data =
        { Repository := repository
          Tag := tag
          Name := name
          Env := ["SERVICES=" ++ GetServiceMap services, "DATA_DIR=" ++ data]
          Mounts := ["/tmp/localstack/data:/tmp/localstack/data"] } := by
      unfold buildRunOptions
      rw [if_pos hpos]
      rfl
    rw [hbuild]
    refine ⟨rfl, rfl, rfl, by simp, ?_, ?_⟩
    · intro _
      exact ⟨by simp, rfl⟩
    · intro h
      exact absurd h hd

/-- C4 witness: against the sample adapter with an empty listing, the
creation path runs once; with data path `/tmp/data` the options carry the
`DATA_DIR` entry and the bind mount, and with an empty data path they
carry only the `SERVICES` entry and no mount. -/
theorem runOptions_spec_witness :
    (∃ o, runCalls (NewPersistentSpecificLocalstack
        [sampleSqs] "" "localstack/localstack" "latest" "/tmp/data" sampleWrapper).snd
        = [o] ∧
      o.Repository = "localstack/localstack" ∧ o.Tag = "latest" ∧ o.Name = "" ∧
      ("SERVICES=" ++ GetServiceMap [sampleSqs]) ∈ o.Env ∧
      ("/tmp/data" ≠ "" → ("DATA_DIR=" ++ "/tmp/data") ∈ o.Env ∧
        o.Mounts = ["/tmp/localstack/data:/tmp/localstack/data"]) ∧
      ("/tmp/data" = "" → o.Env = ["SERVICES=" ++ GetServiceMap [sampleSqs]] ∧
        o.Mounts = [])) ∧
    (∃ o, runCalls (NewPersistentSpecificLocalstack
        [sampleSqs] "" "localstack/localstack" "latest" "" sampleWrapper).snd
        = [o] ∧
      o.Repository = "localstack/localstack" ∧ o.Tag = "latest" ∧ o.Name = "" ∧
      ("SERVICES=" ++ GetServiceMap [sampleSqs]) ∈ o.Env ∧
      ("" ≠ "" → ("DATA_DIR=" ++ "") ∈ o.Env ∧
        o.Mounts = ["/tmp/localstack/data:/tmp/localstack/data"]) ∧
      ("" = "" → o.Env = ["SERVICES=" ++ GetServiceMap [sampleSqs]] ∧
        o.Mounts = [])) :=
  ⟨runOptions_spec [sampleSqs] sampleWrapper "" "localstack/localstack" "latest"
      "/tmp/data" (by rfl),
   runOptions_spec [sampleSqs] sampleWrapper "" "localstack/localstack" "latest"
      "" (by rfl)⟩

/-- C7: a failing container listing, a failing inspect of the matched
container, or a failing fresh-container start each abort construction
with no handle and an error wrapping the underlying failure with its
context string; no failure path yields a usable handle. -/
theorem construction_failure_propagation (services : LocalstackServiceCollection)
    (w : DockerWrapper) (name repository tag data : String) :
    (∀ err, name ≠ "" → w.listContainers = .error err →
      (newPersistentLocalstack services w name repository tag data).fst
        = .error ("unable to retrieve docker containers: " ++ err)) ∧
    (∀ containers c err, name ≠ "" → w.listContainers = .ok containers →
      firstMatch (repository ++ ":" ++ tag) ("/" ++ name) containers = some c →
      w.inspectContainer c.ID = .error err →
      (newPersistentLocalstack services w name repository tag data).fst
        = .error ("unable to inspect container " ++ c.ID ++ ": " ++ err)) ∧
    (∀ err, (getLocalstack w name repository tag).fst = .ok none →
      w.runWithOptions (buildRunOptions services name repository tag data) = .error err →
      (newPersistentLocalstack services w name repository tag data).fst
        = .error ("could not start resource: " ++ err)) := by
  refine ⟨?_, ?_, ?_⟩
  · intro err hname hlist
    have hget : getLocalstack w name repository tag
        = (.error ("unable to retrieve docker containers: " ++ err),
           [DockerEvent.listContainers]) := by
      unfold getLocalstack
      rw [if_pos hname, hlist]
    have hacq : acquireLocalstack services w name repository tag data
        = (.error ("unable to retrieve docker containers: " ++ err),
           [DockerEvent.listContainers]) := by
      unfold acquireLocalstack
      rw [hget]
    unfold newPersistentLocalstack
    rw [hacq]
  · intro containers c err hname hlist hfirst hins
    have hfind := findLocalstack_eq_firstMatch w (repository ++ ":" ++ tag) ("/" ++ name)
      containers
    rw [hfirst] at hfind
    dsimp only at hfind
    rw [hins] at hfind
    dsimp only at hfind
    have hget : getLocalstack w name repository tag
        = (.error ("unable to inspect container " ++ c.ID ++ ": " ++ err),
           [DockerEvent.listContainers, DockerEvent.inspectContainer c.ID]) := by
      unfold getLocalstack
      rw [if_pos hname, hlist]
      dsimp only
      rw [hfind]
    have hacq : acquireLocalstack services w name repository tag data
        = (.error ("unable to inspect container " ++ c.ID ++ ": " ++ err),
           [DockerEvent.listContainers, DockerEvent.inspectContainer c.ID]) := by
      unfold acquireLocalstack
      rw [hget]
    unfold newPersistentLocalstack
    rw [hacq]
  · intro err hdisc hrun
    rcases hg : getLocalstack w name repository tag with ⟨gf, gt⟩
    rw [hg] at hdisc
    simp only at hdisc
    subst hdisc
    have hacq : acquireLocalstack services w name repository tag data
        = (.error ("could not start resource: " ++ err),
           gt ++ [DockerEvent.runWithOptions
             (buildRunOptions services name repository tag data)]) := by
      unfold acquireLocalstack
      rw [hg]
      dsimp only
      rw [hrun]
    unfold newPersistentLocalstack
    rw [hacq]

/-- C7 witness: each of the three failure shapes at a concrete adapter -
listing failure, inspect failure on the matched sample container, run
failure on an empty listing - produces the wrapped error and no handle. -/
theorem construction_failure_propagation_witness :
    (newPersistentLocalstack [sampleSqs]
        { sampleWrapper with listContainers := .error "dummy Error" }
        "testname" "localstack/localstack" "0.11.5" "").fst
      = .error ("unable to retrieve docker containers: " ++ "dummy Error") ∧
    (newPersistentLocalstack [sampleSqs]
        { sampleWrapperFound with inspectContainer := fun _ => .error "dummy Error" }
        "testname" "localstack/localstack" "0.11.5" "").fst
      = .error ("unable to inspect container " ++ "abc123" ++ ": " ++ "dummy Error") ∧
    (newPersistentLocalstack [sampleSqs]
        { sampleWrapper with runWithOptions := fun _ => .error "dummy Error" }
        "" "localstack/localstack" "latest" "").fst
      = .error ("could not start resource: " ++ "dummy Error") := by
  refine ⟨?_, ?_, ?_⟩
  · exact (construction_failure_propagation [sampleSqs]
      { sampleWrapper with listContainers := .error "dummy Error" }
      "testname" "localstack/localstack" "0.11.5" "").1 "dummy Error" (by decide) (by rfl)
  · exact (construction_failure_propagation [sampleSqs]
      { sampleWrapperFound with inspectContainer := fun _ => .error "dummy Error" }
      "testname" "localstack/localstack" "0.11.5" "").2.1 [sampleListing] sampleListing
      "dummy Error" (by decide) (by rfl) (by decide) (by rfl)
  · exact (construction_failure_propagation [sampleSqs]
      { sampleWrapper with runWithOptions := fun _ => .error "dummy Error" }
      "" "localstack/localstack" "latest" "").2.2 "dummy Error" (by rfl) (by rfl)

/-- C8 counterexample: on the seven-element collection with two services
named `a` (ports 1111 and 2222, in that order), `Sort` returns the
collection sorted by name but with the two equal-named services in the
opposite of their original relative order - the gap-6 shell pass moves
the later `a` across the earlier one - so the ordering is not stable. -/
theorem Sort_stability_counterexample :
    LocalstackServiceCollection.Sort sortCounterexampleInput =
      [{ Name := "a", Protocol := "tcp", Port := 2222 },
       { Name := "a", Protocol := "tcp", Port := 1111 },
       { Name := "b", Protocol := "tcp", Port := 4566 },
       { Name := "c", Protocol := "tcp", Port := 4566 },
       { Name := "d", Protocol := "tcp", Port := 4566 },
       { Name := "e", Protocol := "tcp", Port := 4566 },
       { Name := "z", Protocol := "tcp", Port := 4566 }] ∧
    sortCounterexampleInput.indexOf { Name := "a", Protocol := "tcp", Port := 1111 }
      < sortCounterexampleInput.indexOf { Name := "a", Protocol := "tcp", Port := 2222 } ∧
    (LocalstackServiceCollection.Sort sortCounterexampleInput).indexOf
        { Name := "a", Protocol := "tcp", Port := 2222 }
      < (LocalstackServiceCollection.Sort sortCounterexampleInput).indexOf
        { Name := "a", Protocol := "tcp", Port := 1111 } := by
  refine ⟨by decide, by decide, by decide⟩

theorem charListLt_iff (cs ds : List Char) : charListLt cs ds = true ↔ cs < ds := by
  show charListLt cs ds = true ↔ List.Lex (· < ·) cs ds
  induction cs generalizing ds with
  | nil =>
    cases ds with
    | nil =>
      simp only [charListLt]
      constructor
      · intro h
        exact Bool.noConfusion h
      · intro h
        cases h
    | cons d ds =>
      simp only [charListLt]
      exact ⟨fun _ => List.Lex.nil, fun _ => trivial⟩
  | cons c cs ih =>
    cases ds with
    | nil =>
      simp only [charListLt]
      constructor
      · intro h
        exact Bool.noConfusion h
      · intro h
        cases h
    | cons d ds =>
      simp only [charListLt]
      by_cases hcd : c < d
      · simp only [if_pos hcd]
        exact ⟨fun _ => List.Lex.rel hcd, fun _ => trivial⟩
      · simp only [if_neg hcd]
        by_cases hdc : d < c
        · simp only [if_pos hdc]
          constructor
          · intro h
            exact Bool.noConfusion h
          · intro h
            cases h with
            | cons h1 => exact absurd hdc (lt_irrefl c)
            | rel h1 => exact absurd h1 hcd
        · simp only [if_neg hdc]
          have hed : c = d := le_antisymm (not_lt.mp hdc) (not_lt.mp hcd)
          subst hed
          rw [ih ds]
          constructor
          · intro h
            exact List.Lex.cons h
          · intro h
            cases h with
            | cons h1 => exact h1
            | rel h1 => exact absurd h1 (lt_irrefl c)

theorem goStringLt_iff (s t : String) : goStringLt s t = true ↔ s < t := by
  rw [String.lt_iff_toList_lt]
  exact charListLt_iff s.data t.data

theorem goStringLt_false_iff (s t : String) : goStringLt s t = false ↔ t ≤ s := by
  rw [← Bool.not_eq_true, goStringLt_iff s t]
  exact not_lt

theorem Less_iff (d : LocalstackServiceCollection) (i j : Nat) :
    Less d i j = true ↔ nmAt d i < nmAt d j :=
  goStringLt_iff _ _

theorem Less_false_iff (d : LocalstackServiceCollection) (i j : Nat) :
    Less d i j = false ↔ nmAt d j ≤ nmAt d i :=
  goStringLt_false_iff _ _

theorem getD_eq_dif (d : LocalstackServiceCollection) (i : Nat) :
    d.getD i default = if h : i < d.length then d[i] else default := by
  rw [List.getD_eq_getElem?_getD]
  split
  · rename_i h
    rw [List.getElem?_eq_getElem h]
    rfl
  · rename_i h
    rw [List.getElem?_eq_none (le_of_not_lt h)]
    rfl

theorem length_Swap (d : LocalstackServiceCollection) (i j : Nat) :
    (Swap d i j).length = d.length := by
  unfold Swap
  split
  · simp
  · rfl

theorem getD_set_self (d : LocalstackServiceCollection) (i : Nat)
    (a : LocalstackService) (h : i < d.length) :
    (d.set i a).getD i default = a := by
  rw [getD_eq_dif, dif_pos (by simpa using h)]
  simp [List.getElem_set]

theorem getD_set_ne (d : LocalstackServiceCollection) (i k : Nat)
    (a : LocalstackService) (h : k ≠ i) :
    (d.set i a).getD k default = d.getD k default := by
  rw [getD_eq_dif, getD_eq_dif]
  rcases Nat.lt_or_ge k d.length with hk | hk
  · rw [dif_pos (by simpa using hk), dif_pos hk]
    rw [List.getElem_set, if_neg (fun hh => h (hh.symm))]
  · rw [dif_neg (by simpa using not_lt.mpr hk), dif_neg (not_lt.mpr hk)]

theorem Swap_getD_left (d : LocalstackServiceCollection) (i j : Nat)
    (hi : i < d.length) (hj : j < d.length) :
    (Swap d i j).getD i default = d.getD j default := by
  unfold Swap
  rw [if_pos ⟨hi, hj⟩]
  by_cases hij : i = j
  · subst hij
    rw [getD_set_self _ _ _ (by simpa using hi)]
  · rw [getD_set_ne _ _ _ _ hij, getD_set_self _ _ _ hi]

theorem Swap_getD_right (d : LocalstackServiceCollection) (i j : Nat)
    (hi : i < d.length) (hj : j < d.length) :
    (Swap d i j).getD j default = d.getD i default := by
  unfold Swap
  rw [if_pos ⟨hi, hj⟩]
  rw [getD_set_self _ _ _ (by simpa using hj)]

theorem Swap_getD_other (d : LocalstackServiceCollection) (i j k : Nat)
    (hki : k ≠ i) (hkj : k ≠ j) :
    (Swap d i j).getD k default = d.getD k default := by
  unfold Swap
  split
  · rw [getD_set_ne _ _ _ _ hkj, getD_set_ne _ _ _ _ hki]
  · rfl

theorem set_eq_take_cons_drop (l : LocalstackServiceCollection) (m : Nat)
    (a : LocalstackService) (h : m < l.length) :
    l.set m a = l.take m ++ a :: l.drop (m + 1) := by
  induction l generalizing m with
  | nil => simp at h
  | cons x xs ih =>
    cases m with
    | zero => simp
    | succ m =>
      have hrec := ih m (by simpa using h)
      simp only [List.set_cons_succ, List.take_succ_cons, List.drop_succ_cons,
        List.cons_append]
      rw [hrec]

theorem list_eq_take_cons_drop (l : LocalstackServiceCollection) (m : Nat)
    (h : m < l.length) :
    l = l.take m ++ l[m] :: l.drop (m + 1) := by
  conv_lhs => rw [← List.take_append_drop m l]
  rw [List.drop_eq_getElem_cons h]

theorem decomp_two (l : LocalstackServiceCollection) (i j : Nat)
    (hij : i < j) (hj : j < l.length) :
    l = l.take i ++ l[i] ::
      ((l.drop (i + 1)).take (j - (i + 1)) ++ l[j] :: l.drop (j + 1)) := by
  have hi : i < l.length := lt_trans hij hj
  conv_lhs => rw [list_eq_take_cons_drop l i hi]
  congr 1
  congr 1
  conv_lhs => rw [← List.take_append_drop (j - (i + 1)) (l.drop (i + 1))]
  congr 1
  rw [List.drop_drop]
  have harith : i + 1 + (j - (i + 1)) = j := by omega
  rw [harith]
  exact List.drop_eq_getElem_cons hj

theorem Swap_eq_of_lt (d : LocalstackServiceCollection) (i j : Nat)
    (hij : i < j) (hj : j < d.length) :
    Swap d i j = d.take i ++ d[j] ::
      ((d.drop (i + 1)).take (j - (i + 1)) ++ d[i] :: d.drop (j + 1)) := by
  have hi : i < d.length := lt_trans hij hj
  have hvj : d.getD j default = d[j] := by rw [getD_eq_dif, dif_pos hj]
  have hvi : d.getD i default = d[i] := by rw [getD_eq_dif, dif_pos hi]
  have hlen : j < ((d.set i d[j]).set j d[i]).length := by simpa using hj
  have h1 : ((d.set i d[j]).set j d[i]).take i = d.take i := by
    rw [List.set_take, List.set_take]
    have e1 : ((d.take i).set i d[j]).set j d[i] = (d.take i).set i d[j] :=
      List.set_eq_of_length_le (by simp [List.length_take]; omega)
    have e2 : (d.take i).set i d[j] = d.take i :=
      List.set_eq_of_length_le (by simp [List.length_take])
    rw [e1, e2]
  have hleni : i < ((d.set i d[j]).set j d[i]).length := lt_trans hij hlen
  have h2 : ((d.set i d[j]).set j d[i])[i] = d[j] := by
    rw [List.getElem_set, if_neg (by omega), List.getElem_set, if_pos rfl]
  have h3 : ((d.set i d[j]).set j d[i]).drop (i + 1)
      = (d.drop (i + 1)).set (j - (i + 1)) d[i] := by
    rw [List.drop_set, if_neg (by omega)]
    rw [List.drop_set, if_pos (by omega)]
  have h4 : (((d.set i d[j]).set j d[i]).drop (i + 1)).take (j - (i + 1))
      = (d.drop (i + 1)).take (j - (i + 1)) := by
    rw [h3, List.set_take]
    exact List.set_eq_of_length_le (by simp [List.length_take])
  have h5 : ((d.set i d[j]).set j d[i])[j] = d[i] := by
    rw [List.getElem_set, if_pos rfl]
  have h6 : ((d.set i d[j]).set j d[i]).drop (j + 1) = d.drop (j + 1) := by
    rw [List.drop_set, if_pos (by omega), List.drop_set, if_pos (by omega)]
  unfold Swap
  rw [if_pos ⟨hi, hj⟩, hvi, hvj]
  conv_lhs => rw [decomp_two ((d.set i d[j]).set j d[i]) i j hij hlen]
  rw [h1, h2, h4, h5, h6]

theorem cons_middle_swap (x y : LocalstackService) (M R : LocalstackServiceCollection) :
    (y :: (M ++ x :: R)).Perm (x :: (M ++ y :: R)) := by
  have s1 : (y :: (M ++ x :: R)).Perm (y :: (x :: (M ++ R))) :=
    List.Perm.cons y List.perm_middle
  have s2 : (y :: (x :: (M ++ R))).Perm (x :: (y :: (M ++ R))) :=
    List.Perm.swap x y (M ++ R)
  have s3 : (x :: (y :: (M ++ R))).Perm (x :: (M ++ y :: R)) :=
    List.Perm.cons x List.perm_middle.symm
  exact (s1.trans s2).trans s3

theorem Swap_perm (d : LocalstackServiceCollection) (i j : Nat) :
    (Swap d i j).Perm d := by
  rcases Nat.lt_trichotomy i j with hij | hij | hij
  · by_cases hj : j < d.length
    · rw [Swap_eq_of_lt d i j hij hj]
      conv_rhs => rw [decomp_two d i j hij hj]
      exact List.Perm.append_left _ (cons_middle_swap _ _ _ _)
    · unfold Swap
      rw [if_neg (by intro hc; exact hj hc.2)]
  · subst hij
    unfold Swap
    split
    · rename_i h
      rw [List.set_set]
      have hi1 : i < d.length := h.1
      have hvi : d.getD i default = d[i] := by rw [getD_eq_dif, dif_pos hi1]
      rw [hvi]
      rw [set_eq_take_cons_drop d i _ h.1]
      conv_rhs => rw [list_eq_take_cons_drop d i h.1]
    · exact List.Perm.refl d
  · by_cases hi : i < d.length
    · have hswap : Swap d i j = Swap d j i := by
        unfold Swap
        rw [if_pos ⟨hi, lt_trans hij hi⟩, if_pos ⟨lt_trans hij hi, hi⟩]
        rw [List.set_comm _ _ _ (Nat.ne_of_gt hij)]
      rw [hswap, Swap_eq_of_lt d j i hij hi]
      conv_rhs => rw [decomp_two d j i hij hi]
      exact List.Perm.append_left _ (cons_middle_swap _ _ _ _)
    · unfold Swap
      rw [if_neg (by intro hc; exact hi hc.1)]

theorem length_seg (d : LocalstackServiceCollection) (a b : Nat) :
    (seg d a b).length = min (b - a) (d.length - a) := by
  simp [seg]

theorem seg_nil (d : LocalstackServiceCollection) (a b : Nat) (h : b ≤ a) :
    seg d a b = [] := by
  unfold seg
  rw [Nat.sub_eq_zero_of_le h]
  simp

theorem seg_whole (d : LocalstackServiceCollection) : seg d 0 d.length = d := by
  unfold seg
  simp

theorem seg_take (d : LocalstackServiceCollection) (a : Nat) :
    seg d 0 a = d.take a := by
  simp [seg]

theorem seg_drop (d : LocalstackServiceCollection) (b : Nat) (h : b ≤ d.length) :
    seg d b d.length = d.drop b := by
  unfold seg
  exact List.take_of_length_le (by simp)

theorem seg_split (d : LocalstackServiceCollection) (a m b : Nat)
    (ham : a ≤ m) (hmb : m ≤ b) :
    seg d a b = seg d a m ++ seg d m b := by
  unfold seg
  have harith : b - a = (m - a) + (b - m) := by omega
  rw [harith, List.take_add]
  congr 1
  rw [List.drop_drop]
  congr 2
  omega

theorem getElem?_seg (d : LocalstackServiceCollection) (a b k : Nat) (h : k < b - a) :
    (seg d a b)[k]? = d[a + k]? := by
  unfold seg
  rw [List.getElem?_take_of_lt h, List.getElem?_drop]

theorem seg_congr (d d' : LocalstackServiceCollection) (a b : Nat)
    (hlen : d'.length = d.length)
    (h : ∀ k, a ≤ k → k < b → d'.getD k default = d.getD k default) :
    seg d' a b = seg d a b := by
  apply List.ext_getElem?
  intro k
  by_cases hk : k < b - a
  · rw [getElem?_seg _ _ _ _ hk, getElem?_seg _ _ _ _ hk]
    have hgd := h (a + k) (Nat.le_add_right a k) (by omega)
    by_cases hin : a + k < d.length
    · rw [List.getElem?_eq_getElem hin, List.getElem?_eq_getElem (by omega)]
      have h1 : d'.getD (a + k) default = d'[a + k] := by
        rw [getD_eq_dif, dif_pos (by omega)]
      have h2 : d.getD (a + k) default = d[a + k] := by
        rw [getD_eq_dif, dif_pos hin]
      rw [h1, h2] at hgd
      rw [hgd]
    · rw [List.getElem?_eq_none (by omega), List.getElem?_eq_none (by omega)]
  · have hk1 : (seg d' a b).length ≤ k := by
      rw [length_seg]
      omega
    have hk2 : (seg d a b).length ≤ k := by
      rw [length_seg]
      omega
    rw [List.getElem?_eq_none hk1, List.getElem?_eq_none hk2]

theorem list_eq_of_getD (d d' : LocalstackServiceCollection)
    (hlen : d'.length = d.length)
    (h : ∀ k, d'.getD k default = d.getD k default) : d' = d := by
  apply List.ext_getElem?
  intro k
  by_cases hk : k < d.length
  · rw [List.getElem?_eq_getElem hk, List.getElem?_eq_getElem (by omega)]
    have hgd := h k
    rw [getD_eq_dif, dif_pos (by omega), getD_eq_dif, dif_pos hk] at hgd
    rw [hgd]
  · rw [List.getElem?_eq_none (by omega), List.getElem?_eq_none (by omega)]

theorem permWithin_refl (d : LocalstackServiceCollection) (a b : Nat) :
    PermWithin d d a b :=
  ⟨rfl, fun _ _ => rfl, List.Perm.refl _⟩

theorem permWithin_trans {d1 d2 d3 : LocalstackServiceCollection} {a b : Nat}
    (h12 : PermWithin d1 d2 a b) (h23 : PermWithin d2 d3 a b) :
    PermWithin d1 d3 a b := by
  obtain ⟨hl12, ho12, hp12⟩ := h12
  obtain ⟨hl23, ho23, hp23⟩ := h23
  exact ⟨hl23.trans hl12, fun k hk => (ho23 k hk).trans (ho12 k hk),
    hp23.trans hp12⟩

theorem permWithin_decomp (d d' : LocalstackServiceCollection) (a b : Nat)
    (hab : a ≤ b) (hb : b ≤ d.length) (hlen : d'.length = d.length) :
    d' = d'.take a ++ seg d' a b ++ d'.drop b ∧ d = d.take a ++ seg d a b ++ d.drop b := by
  constructor
  · conv_lhs => rw [← List.take_append_drop a d']
    rw [List.append_assoc]
    congr 1
    conv_lhs => rw [← List.take_append_drop (b - a) (d'.drop a)]
    unfold seg
    congr 1
    rw [List.drop_drop]
    congr 1
    omega
  · conv_lhs => rw [← List.take_append_drop a d]
    rw [List.append_assoc]
    congr 1
    conv_lhs => rw [← List.take_append_drop (b - a) (d.drop a)]
    unfold seg
    congr 1
    rw [List.drop_drop]
    congr 1
    omega

theorem permWithin_perm {d d' : LocalstackServiceCollection} {a b : Nat}
    (h : PermWithin d d' a b) (hb : b ≤ d.length) : d'.Perm d := by
  obtain ⟨hlen, hout, hseg⟩ := h
  by_cases hab : a ≤ b
  · obtain ⟨hd', hd⟩ := permWithin_decomp d d' a b hab hb hlen
    have htake : d'.take a = d.take a := by
      rw [← seg_take, ← seg_take]
      exact seg_congr d d' 0 a hlen (fun k _ hk => hout k (Or.inl hk))
    have hdrop : d'.drop b = d.drop b := by
      rw [← seg_drop _ _ (by omega), ← seg_drop _ _ hb, hlen]
      exact seg_congr d d' b d.length hlen (fun k hk _ => hout k (Or.inr hk))
    rw [hd', hd, htake, hdrop]
    rw [List.append_assoc, List.append_assoc]
    exact List.Perm.append_left _ (hseg.append_right _)
  · have : d' = d := by
      apply list_eq_of_getD d d' hlen
      intro k
      rcases Nat.lt_or_ge k a with hk | hk
      · exact hout k (Or.inl hk)
      · exact hout k (Or.inr (by omega))
    rw [this]

theorem permWithin_of_perm_outside (d d' : LocalstackServiceCollection) (a b : Nat)
    (hb : b ≤ d.length) (hlen : d'.length = d.length)
    (hout : ∀ k, k < a ∨ b ≤ k → d'.getD k default = d.getD k default)
    (hperm : d'.Perm d) : PermWithin d d' a b := by
  refine ⟨hlen, hout, ?_⟩
  by_cases hab : a ≤ b
  · obtain ⟨hd', hd⟩ := permWithin_decomp d d' a b hab hb hlen
    have htake : d'.take a = d.take a := by
      rw [← seg_take, ← seg_take]
      exact seg_congr d d' 0 a hlen (fun k _ hk => hout k (Or.inl hk))
    have hdrop : d'.drop b = d.drop b := by
      rw [← seg_drop _ _ (by omega), ← seg_drop _ _ hb, hlen]
      exact seg_congr d d' b d.length hlen (fun k hk _ => hout k (Or.inr hk))
    rw [hd', hd, htake, hdrop] at hperm
    rw [List.append_assoc, List.append_assoc] at hperm
    have h1 := (List.perm_append_left_iff (d.take a)).mp hperm
    exact (List.perm_append_right_iff (d.drop b)).mp h1
  · rw [seg_nil _ _ _ (by omega), seg_nil _ _ _ (by omega)]

theorem permWithin_swap (d : LocalstackServiceCollection) (i j a b : Nat)
    (hai : a ≤ i) (hib : i < b) (haj : a ≤ j) (hjb : j < b) (hb : b ≤ d.length) :
    PermWithin d (Swap d i j) a b := by
  apply permWithin_of_perm_outside d _ a b hb (length_Swap d i j)
  · intro k hk
    apply Swap_getD_other
    · rcases hk with hk | hk <;> omega
    · rcases hk with hk | hk <;> omega
  · exact Swap_perm d i j

theorem permWithin_mono {d d' : LocalstackServiceCollection} {a' b' : Nat}
    (a b : Nat) (h : PermWithin d d' a' b') (haa : a ≤ a') (hbb : b' ≤ b)
    (hb : b ≤ d.length) : PermWithin d d' a b := by
  apply permWithin_of_perm_outside d d' a b hb h.1
  · intro k hk
    apply h.2.1
    rcases hk with hk | hk
    · exact Or.inl (by omega)
    · exact Or.inr (by omega)
  · exact permWithin_perm h (by omega)

theorem foldl_permWithin (a b L : Nat)
    (f : LocalstackServiceCollection → Nat → LocalstackServiceCollection)
    (idxs : List Nat) (hb : b ≤ L)
    (hf : ∀ d' i, i ∈ idxs → d'.length = L → PermWithin d' (f d' i) a b) :
    ∀ d : LocalstackServiceCollection, d.length = L →
      PermWithin d (idxs.foldl f d) a b := by
  induction idxs with
  | nil =>
    intro d _
    exact permWithin_refl d a b
  | cons i rest ih =>
    intro d hd
    have h1 : PermWithin d (f d i) a b := hf d i (List.mem_cons_self i rest) hd
    have h2 := ih (fun d' i hmem hlen => hf d' i (List.mem_cons_of_mem _ hmem) hlen)
      (f d i) (h1.1.trans hd)
    exact permWithin_trans h1 h2

theorem insertionSortInner_permWithin (d : LocalstackServiceCollection)
    (a p : Nat) (hp : p < d.length) :
    PermWithin d (insertionSortInner d a p) a (p + 1) := by
  induction p generalizing d with
  | zero =>
    unfold insertionSortInner
    exact permWithin_refl d a 1
  | succ j ih =>
    unfold insertionSortInner
    split
    · rename_i hcond
      rcases (Bool.and_eq_true _ _).mp hcond with ⟨h1, _⟩
      have hja : a ≤ j := by
        have := of_decide_eq_true h1
        omega
      have hswap := permWithin_swap d (j + 1) j a (j + 2) (by omega) (by omega)
        hja (by omega) (by omega)
      have hih := ih (Swap d (j + 1) j) (by rw [length_Swap]; omega)
      have hih2 := permWithin_mono a (j + 2) hih (le_refl a) (by omega)
        (by rw [length_Swap]; omega)
      exact permWithin_trans hswap hih2
    · exact permWithin_refl d a (j + 2)

theorem insertionSort_permWithin (d : LocalstackServiceCollection) (a b : Nat)
    (hb : b ≤ d.length) : PermWithin d (insertionSort d a b) a b := by
  unfold insertionSort
  apply foldl_permWithin a b d.length _ _ hb _ d rfl
  intro d' i hmem hlen
  have hi : i < b := by
    rcases List.mem_range'_1.mp hmem with ⟨h1, h2⟩
    omega
  have h1 := insertionSortInner_permWithin d' a i (by omega)
  exact permWithin_mono a b h1 (le_refl a) (by omega) (by omega)

theorem shellPass_permWithin (d : LocalstackServiceCollection) (a b : Nat)
    (hb : b ≤ d.length) : PermWithin d (shellPass d a b) a b := by
  unfold shellPass
  apply foldl_permWithin a b d.length _ _ hb _ d rfl
  intro d' i hmem hlen
  have hi : a + 6 ≤ i ∧ i < b := by
    rcases List.mem_range'_1.mp hmem with ⟨h1, h2⟩
    omega
  split
  · exact permWithin_swap d' i (i - 6) a b (by omega) (by omega) (by omega)
      (by omega) (by omega)
  · exact permWithin_refl d' a b

theorem siftDownAux_permWithin (d : LocalstackServiceCollection)
    (root hi first fuel : Nat) (hwin : first + hi ≤ d.length) :
    PermWithin d (siftDownAux d root hi first fuel) first (first + hi) := by
  induction fuel generalizing d root with
  | zero => exact permWithin_refl d first (first + hi)
  | succ fuel ih =>
    unfold siftDownAux
    dsimp only
    split
    · exact permWithin_refl d first (first + hi)
    · rename_i hchild
      have hch : 2 * root + 1 < hi := by omega
      split
      · rename_i hcsel
        rcases (Bool.and_eq_true _ _).mp hcsel with ⟨h1, _⟩
        have hc2 : 2 * root + 1 + 1 < hi := of_decide_eq_true h1
        split
        · exact permWithin_refl d first (first + hi)
        · have hswap := permWithin_swap d (first + root) (first + (2 * root + 1 + 1))
            first (first + hi) (by omega) (by omega) (by omega) (by omega) hwin
          have hih := ih (Swap d (first + root) (first + (2 * root + 1 + 1)))
            (2 * root + 1 + 1) (by rw [length_Swap]; omega)
          exact permWithin_trans hswap hih
      · split
        · exact permWithin_refl d first (first + hi)
        · have hswap := permWithin_swap d (first + root) (first + (2 * root + 1))
            first (first + hi) (by omega) (by omega) (by omega) (by omega) hwin
          have hih := ih (Swap d (first + root) (first + (2 * root + 1)))
            (2 * root + 1) (by rw [length_Swap]; omega)
          exact permWithin_trans hswap hih

theorem siftDown_permWithin (d : LocalstackServiceCollection)
    (lo hi first : Nat) (hwin : first + hi ≤ d.length) :
    PermWithin d (siftDown d lo hi first) first (first + hi) :=
  siftDownAux_permWithin d lo hi first hi hwin

theorem heapSort_permWithin (d : LocalstackServiceCollection) (a b : Nat)
    (hb : b ≤ d.length) (hab : a ≤ b) : PermWithin d (heapSort d a b) a b := by
  unfold heapSort
  dsimp only
  have hwrap : ∀ d' : LocalstackServiceCollection, d'.length = d.length →
      ∀ i, PermWithin d' (siftDown d' i (b - a) a) a b := by
    intro d' hlen i
    have h := siftDown_permWithin d' i (b - a) a (by omega)
    exact permWithin_mono a b h (le_refl a) (by omega) (by omega)
  have h1 := foldl_permWithin a b d.length
    (fun d i => siftDown d i (b - a) a)
    ((List.range ((b - a - 1) / 2 + 1)).reverse) hb
    (fun d' i _ hlen => hwrap d' hlen i) d rfl
  have h2 := foldl_permWithin a b d.length
    (fun d i => siftDown (Swap d a (a + i)) 0 i a)
    ((List.range (b - a)).reverse) hb
    (fun d' i hmem hlen => by
      have hi : i < b - a := by
        rcases List.mem_reverse.mp hmem with hmem2
        exact List.mem_range.mp hmem2
      have hsw := permWithin_swap d' a (a + i) a b (le_refl a) (by omega)
        (by omega) (by omega) (by omega)
      have hsd := siftDown_permWithin (Swap d' a (a + i)) 0 i a
        (by rw [length_Swap]; omega)
      have hsd2 := permWithin_mono a b hsd (le_refl a) (by omega)
        (by rw [length_Swap]; omega)
      exact permWithin_trans hsw hsd2)
    _ h1.1
  exact permWithin_trans h1 h2

theorem medianOfThree_permWithin (d : LocalstackServiceCollection)
    (m1 m0 m2 lo hi : Nat) (h1 : lo ≤ m1) (h2 : m1 < hi) (h3 : lo ≤ m0)
    (h4 : m0 < hi) (h5 : lo ≤ m2) (h6 : m2 < hi) (hhi : hi ≤ d.length) :
    PermWithin d (medianOfThree d m1 m0 m2) lo hi := by
  unfold medianOfThree
  dsimp only
  have swap1 : ∀ d' : LocalstackServiceCollection, d'.length = d.length →
      ∀ i j, lo ≤ i → i < hi → lo ≤ j → j < hi →
      PermWithin d' (Swap d' i j) lo hi := by
    intro d' hlen i j ha hb hc hd
    exact permWithin_swap d' i j lo hi ha hb hc hd (by omega)
  split
  · rename_i hc1
    have p1 := swap1 d rfl m1 m0 h1 h2 h3 h4
    have hlen1 : (Swap d m1 m0).length = d.length := length_Swap d m1 m0
    split
    · rename_i hc2
      have p2 := swap1 (Swap d m1 m0) hlen1 m2 m1 h5 h6 h1 h2
      have hlen2 : (Swap (Swap d m1 m0) m2 m1).length = d.length := by
        rw [length_Swap, hlen1]
      split
      · rename_i hc3
        have p3 := swap1 (Swap (Swap d m1 m0) m2 m1) hlen2 m1 m0 h1 h2 h3 h4
        exact permWithin_trans p1 (permWithin_trans p2 p3)
      · exact permWithin_trans p1 p2
    · exact p1
  · split
    · rename_i hc2
      have p2 := swap1 d rfl m2 m1 h5 h6 h1 h2
      have hlen2 : (Swap d m2 m1).length = d.length := length_Swap d m2 m1
      split
      · rename_i hc3
        have p3 := swap1 (Swap d m2 m1) hlen2 m1 m0 h1 h2 h3 h4
        exact permWithin_trans p2 p3
      · exact p2
    · exact permWithin_refl d lo hi

theorem doPivotLoopA_ge (d : LocalstackServiceCollection) (pivot c : Nat) :
    ∀ fuel a, a ≤ doPivotLoopA d pivot c a fuel := by
  intro fuel
  induction fuel with
  | zero => intro a; exact le_refl a
  | succ fuel ih =>
    intro a
    unfold doPivotLoopA
    split
    · exact le_trans (Nat.le_succ a) (ih (a + 1))
    · exact le_refl a

theorem doPivotLoopA_le (d : LocalstackServiceCollection) (pivot c : Nat) :
    ∀ fuel a, a ≤ c → doPivotLoopA d pivot c a fuel ≤ c := by
  intro fuel
  induction fuel with
  | zero => intro a h; exact h
  | succ fuel ih =>
    intro a h
    unfold doPivotLoopA
    split
    · rename_i hc
      rcases (Bool.and_eq_true _ _).mp hc with ⟨h1, _⟩
      have := of_decide_eq_true h1
      exact ih (a + 1) (by omega)
    · exact h

theorem doPivotLoopB_ge (d : LocalstackServiceCollection) (pivot c : Nat) :
    ∀ fuel b, b ≤ doPivotLoopB d pivot c b fuel := by
  intro fuel
  induction fuel with
  | zero => intro b; exact le_refl b
  | succ fuel ih =>
    intro b
    unfold doPivotLoopB
    split
    · exact le_trans (Nat.le_succ b) (ih (b + 1))
    · exact le_refl b

theorem doPivotLoopB_le (d : LocalstackServiceCollection) (pivot c : Nat) :
    ∀ fuel b, b ≤ c → doPivotLoopB d pivot c b fuel ≤ c := by
  intro fuel
  induction fuel with
  | zero => intro b h; exact h
  | succ fuel ih =>
    intro b h
    unfold doPivotLoopB
    split
    · rename_i hc
      rcases (Bool.and_eq_true _ _).mp hc with ⟨h1, _⟩
      have := of_decide_eq_true h1
      exact ih (b + 1) (by omega)
    · exact h

theorem doPivotLoopB_exit (d : LocalstackServiceCollection) (pivot c : Nat) :
    ∀ fuel b, c - b ≤ fuel → doPivotLoopB d pivot c b fuel < c →
      Less d pivot (doPivotLoopB d pivot c b fuel) = true := by
  intro fuel
  induction fuel with
  | zero =>
    intro b hfuel hlt
    unfold doPivotLoopB at hlt ⊢
    omega
  | succ fuel ih =>
    intro b hfuel hlt
    unfold doPivotLoopB at hlt ⊢
    split
    · rename_i hc
      rw [if_pos hc] at hlt
      exact ih (b + 1) (by
        rcases (Bool.and_eq_true _ _).mp hc with ⟨h1, _⟩
        have := of_decide_eq_true h1
        omega) hlt
    · rename_i hc
      rw [if_neg hc] at hlt
      rcases Bool.and_eq_false_iff.mp (Bool.eq_false_iff.mpr hc) with h | h
      · exfalso
        have hb' : decide (b < c) = true := decide_eq_true hlt
        rw [hb'] at h
        exact Bool.noConfusion h
      · simpa using h

theorem doPivotLoopA_exit (d : LocalstackServiceCollection) (pivot c : Nat) :
    ∀ fuel a, c - a ≤ fuel → doPivotLoopA d pivot c a fuel < c →
      Less d (doPivotLoopA d pivot c a fuel) pivot = false := by
  intro fuel
  induction fuel with
  | zero =>
    intro a hfuel hlt
    unfold doPivotLoopA at hlt ⊢
    omega
  | succ fuel ih =>
    intro a hfuel hlt
    unfold doPivotLoopA at hlt ⊢
    split
    · rename_i hc
      rw [if_pos hc] at hlt
      exact ih (a + 1) (by
        rcases (Bool.and_eq_true _ _).mp hc with ⟨h1, _⟩
        have := of_decide_eq_true h1
        omega) hlt
    · rename_i hc
      rw [if_neg hc] at hlt
      rcases Bool.and_eq_false_iff.mp (Bool.eq_false_iff.mpr hc) with h | h
      · exfalso
        have hb' : decide (a < c) = true := decide_eq_true hlt
        rw [hb'] at h
        exact Bool.noConfusion h
      · exact h

theorem doPivotLoopA_scan (d : LocalstackServiceCollection) (pivot c : Nat) :
    ∀ fuel a k, a ≤ k → k < doPivotLoopA d pivot c a fuel →
      Less d k pivot = true := by
  intro fuel
  induction fuel with
  | zero =>
    intro a k h1 h2
    unfold doPivotLoopA at h2
    omega
  | succ fuel ih =>
    intro a k h1 h2
    unfold doPivotLoopA at h2
    split at h2
    · rename_i hc
      rcases (Bool.and_eq_true _ _).mp hc with ⟨_, hless⟩
      rcases Nat.eq_or_lt_of_le h1 with heq | hlt
      · rw [heq] at hless
        exact hless
      · exact ih (a + 1) k hlt h2
    · omega

theorem doPivotLoopC_le (d : LocalstackServiceCollection) (pivot b : Nat) :
    ∀ fuel c, doPivotLoopC d pivot b c fuel ≤ c := by
  intro fuel
  induction fuel with
  | zero => intro c; exact le_refl c
  | succ fuel ih =>
    intro c
    unfold doPivotLoopC
    split
    · exact le_trans (ih (c - 1)) (Nat.sub_le c 1)
    · exact le_refl c

theorem doPivotLoopC_ge (d : LocalstackServiceCollection) (pivot b : Nat) :
    ∀ fuel c, b ≤ c → b ≤ doPivotLoopC d pivot b c fuel := by
  intro fuel
  induction fuel with
  | zero => intro c h; exact h
  | succ fuel ih =>
    intro c h
    unfold doPivotLoopC
    split
    · rename_i hc
      rcases (Bool.and_eq_true _ _).mp hc with ⟨h1, _⟩
      have := of_decide_eq_true h1
      exact ih (c - 1) (by omega)
    · exact h

theorem doPivotLoopC_exit (d : LocalstackServiceCollection) (pivot b : Nat) :
    ∀ fuel c, c - b ≤ fuel → b < doPivotLoopC d pivot b c fuel →
      Less d pivot (doPivotLoopC d pivot b c fuel - 1) = false := by
  intro fuel
  induction fuel with
  | zero =>
    intro c hfuel hlt
    unfold doPivotLoopC at hlt ⊢
    omega
  | succ fuel ih =>
    intro c hfuel hlt
    unfold doPivotLoopC at hlt ⊢
    split
    · rename_i hc
      rw [if_pos hc] at hlt
      exact ih (c - 1) (by
        rcases (Bool.and_eq_true _ _).mp hc with ⟨h1, _⟩
        have := of_decide_eq_true h1
        omega) hlt
    · rename_i hc
      rw [if_neg hc] at hlt
      rcases Bool.and_eq_false_iff.mp (Bool.eq_false_iff.mpr hc) with h | h
      · exfalso
        have hb' : decide (b < c) = true := decide_eq_true hlt
        rw [hb'] at h
        exact Bool.noConfusion h
      · exact h

theorem doPivotLoopC_scan (d : LocalstackServiceCollection) (pivot b : Nat) :
    ∀ fuel c k, doPivotLoopC d pivot b c fuel ≤ k → k < c →
      Less d pivot k = true := by
  intro fuel
  induction fuel with
  | zero =>
    intro c k h1 h2
    unfold doPivotLoopC at h1
    omega
  | succ fuel ih =>
    intro c k h1 h2
    unfold doPivotLoopC at h1
    split at h1
    · rename_i hc
      rcases (Bool.and_eq_true _ _).mp hc with ⟨_, hless⟩
      rcases Nat.lt_or_ge k (c - 1) with hlt | hge
      · exact ih (c - 1) k h1 hlt
      · rw [show k = c - 1 by omega]
        exact hless
    · omega

theorem doPivotLoopB_scan (d : LocalstackServiceCollection) (pivot c : Nat) :
    ∀ fuel b k, b ≤ k → k < doPivotLoopB d pivot c b fuel →
      Less d pivot k = false := by
  intro fuel
  induction fuel with
  | zero =>
    intro b k h1 h2
    unfold doPivotLoopB at h2
    omega
  | succ fuel ih =>
    intro b k h1 h2
    unfold doPivotLoopB at h2
    split at h2
    · rename_i hc
      rcases (Bool.and_eq_true _ _).mp hc with ⟨_, hless⟩
      rcases Nat.eq_or_lt_of_le h1 with heq | hlt
      · rw [heq] at hless
        simpa using hless
      · exact ih (b + 1) k hlt h2
    · omega

theorem protectLoopB_le (d : LocalstackServiceCollection) (pivot a : Nat) :
    ∀ fuel b, protectLoopB d pivot a b fuel ≤ b := by
  intro fuel
  induction fuel with
  | zero => intro b; exact le_refl b
  | succ fuel ih =>
    intro b
    unfold protectLoopB
    split
    · exact le_trans (ih (b - 1)) (Nat.sub_le b 1)
    · exact le_refl b

theorem protectLoopB_ge (d : LocalstackServiceCollection) (pivot a : Nat) :
    ∀ fuel b, a ≤ b → a ≤ protectLoopB d pivot a b fuel := by
  intro fuel
  induction fuel with
  | zero => intro b h; exact h
  | succ fuel ih =>
    intro b h
    unfold protectLoopB
    split
    · rename_i hc
      rcases (Bool.and_eq_true _ _).mp hc with ⟨h1, _⟩
      have := of_decide_eq_true h1
      exact ih (b - 1) (by omega)
    · exact h

theorem protectLoopB_exit (d : LocalstackServiceCollection) (pivot a : Nat) :
    ∀ fuel b, b - a ≤ fuel → a < protectLoopB d pivot a b fuel →
      Less d (protectLoopB d pivot a b fuel - 1) pivot = true := by
  intro fuel
  induction fuel with
  | zero =>
    intro b hfuel hlt
    unfold protectLoopB at hlt ⊢
    omega
  | succ fuel ih =>
    intro b hfuel hlt
    unfold protectLoopB at hlt ⊢
    split
    · rename_i hc
      rw [if_pos hc] at hlt
      exact ih (b - 1) (by
        rcases (Bool.and_eq_true _ _).mp hc with ⟨h1, _⟩
        have := of_decide_eq_true h1
        omega) hlt
    · rename_i hc
      rw [if_neg hc] at hlt
      rcases Bool.and_eq_false_iff.mp (Bool.eq_false_iff.mpr hc) with h | h
      · exfalso
        have hb' : decide (a < b) = true := decide_eq_true hlt
        rw [hb'] at h
        exact Bool.noConfusion h
      · simpa using h

theorem protectLoopB_scan (d : LocalstackServiceCollection) (pivot a : Nat) :
    ∀ fuel b k, protectLoopB d pivot a b fuel ≤ k → k < b →
      Less d k pivot = false := by
  intro fuel
  induction fuel with
  | zero =>
    intro b k h1 h2
    unfold protectLoopB at h1
    omega
  | succ fuel ih =>
    intro b k h1 h2
    unfold protectLoopB at h1
    split at h1
    · rename_i hc
      rcases (Bool.and_eq_true _ _).mp hc with ⟨_, hless⟩
      rcases Nat.lt_or_ge k (b - 1) with hlt | hge
      · exact ih (b - 1) k h1 hlt
      · rw [show k = b - 1 by omega]
        simpa using hless
    · omega

theorem protectLoopA_ge (d : LocalstackServiceCollection) (pivot b : Nat) :
    ∀ fuel a, a ≤ protectLoopA d pivot b a fuel := by
  intro fuel
  induction fuel with
  | zero => intro a; exact le_refl a
  | succ fuel ih =>
    intro a
    unfold protectLoopA
    split
    · exact le_trans (Nat.le_succ a) (ih (a + 1))
    · exact le_refl a

theorem protectLoopA_le (d : LocalstackServiceCollection) (pivot b : Nat) :
    ∀ fuel a, a ≤ b → protectLoopA d pivot b a fuel ≤ b := by
  intro fuel
  induction fuel with
  | zero => intro a h; exact h
  | succ fuel ih =>
    intro a h
    unfold protectLoopA
    split
    · rename_i hc
      rcases (Bool.and_eq_true _ _).mp hc with ⟨h1, _⟩
      have := of_decide_eq_true h1
      exact ih (a + 1) (by omega)
    · exact h

theorem protectLoopA_exit (d : LocalstackServiceCollection) (pivot b : Nat) :
    ∀ fuel a, b - a ≤ fuel → protectLoopA d pivot b a fuel < b →
      Less d (protectLoopA d pivot b a fuel) pivot = false := by
  intro fuel
  induction fuel with
  | zero =>
    intro a hfuel hlt
    unfold protectLoopA at hlt ⊢
    omega
  | succ fuel ih =>
    intro a hfuel hlt
    unfold protectLoopA at hlt ⊢
    split
    · rename_i hc
      rw [if_pos hc] at hlt
      exact ih (a + 1) (by
        rcases (Bool.and_eq_true _ _).mp hc with ⟨h1, _⟩
        have := of_decide_eq_true h1
        omega) hlt
    · rename_i hc
      rw [if_neg hc] at hlt
      rcases Bool.and_eq_false_iff.mp (Bool.eq_false_iff.mpr hc) with h | h
      · exfalso
        have hb' : decide (a < b) = true := decide_eq_true hlt
        rw [hb'] at h
        exact Bool.noConfusion h
      · exact h

theorem protectLoopA_scan (d : LocalstackServiceCollection) (pivot b : Nat) :
    ∀ fuel a k, a ≤ k → k < protectLoopA d pivot b a fuel →
      Less d k pivot = true := by
  intro fuel
  induction fuel with
  | zero =>
    intro a k h1 h2
    unfold protectLoopA at h2
    omega
  | succ fuel ih =>
    intro a k h1 h2
    unfold protectLoopA at h2
    split at h2
    · rename_i hc
      rcases (Bool.and_eq_true _ _).mp hc with ⟨_, hless⟩
      rcases Nat.eq_or_lt_of_le h1 with heq | hlt
      · rw [heq] at hless
        exact hless
      · exact ih (a + 1) k hlt h2
    · omega

theorem Less_eq_nm (d : LocalstackServiceCollection) (i j : Nat) :
    Less d i j = goStringLt (nmAt d i) (nmAt d j) := rfl

theorem doPivotMain_spec (pivot a hi : Nat) (hpiv : pivot < a) :
    ∀ (fuel : Nat) (d : LocalstackServiceCollection) (b c : Nat),
    a ≤ b → b ≤ c → c ≤ hi - 1 → hi ≤ d.length → c - b < fuel →
    (∀ k, a ≤ k → k < b → Less d pivot k = false) →
    (∀ k, c ≤ k → k < hi - 1 → Less d pivot k = true) →
    PermWithin d (doPivotMain d pivot b c fuel).fst a (hi - 1) ∧
    (doPivotMain d pivot b c fuel).snd.fst = (doPivotMain d pivot b c fuel).snd.snd ∧
    b ≤ (doPivotMain d pivot b c fuel).snd.fst ∧
    (doPivotMain d pivot b c fuel).snd.snd ≤ c ∧
    (∀ k, a ≤ k → k < (doPivotMain d pivot b c fuel).snd.fst →
      Less (doPivotMain d pivot b c fuel).fst pivot k = false) ∧
    (∀ k, (doPivotMain d pivot b c fuel).snd.snd ≤ k → k < hi - 1 →
      Less (doPivotMain d pivot b c fuel).fst pivot k = true) := by
  intro fuel
  induction fuel with
  | zero =>
    intro d b c hab hbc hc hhi hfuel h1 h2
    omega
  | succ fuel ih =>
    intro d b c hab hbc hc hhi hfuel h1 h2
    unfold doPivotMain
    dsimp only
    set b1 := doPivotLoopB d pivot c b (c - b) with hb1def
    set c1 := doPivotLoopC d pivot b1 c (c - b1) with hc1def
    have hbb1 : b ≤ b1 := doPivotLoopB_ge d pivot c (c - b) b
    have hb1c : b1 ≤ c := doPivotLoopB_le d pivot c (c - b) b hbc
    have hb1c1 : b1 ≤ c1 := doPivotLoopC_ge d pivot b1 (c - b1) c hb1c
    have hc1c : c1 ≤ c := doPivotLoopC_le d pivot b1 (c - b1) c
    have hH1b1 : ∀ k, a ≤ k → k < b1 → Less d pivot k = false := by
      intro k hk1 hk2
      rcases Nat.lt_or_ge k b with hk | hk
      · exact h1 k hk1 hk
      · exact doPivotLoopB_scan d pivot c (c - b) b k hk hk2
    have hH2c1 : ∀ k, c1 ≤ k → k < hi - 1 → Less d pivot k = true := by
      intro k hk1 hk2
      rcases Nat.lt_or_ge k c with hk | hk
      · exact doPivotLoopC_scan d pivot b1 (c - b1) c k hk1 hk
      · exact h2 k hk hk2
    split
    · rename_i hexit
      refine ⟨permWithin_refl d a (hi - 1), ?_, ?_, ?_, ?_, ?_⟩ <;> dsimp only
      · omega
      · exact hbb1
      · exact hc1c
      · intro k hk1 hk2
        exact hH1b1 k hk1 hk2
      · intro k hk1 hk2
        exact hH2c1 k hk1 hk2
    · rename_i hcont
      have hb1ltc1 : b1 < c1 := by omega
      have hb1ltc : b1 < c := by omega
      have hexitB : Less d pivot b1 = true :=
        doPivotLoopB_exit d pivot c (c - b) b (le_refl _) hb1ltc
      have hexitC : Less d pivot (c1 - 1) = false :=
        doPivotLoopC_exit d pivot b1 (c - b1) c (le_refl _) hb1ltc1
      have hgap : b1 + 1 ≤ c1 - 1 := by
        rcases Nat.lt_or_ge (b1 + 1) c1 with hgt | hge
        · omega
        · exfalso
          have : c1 - 1 = b1 := by omega
          rw [this] at hexitC
          rw [hexitB] at hexitC
          exact Bool.noConfusion hexitC
      have hc1m1 : c1 - 1 < d.length := by omega
      have hb1len : b1 < d.length := by omega
      have hplen : pivot < d.length := by omega
      set d2 := Swap d b1 (c1 - 1) with hd2def
      have hd2len : d2.length = d.length := length_Swap d b1 (c1 - 1)
      have hnm_piv : nmAt d2 pivot = nmAt d pivot := by
        unfold nmAt
        rw [Swap_getD_other d b1 (c1 - 1) pivot (by omega) (by omega)]
      have hnm_b1 : nmAt d2 b1 = nmAt d (c1 - 1) := by
        unfold nmAt
        rw [Swap_getD_left d b1 (c1 - 1) hb1len hc1m1]
      have hnm_c1m1 : nmAt d2 (c1 - 1) = nmAt d b1 := by
        unfold nmAt
        rw [Swap_getD_right d b1 (c1 - 1) hb1len hc1m1]
      have hnm_other : ∀ k, k ≠ b1 → k ≠ c1 - 1 → nmAt d2 k = nmAt d k := by
        intro k hk1 hk2
        unfold nmAt
        rw [Swap_getD_other d b1 (c1 - 1) k hk1 hk2]
      have hH1d2 : ∀ k, a ≤ k → k < b1 + 1 → Less d2 pivot k = false := by
        intro k hk1 hk2
        rcases Nat.lt_or_ge k b1 with hk | hk
        · rw [Less_eq_nm, hnm_piv, hnm_other k (by omega) (by omega), ← Less_eq_nm]
          exact hH1b1 k hk1 hk
        · have hkb1 : k = b1 := by omega
          rw [hkb1, Less_eq_nm, hnm_piv, hnm_b1, ← Less_eq_nm]
          exact hexitC
      have hH2d2 : ∀ k, c1 - 1 ≤ k → k < hi - 1 → Less d2 pivot k = true := by
        intro k hk1 hk2
        rcases Nat.eq_or_lt_of_le hk1 with hk | hk
        · rw [← hk, Less_eq_nm, hnm_piv, hnm_c1m1, ← Less_eq_nm]
          exact hexitB
        · rw [Less_eq_nm, hnm_piv, hnm_other k (by omega) (by omega), ← Less_eq_nm]
          exact hH2c1 k (by omega) hk2
      have hih := ih d2 (b1 + 1) (c1 - 1) (by omega) hgap (by omega)
        (by rw [hd2len]; exact hhi) (by omega) hH1d2 hH2d2
      obtain ⟨hperm, heq, hble, hcle, hpost1, hpost2⟩ := hih
      have hswapperm : PermWithin d d2 a (hi - 1) :=
        permWithin_swap d b1 (c1 - 1) a (hi - 1) (by omega) (by omega) (by omega)
          (by omega) (by omega)
      refine ⟨permWithin_trans hswapperm hperm, heq, by omega, by omega, hpost1, hpost2⟩

theorem protectMain_spec (pivot : Nat) :
    ∀ (fuel : Nat) (d : LocalstackServiceCollection) (a b : Nat),
    pivot < a → a ≤ b → b ≤ d.length → b - a < fuel →
    (∀ k, a ≤ k → k < b → Less d pivot k = false) →
    PermWithin d (protectMain d pivot a b fuel).fst a b ∧
    (protectMain d pivot a b fuel).snd.fst = (protectMain d pivot a b fuel).snd.snd ∧
    a ≤ (protectMain d pivot a b fuel).snd.snd ∧
    (protectMain d pivot a b fuel).snd.snd ≤ b ∧
    (∀ k, a ≤ k → k < (protectMain d pivot a b fuel).snd.snd →
      Less (protectMain d pivot a b fuel).fst k pivot = true) ∧
    (∀ k, (protectMain d pivot a b fuel).snd.snd ≤ k → k < b →
      nmAt (protectMain d pivot a b fuel).fst k = nmAt d pivot) := by
  intro fuel
  induction fuel with
  | zero =>
    intro d a b hpiv hab hblen hfuel hpre
    omega
  | succ fuel ih =>
    intro d a b hpiv hab hblen hfuel hpre
    unfold protectMain
    dsimp only
    set b1 := protectLoopB d pivot a b (b - a) with hb1def
    set a1 := protectLoopA d pivot b1 a (b1 - a) with ha1def
    have hb1b : b1 ≤ b := protectLoopB_le d pivot a (b - a) b
    have hab1 : a ≤ b1 := protectLoopB_ge d pivot a (b - a) b hab
    have haa1 : a ≤ a1 := protectLoopA_ge d pivot b1 (b1 - a) a
    have ha1b1 : a1 ≤ b1 := protectLoopA_le d pivot b1 (b1 - a) a hab1
    have hmid : ∀ k, b1 ≤ k → k < b → nmAt d k = nmAt d pivot := by
      intro k hk1 hk2
      have hge : Less d k pivot = false := protectLoopB_scan d pivot a (b - a) b k hk1 hk2
      have hle : Less d pivot k = false := hpre k (by omega) hk2
      rw [Less_false_iff] at hge hle
      exact le_antisymm hle hge
    have hlow : ∀ k, a ≤ k → k < a1 → Less d k pivot = true :=
      protectLoopA_scan d pivot b1 (b1 - a) a
    split
    · rename_i hexit
      have haeq : a1 = b1 := by omega
      refine ⟨permWithin_refl d a b, ?_, ?_, ?_, ?_, ?_⟩ <;> dsimp only
      · omega
      · omega
      · omega
      · intro k hk1 hk2
        exact hlow k hk1 (by omega)
      · intro k hk1 hk2
        exact hmid k hk1 hk2
    · rename_i hcont
      have ha1ltb1 : a1 < b1 := by omega
      have hexitA : Less d a1 pivot = false :=
        protectLoopA_exit d pivot b1 (b1 - a) a (le_refl _) ha1ltb1
      have hexitB : Less d (b1 - 1) pivot = true :=
        protectLoopB_exit d pivot a (b - a) b (le_refl _) (by omega)
      have hgap : a1 + 1 ≤ b1 - 1 := by
        rcases Nat.lt_or_ge (a1 + 1) b1 with hgt | hge
        · omega
        · exfalso
          have : b1 - 1 = a1 := by omega
          rw [this] at hexitB
          rw [hexitA] at hexitB
          exact Bool.noConfusion hexitB
      have ha1len : a1 < d.length := by omega
      have hb1m1len : b1 - 1 < d.length := by omega
      set d2 := Swap d a1 (b1 - 1) with hd2def
      have hd2len : d2.length = d.length := length_Swap d a1 (b1 - 1)
      have hnm_piv : nmAt d2 pivot = nmAt d pivot := by
        unfold nmAt
        rw [Swap_getD_other d a1 (b1 - 1) pivot (by omega) (by omega)]
      have hnm_a1 : nmAt d2 a1 = nmAt d (b1 - 1) := by
        unfold nmAt
        rw [Swap_getD_left d a1 (b1 - 1) ha1len hb1m1len]
      have hnm_b1m1 : nmAt d2 (b1 - 1) = nmAt d a1 := by
        unfold nmAt
        rw [Swap_getD_right d a1 (b1 - 1) ha1len hb1m1len]
      have hnm_other : ∀ k, k ≠ a1 → k ≠ b1 - 1 → nmAt d2 k = nmAt d k := by
        intro k hk1 hk2
        unfold nmAt
        rw [Swap_getD_other d a1 (b1 - 1) k hk1 hk2]
      have hpre2 : ∀ k, a1 + 1 ≤ k → k < b1 - 1 → Less d2 pivot k = false := by
        intro k hk1 hk2
        rw [Less_eq_nm, hnm_piv, hnm_other k (by omega) (by omega), ← Less_eq_nm]
        exact hpre k (by omega) (by omega)
      have hih := ih d2 (a1 + 1) (b1 - 1) (by omega) hgap
        (by rw [hd2len]; omega) (by omega) hpre2
      obtain ⟨hperm, heq, hge2, hle2, hpost1, hpost2⟩ := hih
      have hswapperm : PermWithin d d2 a b :=
        permWithin_swap d a1 (b1 - 1) a b (by omega) (by omega) (by omega)
          (by omega) hblen
      have hpermrec : PermWithin d2 (protectMain d2 pivot (a1 + 1) (b1 - 1) fuel).fst a b :=
        permWithin_mono a b hperm (by omega) (by omega) (by rw [hd2len]; omega)
      have hout := hperm.2.1
      refine ⟨permWithin_trans hswapperm hpermrec, heq, by omega, by omega, ?_, ?_⟩
      · intro k hk1 hk2
        rcases Nat.lt_or_ge k (a1 + 1) with hk | hk
        · have hkval : nmAt (protectMain d2 pivot (a1 + 1) (b1 - 1) fuel).fst k
              = nmAt d2 k := by
            unfold nmAt
            rw [hout k (Or.inl hk)]
          rw [Less_eq_nm, hkval]
          rcases Nat.lt_or_ge k a1 with hka | hka
          · have hpivval : nmAt (protectMain d2 pivot (a1 + 1) (b1 - 1) fuel).fst pivot
                = nmAt d2 pivot := by
              unfold nmAt
              rw [hout pivot (Or.inl (by omega))]
            rw [hpivval, hnm_other k (by omega) (by omega), hnm_piv, ← Less_eq_nm]
            exact hlow k hk1 hka
          · have hka1 : k = a1 := by omega
            have hpivval : nmAt (protectMain d2 pivot (a1 + 1) (b1 - 1) fuel).fst pivot
                = nmAt d2 pivot := by
              unfold nmAt
              rw [hout pivot (Or.inl (by omega))]
            rw [hka1, hpivval, hnm_a1, hnm_piv, ← Less_eq_nm]
            exact hexitB
        · exact hpost1 k hk (by omega)
      · intro k hk1 hk2
        rcases Nat.lt_or_ge k (b1 - 1) with hk | hk
        · rw [hpost2 k hk1 hk, hnm_piv]
        · have hkval : nmAt (protectMain d2 pivot (a1 + 1) (b1 - 1) fuel).fst k
              = nmAt d2 k := by
            unfold nmAt
            rw [hout k (Or.inr hk)]
          rw [hkval]
          rcases Nat.eq_or_lt_of_le hk with hke | hkgt
          · rw [← hke, hnm_b1m1]
            have := hexitA
            rw [Less_false_iff] at this
            have hle : Less d pivot a1 = false := hpre a1 (by omega) (by omega)
            rw [Less_false_iff] at hle
            exact le_antisymm hle this
          · rw [hnm_other k (by omega) (by omega)]
            exact hmid k (by omega) hk2

theorem medianOfThree_length (d : LocalstackServiceCollection) (m1 m0 m2 : Nat) :
    (medianOfThree d m1 m0 m2).length = d.length := by
  unfold medianOfThree
  dsimp only
  split <;> split <;> first
    | (split <;> simp [length_Swap])
    | simp [length_Swap]

theorem medianOfThree_le (d : LocalstackServiceCollection) (m1 m0 m2 : Nat)
    (h01 : m0 ≠ m1) (h02 : m0 ≠ m2) (h12 : m1 ≠ m2)
    (hm1 : m1 < d.length) (hm0 : m0 < d.length) (hm2 : m2 < d.length) :
    nmAt (medianOfThree d m1 m0 m2) m1 ≤ nmAt (medianOfThree d m1 m0 m2) m2 := by
  unfold medianOfThree
  dsimp only
  set d1 := if Less d m1 m0 = true then Swap d m1 m0 else d with hd1
  have hlen1 : d1.length = d.length := by
    rw [hd1]
    split
    · exact length_Swap d m1 m0
    · rfl
  have hinv1 : nmAt d1 m0 ≤ nmAt d1 m1 := by
    rw [hd1]
    split
    · rename_i hc
      rw [Less_iff] at hc
      unfold nmAt
      rw [Swap_getD_right d m1 m0 hm1 hm0, Swap_getD_left d m1 m0 hm1 hm0]
      exact le_of_lt hc
    · rename_i hc
      rw [Bool.not_eq_true, Less_false_iff] at hc
      exact hc
  split
  · rename_i hc2
    rw [Less_iff] at hc2
    have hm1' : m1 < d1.length := by omega
    have hm2' : m2 < d1.length := by omega
    have h21 : nmAt (Swap d1 m2 m1) m2 = nmAt d1 m1 := by
      unfold nmAt
      rw [Swap_getD_left d1 m2 m1 hm2' hm1']
    have h12' : nmAt (Swap d1 m2 m1) m1 = nmAt d1 m2 := by
      unfold nmAt
      rw [Swap_getD_right d1 m2 m1 hm2' hm1']
    have h0 : nmAt (Swap d1 m2 m1) m0 = nmAt d1 m0 := by
      unfold nmAt
      rw [Swap_getD_other d1 m2 m1 m0 h02 h01]
    split
    · rename_i hc3
      have hm1'' : m1 < (Swap d1 m2 m1).length := by rw [length_Swap]; omega
      have hm0'' : m0 < (Swap d1 m2 m1).length := by rw [length_Swap]; omega
      have hr1 : nmAt (Swap (Swap d1 m2 m1) m1 m0) m1 = nmAt (Swap d1 m2 m1) m0 := by
        unfold nmAt
        rw [Swap_getD_left _ m1 m0 hm1'' hm0'']
      have hr2 : nmAt (Swap (Swap d1 m2 m1) m1 m0) m2 = nmAt (Swap d1 m2 m1) m2 := by
        unfold nmAt
        rw [Swap_getD_other _ m1 m0 m2 (fun h => h12 h.symm) (fun h => h02 h.symm)]
      rw [hr1, hr2, h0, h21]
      exact hinv1
    · rw [h12', h21]
      exact le_of_lt hc2
  · rename_i hc2
    rw [Bool.not_eq_true, Less_false_iff] at hc2
    exact hc2

theorem doPivot_final_swap (d dP : LocalstackServiceCollection) (lo bP cS hi : Nat)
    (hlenP : dP.length = d.length) (hhid : hi ≤ d.length)
    (hlb : lo + 1 ≤ bP) (hbc : bP ≤ cS) (hch : cS ≤ hi)
    (hperm : PermWithin d dP lo hi)
    (hQ1 : ∀ k, lo + 1 ≤ k → k < bP → Less dP lo k = false)
    (hQ2 : ∀ k, bP ≤ k → k < cS → nmAt dP k = nmAt dP lo)
    (hQ3 : ∀ k, cS ≤ k → k < hi → nmAt dP lo ≤ nmAt dP k) :
    PermWithin d (Swap dP lo (bP - 1)) lo hi ∧
    lo ≤ bP - 1 ∧ bP - 1 < cS ∧ cS ≤ hi ∧
    (∀ k, lo ≤ k → k < bP - 1 →
      nmAt (Swap dP lo (bP - 1)) k ≤ nmAt (Swap dP lo (bP - 1)) (bP - 1)) ∧
    (∀ k, bP - 1 ≤ k → k < cS →
      nmAt (Swap dP lo (bP - 1)) k = nmAt (Swap dP lo (bP - 1)) (bP - 1)) ∧
    (∀ k, cS ≤ k → k < hi →
      nmAt (Swap dP lo (bP - 1)) (bP - 1) ≤ nmAt (Swap dP lo (bP - 1)) k) := by
  have hlo : lo < dP.length := by omega
  have hb1 : bP - 1 < dP.length := by omega
  have hpivv : nmAt (Swap dP lo (bP - 1)) (bP - 1) = nmAt dP lo := by
    unfold nmAt
    rw [Swap_getD_right dP lo (bP - 1) hlo hb1]
  have hswap : PermWithin dP (Swap dP lo (bP - 1)) lo hi :=
    permWithin_swap dP lo (bP - 1) lo hi (le_refl lo) (by omega) (by omega)
      (by omega) (by omega)
  refine ⟨permWithin_trans hperm hswap, by omega, by omega, hch, ?_, ?_, ?_⟩
  · intro k hk1 hk2
    rw [hpivv]
    rcases Nat.eq_or_lt_of_le hk1 with hke | hkgt
    · have hkv : nmAt (Swap dP lo (bP - 1)) k = nmAt dP (bP - 1) := by
        unfold nmAt
        rw [← hke, Swap_getD_left dP lo (bP - 1) hlo hb1]
      rw [hkv]
      have := hQ1 (bP - 1) (by omega) (by omega)
      rw [Less_false_iff] at this
      exact this
    · have hkv : nmAt (Swap dP lo (bP - 1)) k = nmAt dP k := by
        unfold nmAt
        rw [Swap_getD_other dP lo (bP - 1) k (by omega) (by omega)]
      rw [hkv]
      have := hQ1 k (by omega) (by omega)
      rw [Less_false_iff] at this
      exact this
  · intro k hk1 hk2
    rw [hpivv]
    rcases Nat.eq_or_lt_of_le hk1 with hke | hkgt
    · rw [← hke]
      exact hpivv
    · have hkv : nmAt (Swap dP lo (bP - 1)) k = nmAt dP k := by
        unfold nmAt
        rw [Swap_getD_other dP lo (bP - 1) k (by omega) (by omega)]
      rw [hkv]
      exact hQ2 k (by omega) hk2
  · intro k hk1 hk2
    rw [hpivv]
    have hkv : nmAt (Swap dP lo (bP - 1)) k = nmAt dP k := by
      unfold nmAt
      rw [Swap_getD_other dP lo (bP - 1) k (by omega) (by omega)]
    rw [hkv]
    exact hQ3 k hk1 hk2

theorem doPivotTail_spec (d dS dP : LocalstackServiceCollection)
    (lo bS cS hi bP : Nat) (pr : Bool)
    (hlenS : dS.length = d.length) (hhid : hi ≤ d.length)
    (hlb : lo + 1 ≤ bS) (hbc : bS ≤ cS) (hch : cS ≤ hi)
    (hpermS : PermWithin d dS lo hi)
    (hE1 : ∀ k, lo + 1 ≤ k → k < bS → Less dS lo k = false)
    (hE2 : ∀ k, bS ≤ k → k < cS → nmAt dS k = nmAt dS lo)
    (hE3 : ∀ k, cS ≤ k → k < hi → nmAt dS lo ≤ nmAt dS k)
    (hdP : dP = (if pr = true then protectMain dS lo (lo + 1) bS ((bS - (lo + 1)) + 1)
      else (dS, lo + 1, bS)).fst)
    (hbP : bP = (if pr = true then protectMain dS lo (lo + 1) bS ((bS - (lo + 1)) + 1)
      else (dS, lo + 1, bS)).snd.snd) :
    PermWithin d (Swap dP lo (bP - 1)) lo hi ∧
    lo ≤ bP - 1 ∧ bP - 1 < cS ∧ cS ≤ hi ∧
    (∀ k, lo ≤ k → k < bP - 1 →
      nmAt (Swap dP lo (bP - 1)) k ≤ nmAt (Swap dP lo (bP - 1)) (bP - 1)) ∧
    (∀ k, bP - 1 ≤ k → k < cS →
      nmAt (Swap dP lo (bP - 1)) k = nmAt (Swap dP lo (bP - 1)) (bP - 1)) ∧
    (∀ k, cS ≤ k → k < hi →
      nmAt (Swap dP lo (bP - 1)) (bP - 1) ≤ nmAt (Swap dP lo (bP - 1)) k) := by
  by_cases hpr : pr = true
  · rw [if_pos hpr] at hdP hbP
    obtain ⟨hperm, heqab, hge, hle, hpost1, hpost2⟩ :=
      protectMain_spec lo ((bS - (lo + 1)) + 1) dS (lo + 1) bS (by omega) hlb
        (by omega) (by omega) hE1
    rw [← hdP] at hperm hpost1 hpost2
    rw [← hbP] at hge hle hpost1 hpost2
    have hlenP : dP.length = d.length := by rw [hperm.1, hlenS]
    have houtP := hperm.2.1
    have hpivP : nmAt dP lo = nmAt dS lo := by
      unfold nmAt
      rw [houtP lo (Or.inl (by omega))]
    have hQ1 : ∀ k, lo + 1 ≤ k → k < bP → Less dP lo k = false := by
      intro k hk1 hk2
      have := hpost1 k hk1 hk2
      rw [Less_iff] at this
      rw [Less_false_iff]
      exact le_of_lt this
    have hQ2 : ∀ k, bP ≤ k → k < cS → nmAt dP k = nmAt dP lo := by
      intro k hk1 hk2
      rw [hpivP]
      rcases Nat.lt_or_ge k bS with hk | hk
      · exact hpost2 k hk1 hk
      · have hkv : nmAt dP k = nmAt dS k := by
          unfold nmAt
          rw [houtP k (Or.inr hk)]
        rw [hkv]
        exact hE2 k hk hk2
    have hQ3 : ∀ k, cS ≤ k → k < hi → nmAt dP lo ≤ nmAt dP k := by
      intro k hk1 hk2
      rw [hpivP]
      have hkv : nmAt dP k = nmAt dS k := by
        unfold nmAt
        rw [houtP k (Or.inr (by omega))]
      rw [hkv]
      exact hE3 k hk1 hk2
    have hpermP : PermWithin d dP lo hi :=
      permWithin_trans hpermS
        (permWithin_mono lo hi hperm (by omega) (by omega) (by omega))
    exact doPivot_final_swap d dP lo bP cS hi hlenP hhid hge (by omega) hch
      hpermP hQ1 hQ2 hQ3
  · rw [if_neg hpr] at hdP hbP
    dsimp only at hdP hbP
    subst hdP
    subst hbP
    exact doPivot_final_swap d dP lo bP cS hi hlenS hhid hlb hbc hch
      hpermS hE1 hE2 hE3

set_option maxHeartbeats 2000000 in
theorem doPivot_spec (d : LocalstackServiceCollection) (lo hi : Nat)
    (hlohi : lo + 12 < hi) (hlend : hi ≤ d.length) :
    PermWithin d (doPivot d lo hi).fst lo hi ∧
    lo ≤ (doPivot d lo hi).snd.fst ∧
    (doPivot d lo hi).snd.fst < (doPivot d lo hi).snd.snd ∧
    (doPivot d lo hi).snd.snd ≤ hi ∧
    (∀ k, lo ≤ k → k < (doPivot d lo hi).snd.fst →
      nmAt (doPivot d lo hi).fst k ≤ nmAt (doPivot d lo hi).fst ((doPivot d lo hi).snd.fst)) ∧
    (∀ k, (doPivot d lo hi).snd.fst ≤ k → k < (doPivot d lo hi).snd.snd →
      nmAt (doPivot d lo hi).fst k = nmAt (doPivot d lo hi).fst ((doPivot d lo hi).snd.fst)) ∧
    (∀ k, (doPivot d lo hi).snd.snd ≤ k → k < hi →
      nmAt (doPivot d lo hi).fst ((doPivot d lo hi).snd.fst) ≤ nmAt (doPivot d lo hi).fst k) := by
  have hlenN : (if hi - lo > 40 then medianOfThree (medianOfThree (medianOfThree d lo (lo + (hi - lo) / 8) (lo + 2 * ((hi - lo) / 8))) ((lo + hi) / 2) ((lo + hi) / 2 - (hi - lo) / 8) ((lo + hi) / 2 + (hi - lo) / 8)) (hi - 1) (hi - 1 - (hi - lo) / 8) (hi - 1 - 2 * ((hi - lo) / 8)) else d).length = d.length := by
    split
    · rw [medianOfThree_length, medianOfThree_length, medianOfThree_length]
    · rfl
  have hpermN : PermWithin d (if hi - lo > 40 then medianOfThree (medianOfThree (medianOfThree d lo (lo + (hi - lo) / 8) (lo + 2 * ((hi - lo) / 8))) ((lo + hi) / 2) ((lo + hi) / 2 - (hi - lo) / 8) ((lo + hi) / 2 + (hi - lo) / 8)) (hi - 1) (hi - 1 - (hi - lo) / 8) (hi - 1 - 2 * ((hi - lo) / 8)) else d) lo hi := by
    split
    · rename_i h40
      have h40' : 40 < hi - lo := h40
      have p1 := medianOfThree_permWithin d lo (lo + (hi - lo) / 8)
        (lo + 2 * ((hi - lo) / 8)) lo hi (le_refl lo) (by omega) (by omega)
        (by omega) (by omega) (by omega) hlend
      have l1 : (medianOfThree d lo (lo + (hi - lo) / 8) (lo + 2 * ((hi - lo) / 8))).length = d.length :=
        medianOfThree_length _ _ _ _
      have p2 := medianOfThree_permWithin
        (medianOfThree d lo (lo + (hi - lo) / 8) (lo + 2 * ((hi - lo) / 8)))
        ((lo + hi) / 2) ((lo + hi) / 2 - (hi - lo) / 8) ((lo + hi) / 2 + (hi - lo) / 8)
        lo hi (by omega) (by omega) (by omega) (by omega) (by omega) (by omega)
        (by omega)
      have l2 : (medianOfThree (medianOfThree d lo (lo + (hi - lo) / 8) (lo + 2 * ((hi - lo) / 8))) ((lo + hi) / 2) ((lo + hi) / 2 - (hi - lo) / 8) ((lo + hi) / 2 + (hi - lo) / 8)).length = d.length := by
        rw [medianOfThree_length, l1]
      have p3 := medianOfThree_permWithin
        (medianOfThree (medianOfThree d lo (lo + (hi - lo) / 8) (lo + 2 * ((hi - lo) / 8))) ((lo + hi) / 2) ((lo + hi) / 2 - (hi - lo) / 8) ((lo + hi) / 2 + (hi - lo) / 8))
        (hi - 1) (hi - 1 - (hi - lo) / 8) (hi - 1 - 2 * ((hi - lo) / 8))
        lo hi (by omega) (by omega) (by omega) (by omega) (by omega) (by omega)
        (by omega)
      exact permWithin_trans p1 (permWithin_trans p2 p3)
    · exact permWithin_refl d lo hi
  unfold doPivot
  dsimp only
  generalize hd0 : medianOfThree (if hi - lo > 40 then medianOfThree (medianOfThree (medianOfThree d lo (lo + (hi - lo) / 8) (lo + 2 * ((hi - lo) / 8))) ((lo + hi) / 2) ((lo + hi) / 2 - (hi - lo) / 8) ((lo + hi) / 2 + (hi - lo) / 8)) (hi - 1) (hi - 1 - (hi - lo) / 8) (hi - 1 - 2 * ((hi - lo) / 8)) else d) lo ((lo + hi) / 2) (hi - 1) = d0
  have hlen0 : d0.length = d.length := by
    rw [← hd0, medianOfThree_length, hlenN]
  have hperm0 : PermWithin d d0 lo hi := by
    rw [← hd0]
    exact permWithin_trans hpermN
      (medianOfThree_permWithin _ lo ((lo + hi) / 2) (hi - 1) lo hi (le_refl lo)
        (by omega) (by omega) (by omega) (by omega) (by omega) (by omega))
  have hmed : nmAt d0 lo ≤ nmAt d0 (hi - 1) := by
    rw [← hd0]
    exact medianOfThree_le _ lo ((lo + hi) / 2) (hi - 1) (by omega) (by omega)
      (by omega) (by omega) (by omega) (by omega)
  have hga := doPivotLoopA_ge d0 lo (hi - 1) (hi - 1 - (lo + 1)) (lo + 1)
  have hla := doPivotLoopA_le d0 lo (hi - 1) (hi - 1 - (lo + 1)) (lo + 1) (by omega)
  have hscan := doPivotLoopA_scan d0 lo (hi - 1) (hi - 1 - (lo + 1)) (lo + 1)
  generalize ha1 : doPivotLoopA d0 lo (hi - 1) (lo + 1) (hi - 1 - (lo + 1)) = a1
  rw [ha1] at hga hla hscan
  have hmain := doPivotMain_spec lo a1 hi (by omega) (hi - 1 - a1 + 1) d0 a1
    (hi - 1) (le_refl a1) (by omega) (le_refl (hi - 1)) (by omega) (by omega)
    (by intro k h1 h2; exact absurd h2 (by omega))
    (by intro k h1 h2; exact absurd h2 (by omega))
  generalize hpart : doPivotMain d0 lo a1 (hi - 1) (hi - 1 - a1 + 1) = part
  rw [hpart] at hmain
  obtain ⟨d1, b0, c0⟩ := part
  obtain ⟨hperm1, heqbc, hb0ge, hc0le, hF1, hF2⟩ := hmain
  dsimp only at hperm1 heqbc hb0ge hc0le hF1 hF2 ⊢
  have hlen1 : d1.length = d.length := by rw [hperm1.1, hlen0]
  have houtmain := hperm1.2.1
  have hpiv1 : nmAt d1 lo = nmAt d0 lo := by
    unfold nmAt
    rw [houtmain lo (Or.inl (by omega))]
  have hhi1 : nmAt d1 (hi - 1) = nmAt d0 (hi - 1) := by
    unfold nmAt
    rw [houtmain (hi - 1) (Or.inr (le_refl _))]
  have hmed1 : nmAt d1 lo ≤ nmAt d1 (hi - 1) := by
    rw [hpiv1, hhi1]
    exact hmed
  have hF1' : ∀ k, lo + 1 ≤ k → k < b0 → Less d1 lo k = false := by
    intro k h1 h2
    rcases Nat.lt_or_ge k a1 with hk | hk
    · have hks := hscan k h1 hk
      have hkv : nmAt d1 k = nmAt d0 k := by
        unfold nmAt
        rw [houtmain k (Or.inl hk)]
      rw [Less_eq_nm, hpiv1, hkv, ← Less_eq_nm]
      rw [Less_iff] at hks
      rw [Less_false_iff]
      exact le_of_lt hks
    · exact hF1 k hk h2
  have hlb0 : lo + 1 ≤ b0 := by omega
  have hE3B : ∀ k, c0 ≤ k → k < hi → nmAt d1 lo ≤ nmAt d1 k := by
    intro k h1 h2
    rcases Nat.lt_or_ge k (hi - 1) with hk | hk
    · have := hF2 k h1 hk
      rw [Less_iff] at this
      exact le_of_lt this
    · have hke : k = hi - 1 := by omega
      rw [hke]
      exact hmed1
  have hpermD1 : PermWithin d d1 lo hi :=
    permWithin_trans hperm0
      (permWithin_mono lo hi hperm1 (by omega) (by omega) (by omega))
  by_cases hG : (!decide (hi - c0 < 5) && decide (hi - c0 < (hi - lo) / 4)) = true
  · rw [if_pos hG]
    have hGa : ¬ (hi - c0 < 5) := by
      rcases (Bool.and_eq_true _ _).mp hG with ⟨h1, _⟩
      rw [Bool.not_eq_true'] at h1
      exact of_decide_eq_false h1
    have hGb : hi - c0 < (hi - lo) / 4 := by
      rcases (Bool.and_eq_true _ _).mp hG with ⟨_, h2⟩
      exact of_decide_eq_true h2
    have hn24 : 24 ≤ hi - lo := by omega
    have hc0hi : c0 + 5 ≤ hi := by omega
    have hc0lo : lo + 18 ≤ c0 := by omega
    have hmlb : lo + 6 ≤ (lo + hi) / 2 := by omega
    have hmub : (lo + hi) / 2 + 2 ≤ c0 := by omega
    have hP1 :
        (if (!Less d1 lo (hi - 1)) = true then (Swap d1 c0 (hi - 1), c0 + 1, 0 + 1)
          else (d1, c0, 0)).fst.length = d.length ∧
        PermWithin d1 (if (!Less d1 lo (hi - 1)) = true then (Swap d1 c0 (hi - 1), c0 + 1, 0 + 1)
          else (d1, c0, 0)).fst (lo + 1) hi ∧
        nmAt (if (!Less d1 lo (hi - 1)) = true then (Swap d1 c0 (hi - 1), c0 + 1, 0 + 1)
          else (d1, c0, 0)).fst lo = nmAt d1 lo ∧
        (∀ k, lo + 1 ≤ k → k < b0 →
          Less (if (!Less d1 lo (hi - 1)) = true then (Swap d1 c0 (hi - 1), c0 + 1, 0 + 1)
            else (d1, c0, 0)).fst lo k = false) ∧
        (∀ k, b0 ≤ k → k < (if (!Less d1 lo (hi - 1)) = true then (Swap d1 c0 (hi - 1), c0 + 1, 0 + 1)
            else (d1, c0, 0)).snd.fst →
          nmAt (if (!Less d1 lo (hi - 1)) = true then (Swap d1 c0 (hi - 1), c0 + 1, 0 + 1)
            else (d1, c0, 0)).fst k = nmAt (if (!Less d1 lo (hi - 1)) = true then (Swap d1 c0 (hi - 1), c0 + 1, 0 + 1)
            else (d1, c0, 0)).fst lo) ∧
        (∀ k, (if (!Less d1 lo (hi - 1)) = true then (Swap d1 c0 (hi - 1), c0 + 1, 0 + 1)
            else (d1, c0, 0)).snd.fst ≤ k → k < hi →
          nmAt (if (!Less d1 lo (hi - 1)) = true then (Swap d1 c0 (hi - 1), c0 + 1, 0 + 1)
            else (d1, c0, 0)).fst lo ≤ nmAt (if (!Less d1 lo (hi - 1)) = true then (Swap d1 c0 (hi - 1), c0 + 1, 0 + 1)
            else (d1, c0, 0)).fst k) ∧
        c0 ≤ (if (!Less d1 lo (hi - 1)) = true then (Swap d1 c0 (hi - 1), c0 + 1, 0 + 1)
          else (d1, c0, 0)).snd.fst ∧
        (if (!Less d1 lo (hi - 1)) = true then (Swap d1 c0 (hi - 1), c0 + 1, 0 + 1)
          else (d1, c0, 0)).snd.fst ≤ hi := by
      by_cases hc1 : Less d1 lo (hi - 1) = false
      · rw [if_pos (show (!Less d1 lo (hi - 1)) = true by rw [hc1]; rfl)]
        dsimp only
        have hhieq : nmAt d1 (hi - 1) = nmAt d1 lo := by
          rw [Less_false_iff] at hc1
          exact le_antisymm hc1 hmed1
        have hc0len : c0 < d1.length := by omega
        have hhilen : hi - 1 < d1.length := by omega
        have hpivkeep : nmAt (Swap d1 c0 (hi - 1)) lo = nmAt d1 lo := by
          unfold nmAt
          rw [Swap_getD_other d1 c0 (hi - 1) lo (by omega) (by omega)]
        refine ⟨by rw [length_Swap]; exact hlen1, ?_, hpivkeep, ?_, ?_, ?_, by omega, by omega⟩
        · exact permWithin_swap d1 c0 (hi - 1) (lo + 1) hi (by omega) (by omega)
            (by omega) (by omega) (by omega)
        · intro k h1 h2
          have hkv : nmAt (Swap d1 c0 (hi - 1)) k = nmAt d1 k := by
            unfold nmAt
            rw [Swap_getD_other d1 c0 (hi - 1) k (by omega) (by omega)]
          rw [Less_eq_nm, hpivkeep, hkv, ← Less_eq_nm]
          exact hF1' k h1 h2
        · intro k h1 h2
          have hke : k = c0 := by omega
          rw [hke, hpivkeep]
          have : nmAt (Swap d1 c0 (hi - 1)) c0 = nmAt d1 (hi - 1) := by
            unfold nmAt
            rw [Swap_getD_left d1 c0 (hi - 1) hc0len hhilen]
          rw [this, hhieq]
        · intro k h1 h2
          rw [hpivkeep]
          rcases Nat.lt_or_ge k (hi - 1) with hk | hk
          · have hkv : nmAt (Swap d1 c0 (hi - 1)) k = nmAt d1 k := by
              unfold nmAt
              rw [Swap_getD_other d1 c0 (hi - 1) k (by omega) (by omega)]
            rw [hkv]
            have := hF2 k (by omega) hk
            rw [Less_iff] at this
            exact le_of_lt this
          · have hke : k = hi - 1 := by omega
            rw [hke]
            have : nmAt (Swap d1 c0 (hi - 1)) (hi - 1) = nmAt d1 c0 := by
              unfold nmAt
              rw [Swap_getD_right d1 c0 (hi - 1) hc0len hhilen]
            rw [this]
            have := hF2 c0 (le_refl c0) (by omega)
            rw [Less_iff] at this
            exact le_of_lt this
      · have hc1' : Less d1 lo (hi - 1) = true := by
          rcases Bool.eq_false_or_eq_true (Less d1 lo (hi - 1)) with h | h
          · exact h
          · exact absurd h hc1
        rw [if_neg (show ¬ (!Less d1 lo (hi - 1)) = true by
          intro h
          rw [hc1'] at h
          exact Bool.noConfusion h)]
        dsimp only
        refine ⟨hlen1, permWithin_refl d1 (lo + 1) hi, rfl, hF1', ?_, ?_, le_refl c0, by omega⟩
        · intro k h1 h2
          exact absurd (lt_of_le_of_lt h1 h2) (by omega)
        · intro k h1 h2
          exact hE3B k h1 h2
    generalize hs1 : (if (!Less d1 lo (hi - 1)) = true then (Swap d1 c0 (hi - 1), c0 + 1, 0 + 1)
      else (d1, c0, 0)) = s1
    rw [hs1] at hP1
    obtain ⟨d2, c1, u1⟩ := s1
    dsimp only at hP1 ⊢
    obtain ⟨hlen2, hperm2, hpiv2, hE1a, hE2a, hE3a, hc01, hc1hi⟩ := hP1
    have hP2 :
        b0 - 1 ≤ (if (!Less d2 (b0 - 1) lo) = true then (b0 - 1, u1 + 1) else (b0, u1)).fst ∧
        (if (!Less d2 (b0 - 1) lo) = true then (b0 - 1, u1 + 1) else (b0, u1)).fst ≤ b0 ∧
        lo + 1 ≤ (if (!Less d2 (b0 - 1) lo) = true then (b0 - 1, u1 + 1) else (b0, u1)).fst ∧
        (∀ k, (if (!Less d2 (b0 - 1) lo) = true then (b0 - 1, u1 + 1) else (b0, u1)).fst ≤ k →
          k < c1 → nmAt d2 k = nmAt d2 lo) := by
      by_cases hc2 : Less d2 (b0 - 1) lo = false
      · rw [if_pos (show (!Less d2 (b0 - 1) lo) = true by rw [hc2]; rfl)]
        dsimp only
        refine ⟨by omega, by omega, by omega, ?_⟩
        intro k h1 h2
        rcases Nat.lt_or_ge k b0 with hk | hk
        · have hke : k = b0 - 1 := by omega
          rw [Less_false_iff] at hc2
          have hle := hE1a (b0 - 1) (by omega) (by omega)
          rw [Less_false_iff] at hle
          rw [hke]
          exact le_antisymm hle hc2
        · have := hE2a k hk h2
          rw [hpiv2] at this
          have hkv : nmAt d2 k = nmAt d2 k := rfl
          exact this.trans hpiv2.symm
      · have hc2' : Less d2 (b0 - 1) lo = true := by
          rcases Bool.eq_false_or_eq_true (Less d2 (b0 - 1) lo) with h | h
          · exact h
          · exact absurd h hc2
        rw [if_neg (show ¬ (!Less d2 (b0 - 1) lo) = true by
          intro h
          rw [hc2'] at h
          exact Bool.noConfusion h)]
        dsimp only
        refine ⟨by omega, le_refl b0, by omega, ?_⟩
        intro k h1 h2
        have := hE2a k h1 h2
        rw [hpiv2] at this
        exact this.trans hpiv2.symm
    generalize hs2 : (if (!Less d2 (b0 - 1) lo) = true then (b0 - 1, u1 + 1) else (b0, u1)) = s2
    rw [hs2] at hP2
    obtain ⟨b2, u2⟩ := s2
    dsimp only at hP2 ⊢
    obtain ⟨hb2ge, hb2le, hb2lo, hE2b⟩ := hP2
    have hmlt2 : (lo + hi) / 2 < b2 := by omega
    have hP3 :
        (if (!Less d2 ((lo + hi) / 2) lo) = true then
          (Swap d2 ((lo + hi) / 2) (b2 - 1), b2 - 1, u2 + 1) else (d2, b2, u2)).fst.length = d.length ∧
        PermWithin d2 (if (!Less d2 ((lo + hi) / 2) lo) = true then
          (Swap d2 ((lo + hi) / 2) (b2 - 1), b2 - 1, u2 + 1) else (d2, b2, u2)).fst (lo + 1) hi ∧
        nmAt (if (!Less d2 ((lo + hi) / 2) lo) = true then
          (Swap d2 ((lo + hi) / 2) (b2 - 1), b2 - 1, u2 + 1) else (d2, b2, u2)).fst lo = nmAt d2 lo ∧
        lo + 1 ≤ (if (!Less d2 ((lo + hi) / 2) lo) = true then
          (Swap d2 ((lo + hi) / 2) (b2 - 1), b2 - 1, u2 + 1) else (d2, b2, u2)).snd.fst ∧
        (if (!Less d2 ((lo + hi) / 2) lo) = true then
          (Swap d2 ((lo + hi) / 2) (b2 - 1), b2 - 1, u2 + 1) else (d2, b2, u2)).snd.fst ≤ b2 ∧
        (∀ k, lo + 1 ≤ k → k < (if (!Less d2 ((lo + hi) / 2) lo) = true then
            (Swap d2 ((lo + hi) / 2) (b2 - 1), b2 - 1, u2 + 1) else (d2, b2, u2)).snd.fst →
          Less (if (!Less d2 ((lo + hi) / 2) lo) = true then
            (Swap d2 ((lo + hi) / 2) (b2 - 1), b2 - 1, u2 + 1) else (d2, b2, u2)).fst lo k = false) ∧
        (∀ k, (if (!Less d2 ((lo + hi) / 2) lo) = true then
            (Swap d2 ((lo + hi) / 2) (b2 - 1), b2 - 1, u2 + 1) else (d2, b2, u2)).snd.fst ≤ k →
          k < c1 →
          nmAt (if (!Less d2 ((lo + hi) / 2) lo) = true then
            (Swap d2 ((lo + hi) / 2) (b2 - 1), b2 - 1, u2 + 1) else (d2, b2, u2)).fst k =
          nmAt (if (!Less d2 ((lo + hi) / 2) lo) = true then
            (Swap d2 ((lo + hi) / 2) (b2 - 1), b2 - 1, u2 + 1) else (d2, b2, u2)).fst lo) ∧
        (∀ k, c1 ≤ k → k < hi →
          nmAt (if (!Less d2 ((lo + hi) / 2) lo) = true then
            (Swap d2 ((lo + hi) / 2) (b2 - 1), b2 - 1, u2 + 1) else (d2, b2, u2)).fst lo ≤
          nmAt (if (!Less d2 ((lo + hi) / 2) lo) = true then
            (Swap d2 ((lo + hi) / 2) (b2 - 1), b2 - 1, u2 + 1) else (d2, b2, u2)).fst k) := by
      by_cases hc3 : Less d2 ((lo + hi) / 2) lo = false
      · rw [if_pos (show (!Less d2 ((lo + hi) / 2) lo) = true by rw [hc3]; rfl)]
        dsimp only
        have hmlen : (lo + hi) / 2 < d2.length := by omega
        have hb21len : b2 - 1 < d2.length := by omega
        have hmEq : nmAt d2 ((lo + hi) / 2) = nmAt d2 lo := by
          rw [Less_false_iff] at hc3
          have hle := hE1a ((lo + hi) / 2) (by omega) (by omega)
          rw [Less_false_iff] at hle
          exact le_antisymm hle hc3
        have hpivkeep : nmAt (Swap d2 ((lo + hi) / 2) (b2 - 1)) lo = nmAt d2 lo := by
          unfold nmAt
          rw [Swap_getD_other d2 ((lo + hi) / 2) (b2 - 1) lo (by omega) (by omega)]
        refine ⟨by rw [length_Swap]; exact hlen2, ?_, hpivkeep, by omega, by omega, ?_, ?_, ?_⟩
        · exact permWithin_swap d2 ((lo + hi) / 2) (b2 - 1) (lo + 1) hi (by omega)
            (by omega) (by omega) (by omega) (by omega)
        · intro k h1 h2
          rw [Less_eq_nm, hpivkeep]
          rcases eq_or_ne k ((lo + hi) / 2) with hke | hkm
          · have hkv : nmAt (Swap d2 ((lo + hi) / 2) (b2 - 1)) k = nmAt d2 (b2 - 1) := by
              unfold nmAt
              rw [hke, Swap_getD_left d2 ((lo + hi) / 2) (b2 - 1) hmlen hb21len]
            rw [hkv, ← Less_eq_nm]
            exact hE1a (b2 - 1) (by omega) (by omega)
          · have hkv : nmAt (Swap d2 ((lo + hi) / 2) (b2 - 1)) k = nmAt d2 k := by
              unfold nmAt
              rw [Swap_getD_other d2 ((lo + hi) / 2) (b2 - 1) k hkm (by omega)]
            rw [hkv, ← Less_eq_nm]
            exact hE1a k h1 (by omega)
        · intro k h1 h2
          rw [hpivkeep]
          rcases Nat.lt_or_ge k b2 with hk | hk
          · have hke : k = b2 - 1 := by omega
            have hkv : nmAt (Swap d2 ((lo + hi) / 2) (b2 - 1)) (b2 - 1) = nmAt d2 ((lo + hi) / 2) := by
              unfold nmAt
              rw [Swap_getD_right d2 ((lo + hi) / 2) (b2 - 1) hmlen hb21len]
            rw [hke, hkv, hmEq]
          · have hkv : nmAt (Swap d2 ((lo + hi) / 2) (b2 - 1)) k = nmAt d2 k := by
              unfold nmAt
              rw [Swap_getD_other d2 ((lo + hi) / 2) (b2 - 1) k (by omega) (by omega)]
            rw [hkv]
            exact hE2b k hk h2
        · intro k h1 h2
          rw [hpivkeep]
          have hkv : nmAt (Swap d2 ((lo + hi) / 2) (b2 - 1)) k = nmAt d2 k := by
            unfold nmAt
            rw [Swap_getD_other d2 ((lo + hi) / 2) (b2 - 1) k (by omega) (by omega)]
          rw [hkv]
          have := hE3a k (by omega) h2
          rw [hpiv2] at this ⊢
          exact this
      · have hc3' : Less d2 ((lo + hi) / 2) lo = true := by
          rcases Bool.eq_false_or_eq_true (Less d2 ((lo + hi) / 2) lo) with h | h
          · exact h
          · exact absurd h hc3
        rw [if_neg (show ¬ (!Less d2 ((lo + hi) / 2) lo) = true by
          intro h
          rw [hc3'] at h
          exact Bool.noConfusion h)]
        dsimp only
        refine ⟨hlen2, permWithin_refl d2 (lo + 1) hi, rfl, by omega, le_refl b2, ?_, hE2b, ?_⟩
        · intro k h1 h2
          exact hE1a k h1 (by omega)
        · intro k h1 h2
          have := hE3a k (by omega) h2
          rw [hpiv2] at this ⊢
          exact this
    generalize hs3 : (if (!Less d2 ((lo + hi) / 2) lo) = true then
      (Swap d2 ((lo + hi) / 2) (b2 - 1), b2 - 1, u2 + 1) else (d2, b2, u2)) = s3
    rw [hs3] at hP3
    obtain ⟨d3, b3, u3⟩ := s3
    dsimp only at hP3 ⊢
    obtain ⟨hlen3, hperm3, hpiv3, hb3lo, hb3le, hE1c, hE2c, hE3c⟩ := hP3
    have hpermD3 : PermWithin d d3 lo hi :=
      permWithin_trans hpermD1
        (permWithin_trans
          (permWithin_mono lo hi hperm2 (by omega) (by omega) (by omega))
          (permWithin_mono lo hi hperm3 (by omega) (by omega) (by omega)))
    exact doPivotTail_spec d d3 _ lo b3 c1 hi _ _ hlen3 hlend hb3lo (by omega)
      hc1hi hpermD3 hE1c hE2c hE3c rfl rfl
  · rw [if_neg hG]
    dsimp only
    exact doPivotTail_spec d d1 _ lo b0 c0 hi _ _ hlen1 hlend hlb0 (by omega)
      (by omega) hpermD1 hF1'
      (by intro k h1 h2; exact absurd (lt_of_le_of_lt h1 h2) (by omega))
      hE3B rfl rfl

theorem sortedOn_single (d : LocalstackServiceCollection) (a b : Nat)
    (h : b ≤ a + 1) : SortedOn d a b := by
  intro i j h1 h2 h3
  have hij : i = j := by omega
  rw [hij]

theorem sortedOn_congr (d d' : LocalstackServiceCollection) (a b : Nat)
    (h : ∀ k, a ≤ k → k < b → d'.getD k default = d.getD k default)
    (hs : SortedOn d a b) : SortedOn d' a b := by
  intro i j h1 h2 h3
  unfold nmAt
  rw [h i h1 (by omega), h j (by omega) h3]
  exact hs i j h1 h2 h3

theorem insertionSortInner_sorted (a top : Nat) :
    ∀ (n : Nat) (d : LocalstackServiceCollection),
    n < top → top ≤ d.length →
    SortedOn d a n →
    SortedOn d (n + 1) top →
    (∀ p q, a ≤ p → p < n → n < q → q < top → nmAt d p ≤ nmAt d q) →
    (∀ q, n < q → q < top → nmAt d n ≤ nmAt d q) →
    SortedOn (insertionSortInner d a n) a top := by
  intro n
  induction n with
  | zero =>
    intro d hlt hlen hA hB hC hD
    unfold insertionSortInner
    intro i j h1 h2 h3
    rcases Nat.eq_zero_or_pos i with hi0 | hip
    · subst hi0
      rcases Nat.eq_zero_or_pos j with hj0 | hjp
      · subst hj0
        exact le_refl _
      · exact hD j hjp h3
    · exact hB i j (by omega) h2 h3
  | succ j ih =>
    intro d hlt hlen hA hB hC hD
    unfold insertionSortInner
    split
    · rename_i hcond
      rcases (Bool.and_eq_true _ _).mp hcond with ⟨hgt, hless⟩
      have hja : a ≤ j := by
        have := of_decide_eq_true hgt
        omega
      have hj1len : j + 1 < d.length := by omega
      have hjlen : j < d.length := by omega
      have hvj : nmAt (Swap d (j + 1) j) j = nmAt d (j + 1) := by
        unfold nmAt
        rw [Swap_getD_right d (j + 1) j hj1len hjlen]
      have hvj1 : nmAt (Swap d (j + 1) j) (j + 1) = nmAt d j := by
        unfold nmAt
        rw [Swap_getD_left d (j + 1) j hj1len hjlen]
      have hvo : ∀ k, k ≠ j → k ≠ j + 1 → nmAt (Swap d (j + 1) j) k = nmAt d k := by
        intro k h1 h2
        unfold nmAt
        rw [Swap_getD_other d (j + 1) j k h2 h1]
      have hx : nmAt d (j + 1) < nmAt d j := by
        rw [← Less_iff]
        exact hless
      apply ih (Swap d (j + 1) j) (by omega) (by rw [length_Swap]; omega)
      · intro p q h1 h2 h3
        rw [hvo p (by omega) (by omega), hvo q (by omega) (by omega)]
        exact hA p q h1 h2 (by omega)
      · intro p q h1 h2 h3
        rcases eq_or_ne p (j + 1) with hp | hp
        · rcases eq_or_ne q (j + 1) with hq | hq
          · rw [hp, hq]
          · rw [hp, hvj1, hvo q (by omega) hq]
            exact hC j q hja (by omega) (by omega) h3
        · have hq : q ≠ j + 1 := by omega
          rw [hvo p (by omega) hp, hvo q (by omega) hq]
          exact hB p q (by omega) h2 h3
      · intro p q h1 h2 h3 h4
        rw [hvo p (by omega) (by omega)]
        rcases eq_or_ne q (j + 1) with hq | hq
        · rw [hq, hvj1]
          exact hA p j h1 (by omega) (by omega)
        · rw [hvo q (by omega) hq]
          exact hC p q h1 (by omega) (by omega) h4
      · intro q h1 h2
        rw [hvj]
        rcases eq_or_ne q (j + 1) with hq | hq
        · rw [hq, hvj1]
          exact le_of_lt hx
        · rw [hvo q (by omega) hq]
          exact hD q (by omega) h2
    · rename_i hcond
      have hfalse : (decide (j + 1 > a) && Less d (j + 1) j) = false :=
        Bool.eq_false_iff.mpr hcond
      intro i q h1 h2 h3
      rcases Bool.and_eq_false_iff.mp hfalse with hle | hjun
      · have hlea : j + 1 ≤ a := by
          have := of_decide_eq_false hle
          omega
        rcases eq_or_ne i (j + 1) with hi1 | hi1
        · rcases eq_or_ne q (j + 1) with hq1 | hq1
          · rw [hi1, hq1]
          · rw [hi1]
            exact hD q (by omega) h3
        · exact hB i q (by omega) h2 h3
      · have hjun' : nmAt d j ≤ nmAt d (j + 1) := (Less_false_iff d (j + 1) j).mp hjun
        rcases Nat.lt_or_ge i (j + 1) with hi | hi
        · rcases Nat.lt_or_ge q (j + 1) with hqq | hqq
          · exact hA i q h1 h2 hqq
          · rcases eq_or_ne q (j + 1) with hq1 | hq1
            · rw [hq1]
              exact le_trans (hA i j h1 (by omega) (by omega)) hjun'
            · exact hC i q h1 (by omega) (by omega) h3
        · rcases eq_or_ne i (j + 1) with hi1 | hi1
          · rcases eq_or_ne q (j + 1) with hq1 | hq1
            · rw [hi1, hq1]
            · rw [hi1]
              exact hD q (by omega) h3
          · exact hB i q (by omega) h2 h3

theorem insertionSort_sorted_aux (a : Nat) :
    ∀ (cnt s : Nat) (d : LocalstackServiceCollection),
    a < s → s + cnt ≤ d.length →
    SortedOn d a s →
    SortedOn ((List.range' s cnt).foldl (fun d i => insertionSortInner d a i) d)
      a (s + cnt) := by
  intro cnt
  induction cnt with
  | zero =>
    intro s d ha hlen hs
    simpa using hs
  | succ cnt ih =>
    intro s d ha hlen hs
    rw [List.range'_succ, List.foldl_cons]
    have hstep : SortedOn (insertionSortInner d a s) a (s + 1) :=
      insertionSortInner_sorted a (s + 1) s d (by omega) (by omega) hs
        (by intro p q h1 h2 h3; exact absurd h3 (by omega))
        (by intro p q h1 h2 h3 h4; exact absurd h4 (by omega))
        (by intro q h1 h2; exact absurd h2 (by omega))
    have hlen2 : (insertionSortInner d a s).length = d.length :=
      (insertionSortInner_permWithin d a s (by omega)).1
    have hrec := ih (s + 1) (insertionSortInner d a s) (by omega) (by omega) hstep
    rw [show s + (cnt + 1) = s + 1 + cnt from by omega]
    exact hrec

theorem insertionSort_sorted (d : LocalstackServiceCollection) (a b : Nat)
    (hb : b ≤ d.length) : SortedOn (insertionSort d a b) a b := by
  unfold insertionSort
  rcases Nat.lt_or_ge (a + 1) b with h | h
  · have hrec := insertionSort_sorted_aux a (b - (a + 1)) (a + 1) d (by omega)
      (by omega) (sortedOn_single d a (a + 1) (le_refl _))
    rw [show a + 1 + (b - (a + 1)) = b from by omega] at hrec
    exact hrec
  · rw [show b - (a + 1) = 0 from by omega, List.range'_zero, List.foldl_nil]
    exact sortedOn_single d a b (by omega)

theorem shellInsertion_spec (d : LocalstackServiceCollection) (a b : Nat)
    (hb : b ≤ d.length) :
    PermWithin d (insertionSort (shellPass d a b) a b) a b ∧
    SortedOn (insertionSort (shellPass d a b) a b) a b := by
  have h1 := shellPass_permWithin d a b hb
  have hlen1 : (shellPass d a b).length = d.length := h1.1
  have h2 := insertionSort_permWithin (shellPass d a b) a b (by omega)
  exact ⟨permWithin_trans h1 h2, insertionSort_sorted _ a b (by omega)⟩

theorem siftDownAux_spec (hi first root0 : Nat) :
    ∀ (fuel : Nat) (r : Nat) (d : LocalstackServiceCollection),
    root0 ≤ r → hi ≤ fuel + r → first + hi ≤ d.length →
    (∀ j, 1 ≤ j → j < hi → root0 ≤ (j - 1) / 2 → (j - 1) / 2 ≠ r →
      nmAt d (first + j) ≤ nmAt d (first + (j - 1) / 2)) →
    (root0 < r → ∀ c, (c = 2 * r + 1 ∨ c = 2 * r + 2) → c < hi →
      nmAt d (first + c) ≤ nmAt d (first + (r - 1) / 2)) →
    (∀ j, 1 ≤ j → j < hi → root0 ≤ (j - 1) / 2 →
      nmAt (siftDownAux d r hi first fuel) (first + j) ≤
      nmAt (siftDownAux d r hi first fuel) (first + (j - 1) / 2)) := by
  intro fuel
  induction fuel with
  | zero =>
    intro r d hr0 hfuel hlen hA hB j h1 h2 h3
    exact hA j h1 h2 h3 (by omega)
  | succ fuel ih =>
    intro r d hr0 hfuel hlen hA hB
    unfold siftDownAux
    dsimp only
    split
    · rename_i hchild
      intro j h1 h2 h3
      exact hA j h1 h2 h3 (by omega)
    · rename_i hchild
      have hch : 2 * r + 1 < hi := by omega
      have hrlen : first + r < d.length := by omega
      split
      · rename_i hcsel
        rcases (Bool.and_eq_true _ _).mp hcsel with ⟨hc2d, hlt⟩
        have hc2 : 2 * r + 1 + 1 < hi := of_decide_eq_true hc2d
        have hclen : first + (2 * r + 1 + 1) < d.length := by omega
        have hlt' : nmAt d (first + (2 * r + 1)) < nmAt d (first + (2 * r + 1 + 1)) := by
          rw [← Less_iff]
          rw [show first + (2 * r + 1 + 1) = first + (2 * r + 1) + 1 from by omega]
          exact hlt
        split
        · rename_i hge
          have hge' : Less d (first + r) (first + (2 * r + 1 + 1)) = false := by
            rw [Bool.not_eq_true'] at hge
            exact hge
          rw [Less_false_iff] at hge'
          intro j h1 h2 h3
          rcases eq_or_ne ((j - 1) / 2) r with hp | hp
          · have hj12 : j = 2 * r + 1 ∨ j = 2 * r + 1 + 1 := by omega
            rw [hp]
            rcases hj12 with hj | hj
            · rw [hj]
              exact le_trans (le_of_lt hlt') hge'
            · rw [hj]
              exact hge'
          · exact hA j h1 h2 h3 hp
        · rename_i hrec
          have hless : Less d (first + r) (first + (2 * r + 1 + 1)) = true := by
            have h2 : (!Less d (first + r) (first + (2 * r + 1 + 1))) = false :=
              Bool.eq_false_iff.mpr hrec
            rw [Bool.not_eq_false'] at h2
            exact h2
          rw [Less_iff] at hless
          have hvr : nmAt (Swap d (first + r) (first + (2 * r + 1 + 1))) (first + r)
              = nmAt d (first + (2 * r + 1 + 1)) := by
            unfold nmAt
            rw [Swap_getD_left d _ _ hrlen hclen]
          have hvc : nmAt (Swap d (first + r) (first + (2 * r + 1 + 1))) (first + (2 * r + 1 + 1))
              = nmAt d (first + r) := by
            unfold nmAt
            rw [Swap_getD_right d _ _ hrlen hclen]
          have hvo : ∀ k, k ≠ r → k ≠ 2 * r + 1 + 1 →
              nmAt (Swap d (first + r) (first + (2 * r + 1 + 1))) (first + k) = nmAt d (first + k) := by
            intro k hk1 hk2
            unfold nmAt
            rw [Swap_getD_other d _ _ _ (by omega) (by omega)]
          apply ih (2 * r + 1 + 1) (Swap d (first + r) (first + (2 * r + 1 + 1)))
            (by omega) (by omega) (by rw [length_Swap]; omega)
          · intro j h1 h2 h3 hne
            rcases eq_or_ne ((j - 1) / 2) r with hp | hp
            · have hj12 : j = 2 * r + 1 ∨ j = 2 * r + 1 + 1 := by omega
              rw [hp]
              rcases hj12 with hj | hj
              · rw [hj, hvo (2 * r + 1) (by omega) (by omega), hvr]
                exact le_of_lt hlt'
              · rw [hj, hvc, hvr]
                exact le_of_lt hless
            · rcases eq_or_ne j r with hjr | hjr
              · have hrpos : 1 ≤ r := by
                  rcases Nat.eq_zero_or_pos r with h0 | h1r
                  · exfalso
                    rw [hjr, h0] at hp
                    exact hp (by omega)
                  · exact h1r
                have hg : root0 < r := by
                  rw [hjr] at h3
                  omega
                rw [hjr, hvr, hvo ((r - 1) / 2) (by omega) (by omega)]
                exact hB hg (2 * r + 1 + 1) (Or.inr (by omega)) hc2
              · rcases eq_or_ne j (2 * r + 1 + 1) with hjc | hjc
                · exfalso
                  apply hp
                  rw [hjc]
                  omega
                · rw [hvo j hjr hjc, hvo ((j - 1) / 2) hp hne]
                  exact hA j h1 h2 h3 hp
          · intro hg cc hcc hcchi
            have hccgt : 2 * r + 1 + 1 < cc := by
              rcases hcc with h | h <;> omega
            have hpar : (2 * r + 1 + 1 - 1) / 2 = r := by omega
            rw [hpar, hvr, hvo cc (by omega) (by omega)]
            have := hA cc (by omega) hcchi (by omega) (by omega)
            have hccp : (cc - 1) / 2 = 2 * r + 1 + 1 := by
              rcases hcc with h | h <;> omega
            rw [hccp] at this
            exact this
      · rename_i hcsel
        have hother : 2 * r + 1 + 1 < hi →
            nmAt d (first + (2 * r + 1 + 1)) ≤ nmAt d (first + (2 * r + 1)) := by
          intro h2r2
          have hfalse : (decide (2 * r + 1 + 1 < hi) &&
              Less d (first + (2 * r + 1)) (first + (2 * r + 1) + 1)) = false :=
            Bool.eq_false_iff.mpr hcsel
          rcases Bool.and_eq_false_iff.mp hfalse with hle | hjun
          · exfalso
            exact absurd h2r2 (of_decide_eq_false hle)
          · rw [Less_false_iff] at hjun
            rw [show first + (2 * r + 1) + 1 = first + (2 * r + 1 + 1) from by omega] at hjun
            exact hjun
        have hclen : first + (2 * r + 1) < d.length := by omega
        split
        · rename_i hge
          have hge' : Less d (first + r) (first + (2 * r + 1)) = false := by
            rw [Bool.not_eq_true'] at hge
            exact hge
          rw [Less_false_iff] at hge'
          intro j h1 h2 h3
          rcases eq_or_ne ((j - 1) / 2) r with hp | hp
          · have hj12 : j = 2 * r + 1 ∨ j = 2 * r + 1 + 1 := by omega
            rw [hp]
            rcases hj12 with hj | hj
            · rw [hj]
              exact hge'
            · rw [hj]
              exact le_trans (hother (by omega)) hge'
          · exact hA j h1 h2 h3 hp
        · rename_i hrec
          have hless : Less d (first + r) (first + (2 * r + 1)) = true := by
            have h2 : (!Less d (first + r) (first + (2 * r + 1))) = false :=
              Bool.eq_false_iff.mpr hrec
            rw [Bool.not_eq_false'] at h2
            exact h2
          rw [Less_iff] at hless
          have hvr : nmAt (Swap d (first + r) (first + (2 * r + 1))) (first + r)
              = nmAt d (first + (2 * r + 1)) := by
            unfold nmAt
            rw [Swap_getD_left d _ _ hrlen hclen]
          have hvc : nmAt (Swap d (first + r) (first + (2 * r + 1))) (first + (2 * r + 1))
              = nmAt d (first + r) := by
            unfold nmAt
            rw [Swap_getD_right d _ _ hrlen hclen]
          have hvo : ∀ k, k ≠ r → k ≠ 2 * r + 1 →
              nmAt (Swap d (first + r) (first + (2 * r + 1))) (first + k) = nmAt d (first + k) := by
            intro k hk1 hk2
            unfold nmAt
            rw [Swap_getD_other d _ _ _ (by omega) (by omega)]
          apply ih (2 * r + 1) (Swap d (first + r) (first + (2 * r + 1)))
            (by omega) (by omega) (by rw [length_Swap]; omega)
          · intro j h1 h2 h3 hne
            rcases eq_or_ne ((j - 1) / 2) r with hp | hp
            · have hj12 : j = 2 * r + 1 ∨ j = 2 * r + 1 + 1 := by omega
              rw [hp]
              rcases hj12 with hj | hj
              · rw [hj, hvc, hvr]
                exact le_of_lt hless
              · rw [hj, hvo (2 * r + 1 + 1) (by omega) (by omega), hvr]
                exact hother (by omega)
            · rcases eq_or_ne j r with hjr | hjr
              · have hrpos : 1 ≤ r := by
                  rcases Nat.eq_zero_or_pos r with h0 | h1r
                  · exfalso
                    rw [hjr, h0] at hp
                    exact hp (by omega)
                  · exact h1r
                have hg : root0 < r := by
                  rw [hjr] at h3
                  omega
                rw [hjr, hvr, hvo ((r - 1) / 2) (by omega) (by omega)]
                exact hB hg (2 * r + 1) (Or.inl rfl) hch
              · rcases eq_or_ne j (2 * r + 1) with hjc | hjc
                · exfalso
                  apply hp
                  rw [hjc]
                  omega
                · rw [hvo j hjr hjc, hvo ((j - 1) / 2) hp hne]
                  exact hA j h1 h2 h3 hp
          · intro hg cc hcc hcchi
            have hccgt : 2 * r + 1 < cc := by
              rcases hcc with h | h <;> omega
            have hpar : (2 * r + 1 - 1) / 2 = r := by omega
            rw [hpar, hvr, hvo cc (by omega) (by omega)]
            have := hA cc (by omega) hcchi (by omega) (by omega)
            have hccp : (cc - 1) / 2 = 2 * r + 1 := by
              rcases hcc with h | h <;> omega
            rw [hccp] at this
            exact this

theorem siftDown_spec (d : LocalstackServiceCollection) (root hi first : Nat)
    (hlen : first + hi ≤ d.length)
    (hA : ∀ j, 1 ≤ j → j < hi → root ≤ (j - 1) / 2 → (j - 1) / 2 ≠ root →
      nmAt d (first + j) ≤ nmAt d (first + (j - 1) / 2)) :
    ∀ j, 1 ≤ j → j < hi → root ≤ (j - 1) / 2 →
      nmAt (siftDown d root hi first) (first + j) ≤
      nmAt (siftDown d root hi first) (first + (j - 1) / 2) :=
  siftDownAux_spec hi first root hi root d (le_refl root) (by omega) hlen hA
    (fun h => absurd h (lt_irrefl root))

theorem heap_root_max (d : LocalstackServiceCollection) (first hi : Nat)
    (hheap : ∀ j, 1 ≤ j → j < hi →
      nmAt d (first + j) ≤ nmAt d (first + (j - 1) / 2)) :
    ∀ j, j < hi → nmAt d (first + j) ≤ nmAt d first := by
  intro j
  induction j using Nat.strong_induction_on with
  | _ j ih =>
    intro hj
    rcases Nat.eq_zero_or_pos j with h0 | hpos
    · rw [h0, Nat.add_zero]
    · have h1 := hheap j hpos hj
      have h2 := ih ((j - 1) / 2) (by omega) (by omega)
      exact le_trans h1 h2

theorem permWithin_getD_mem (d d' : LocalstackServiceCollection) (a b : Nat)
    (h : PermWithin d d' a b) (hb : b ≤ d.length) (k : Nat)
    (h1 : a ≤ k) (h2 : k < b) :
    ∃ kk, a ≤ kk ∧ kk < b ∧ d'.getD k default = d.getD kk default := by
  have hlen := h.1
  have hk' : (seg d' a b)[k - a]? = d'[k]? := by
    rw [getElem?_seg d' a b (k - a) (by omega),
      show a + (k - a) = k from by omega]
  have hkin : k < d'.length := by omega
  rw [List.getElem?_eq_getElem hkin] at hk'
  have hmem : d'[k] ∈ seg d' a b := by
    exact List.getElem?_mem hk'
  have hmem2 : d'[k] ∈ seg d a b := (h.2.2.mem_iff).mp hmem
  rcases List.getElem_of_mem hmem2 with ⟨n, hn, hne⟩
  have hn2 : n < b - a := by
    have := hn
    rw [length_seg] at this
    omega
  have hkk : (seg d a b)[n]? = d[a + n]? := getElem?_seg d a b n hn2
  rw [List.getElem?_eq_getElem hn, List.getElem?_eq_getElem (show a + n < d.length by omega)] at hkk
  refine ⟨a + n, by omega, by omega, ?_⟩
  rw [getD_eq_dif, dif_pos hkin, getD_eq_dif, dif_pos (show a + n < d.length by omega)]
  rw [← hne]
  exact Option.some.inj hkk

theorem heapify_aux (hi first : Nat) :
    ∀ (cnt : Nat) (d : LocalstackServiceCollection),
    first + hi ≤ d.length →
    (∀ j, 1 ≤ j → j < hi → cnt ≤ (j - 1) / 2 →
      nmAt d (first + j) ≤ nmAt d (first + (j - 1) / 2)) →
    (((List.range cnt).reverse).foldl (fun d i => siftDown d i hi first) d).length
      = d.length ∧
    (∀ j, 1 ≤ j → j < hi →
      nmAt (((List.range cnt).reverse).foldl (fun d i => siftDown d i hi first) d)
        (first + j) ≤
      nmAt (((List.range cnt).reverse).foldl (fun d i => siftDown d i hi first) d)
        (first + (j - 1) / 2)) := by
  intro cnt
  induction cnt with
  | zero =>
    intro d hlen hpre
    refine ⟨rfl, ?_⟩
    intro j h1 h2
    exact hpre j h1 h2 (Nat.zero_le _)
  | succ cnt ih =>
    intro d hlen hpre
    have hlist : (List.range (cnt + 1)).reverse = cnt :: (List.range cnt).reverse := by
      simp [List.range_succ]
    rw [hlist, List.foldl_cons]
    have hperm := siftDown_permWithin d cnt hi first hlen
    have hlen1 : (siftDown d cnt hi first).length = d.length := hperm.1
    have hpre1 : ∀ j, 1 ≤ j → j < hi → cnt ≤ (j - 1) / 2 →
        nmAt (siftDown d cnt hi first) (first + j) ≤
        nmAt (siftDown d cnt hi first) (first + (j - 1) / 2) :=
      siftDown_spec d cnt hi first hlen
        (fun j h1 h2 h3 h4 => hpre j h1 h2 (by omega))
    have hrec := ih (siftDown d cnt hi first) (by omega) hpre1
    exact ⟨hrec.1.trans hlen1, hrec.2⟩

theorem phase2_aux (first hitot : Nat) :
    ∀ (cnt : Nat) (d : LocalstackServiceCollection),
    cnt ≤ hitot → first + hitot ≤ d.length →
    (∀ j, 1 ≤ j → j < cnt →
      nmAt d (first + j) ≤ nmAt d (first + (j - 1) / 2)) →
    SortedOn d (first + cnt) (first + hitot) →
    (∀ p q, p < cnt → cnt ≤ q → q < hitot →
      nmAt d (first + p) ≤ nmAt d (first + q)) →
    SortedOn (((List.range cnt).reverse).foldl
      (fun d i => siftDown (Swap d first (first + i)) 0 i first) d)
      first (first + hitot) := by
  intro cnt
  induction cnt with
  | zero =>
    intro d hcnt hlen hheap htail hcross
    exact htail
  | succ cnt ih =>
    intro d hcnt hlen hheap htail hcross
    have hlist : (List.range (cnt + 1)).reverse = cnt :: (List.range cnt).reverse := by
      simp [List.range_succ]
    rw [hlist, List.foldl_cons]
    have hfl : first < d.length := by omega
    have hfcl : first + cnt < d.length := by omega
    have hrootmax : ∀ j, j < cnt + 1 → nmAt d (first + j) ≤ nmAt d first := by
      apply heap_root_max d first (cnt + 1)
      intro j h1 h2
      exact hheap j h1 h2
    have hvfirst : nmAt (Swap d first (first + cnt)) first = nmAt d (first + cnt) := by
      unfold nmAt
      rw [Swap_getD_left d first (first + cnt) hfl hfcl]
    have hvcnt : nmAt (Swap d first (first + cnt)) (first + cnt) = nmAt d first := by
      unfold nmAt
      rw [Swap_getD_right d first (first + cnt) hfl hfcl]
    have hvo : ∀ k, k ≠ first → k ≠ first + cnt →
        nmAt (Swap d first (first + cnt)) k = nmAt d k := by
      intro k h1 h2
      unfold nmAt
      rw [Swap_getD_other d first (first + cnt) k h1 h2]
    have hlenE : (Swap d first (first + cnt)).length = d.length := length_Swap d _ _
    have hetail : SortedOn (Swap d first (first + cnt)) (first + cnt) (first + hitot) := by
      intro i j h1 h2 h3
      rcases eq_or_ne i (first + cnt) with hi | hi
      · rcases eq_or_ne j (first + cnt) with hj | hj
        · rw [hi, hj]
        · rw [hi, hvcnt, hvo j (by omega) hj]
          have := hcross 0 (j - first) (by omega) (by omega) (by omega)
          rw [show first + 0 = first from by omega,
            show first + (j - first) = j from by omega] at this
          exact this
      · have hj : j ≠ first + cnt := by omega
        rw [hvo i (by omega) hi, hvo j (by omega) hj]
        exact htail i j (by omega) h2 h3
    have hpermsd := siftDown_permWithin (Swap d first (first + cnt)) 0 cnt first
      (by omega)
    have hlen1 : (siftDown (Swap d first (first + cnt)) 0 cnt first).length = d.length := by
      rw [hpermsd.1, hlenE]
    have hout := hpermsd.2.1
    have hd1tail : SortedOn (siftDown (Swap d first (first + cnt)) 0 cnt first)
        (first + cnt) (first + hitot) := by
      apply sortedOn_congr _ _ _ _ _ hetail
      intro k h1 h2
      exact hout k (Or.inr h1)
    have hheap1 : ∀ j, 1 ≤ j → j < cnt →
        nmAt (siftDown (Swap d first (first + cnt)) 0 cnt first) (first + j) ≤
        nmAt (siftDown (Swap d first (first + cnt)) 0 cnt first) (first + (j - 1) / 2) := by
      have hspec := siftDown_spec (Swap d first (first + cnt)) 0 cnt first (by omega) ?_
      · intro j h1 h2
        exact hspec j h1 h2 (Nat.zero_le _)
      · intro j h1 h2 h3 h4
        rw [hvo (first + j) (by omega) (by omega),
          hvo (first + (j - 1) / 2) (by omega) (by omega)]
        exact hheap j h1 (by omega)
    have hd1q : ∀ q, cnt ≤ q → q < hitot →
        nmAt (siftDown (Swap d first (first + cnt)) 0 cnt first) (first + q)
          = nmAt (Swap d first (first + cnt)) (first + q) := by
      intro q h1 h2
      unfold nmAt
      rw [hout (first + q) (Or.inr (by omega))]
    have hcross1 : ∀ p q, p < cnt → cnt ≤ q → q < hitot →
        nmAt (siftDown (Swap d first (first + cnt)) 0 cnt first) (first + p) ≤
        nmAt (siftDown (Swap d first (first + cnt)) 0 cnt first) (first + q) := by
      intro p q hp hq1 hq2
      obtain ⟨kk, hk1, hk2, hk3⟩ := permWithin_getD_mem (Swap d first (first + cnt))
        (siftDown (Swap d first (first + cnt)) 0 cnt first) first (first + cnt)
        hpermsd (by omega) (first + p) (by omega) (by omega)
      have hvp : nmAt (siftDown (Swap d first (first + cnt)) 0 cnt first) (first + p)
          = nmAt (Swap d first (first + cnt)) kk := by
        unfold nmAt
        rw [hk3]
      rw [hvp, hd1q q hq1 hq2]
      have hbound : nmAt (Swap d first (first + cnt)) kk ≤ nmAt d first ∧
          (cnt < q → nmAt (Swap d first (first + cnt)) kk ≤ nmAt d (first + q)) := by
        rcases eq_or_ne kk first with hkf | hkf
        · rw [hkf, hvfirst]
          constructor
          · exact hrootmax cnt (by omega)
          · intro hq
            have := hcross cnt q (by omega) (by omega) hq2
            exact this
        · rw [hvo kk hkf (by omega)]
          have hkk : kk = first + (kk - first) := by omega
          rw [hkk]
          constructor
          · exact hrootmax (kk - first) (by omega)
          · intro hq
            exact hcross (kk - first) q (by omega) (by omega) hq2
      rcases eq_or_ne q cnt with hqc | hqc
      · rw [hqc, hvcnt]
        exact hbound.1
      · rw [hvo (first + q) (by omega) (by omega)]
        exact hbound.2 (by omega)
    exact ih (siftDown (Swap d first (first + cnt)) 0 cnt first) (by omega)
      (by omega) hheap1 hd1tail hcross1

theorem heapSort_sorted (d : LocalstackServiceCollection) (a b : Nat)
    (hb : b ≤ d.length) (hab : a ≤ b) : SortedOn (heapSort d a b) a b := by
  unfold heapSort
  dsimp only
  have h1 := heapify_aux (b - a) a ((b - a - 1) / 2 + 1) d (by omega)
    (by intro j h1 h2 h3; exact absurd h3 (by omega))
  obtain ⟨hlen1, hheap1⟩ := h1
  have h2 := phase2_aux a (b - a) (b - a)
    (((List.range ((b - a - 1) / 2 + 1)).reverse).foldl
      (fun d i => siftDown d i (b - a) a) d)
    (le_refl _) (by omega) hheap1
    (sortedOn_single _ _ _ (by omega))
    (by intro p q hp hq1 hq2; exact absurd (lt_of_le_of_lt hq1 hq2) (lt_irrefl _))
  rw [show a + (b - a) = b from by omega] at h2
  exact h2

theorem permWithin_nm_bound (d d' : LocalstackServiceCollection) (a b : Nat)
    (P : String → Prop) (h : PermWithin d d' a b) (hb : b ≤ d.length)
    (hP : ∀ k, a ≤ k → k < b → P (nmAt d k)) :
    ∀ k, a ≤ k → k < b → P (nmAt d' k) := by
  intro k h1 h2
  obtain ⟨kk, hk1, hk2, hk3⟩ := permWithin_getD_mem d d' a b h hb k h1 h2
  unfold nmAt
  rw [hk3]
  exact hP kk hk1 hk2

theorem sortedOn_stitch (f : LocalstackServiceCollection) (a mlo mhi b : Nat)
    (h1 : a ≤ mlo) (h2 : mlo < mhi) (h3 : mhi ≤ b)
    (hs1 : SortedOn f a mlo) (hs2 : SortedOn f mhi b)
    (hle : ∀ k, a ≤ k → k < mlo → nmAt f k ≤ nmAt f mlo)
    (heq : ∀ k, mlo ≤ k → k < mhi → nmAt f k = nmAt f mlo)
    (hge : ∀ k, mhi ≤ k → k < b → nmAt f mlo ≤ nmAt f k) :
    SortedOn f a b := by
  intro i j hi hij hj
  rcases Nat.lt_or_ge i mlo with hi1 | hi1
  · rcases Nat.lt_or_ge j mlo with hj1 | hj1
    · exact hs1 i j hi hij hj1
    · rcases Nat.lt_or_ge j mhi with hj2 | hj2
      · rw [heq j hj1 hj2]
        exact hle i hi hi1
      · exact le_trans (hle i hi hi1) (hge j hj2 hj)
  · rcases Nat.lt_or_ge i mhi with hi2 | hi2
    · rcases Nat.lt_or_ge j mhi with hj2 | hj2
      · rw [heq i hi1 hi2, heq j (by omega) hj2]
      · rw [heq i hi1 hi2]
        exact hge j hj2 hj
    · exact hs2 i j hi2 hij hj

set_option maxHeartbeats 2000000 in
theorem quickSort_spec : ∀ (depth : Nat) (d : LocalstackServiceCollection) (a b : Nat),
    b ≤ d.length →
    PermWithin d (quickSort d a b depth) a b ∧ SortedOn (quickSort d a b depth) a b := by
  intro depth
  induction depth with
  | zero =>
    intro d a b hb
    unfold quickSort
    split
    · rename_i h12
      exact ⟨heapSort_permWithin d a b hb (by omega), heapSort_sorted d a b hb (by omega)⟩
    · split
      · rename_i h1
        exact shellInsertion_spec d a b hb
      · rename_i h1
        exact ⟨permWithin_refl d a b, sortedOn_single d a b (by omega)⟩
  | succ depth ih =>
    intro d a b hb
    unfold quickSort
    dsimp only
    split
    · rename_i h12
      obtain ⟨hperm, hmlo, hmm, hmhi, hD3, hD4, hD5⟩ := doPivot_spec d a b (by omega) hb
      generalize hpp : doPivot d a b = part at hperm hmlo hmm hmhi hD3 hD4 hD5 ⊢
      obtain ⟨d1, mlo, mhi⟩ := part
      dsimp only at hperm hmlo hmm hmhi hD3 hD4 hD5 ⊢
      have hlen1 : d1.length = d.length := hperm.1
      split
      · rename_i hside
        obtain ⟨hp1, hs1⟩ := ih d1 a mlo (by omega)
        have hlen2 : (quickSort d1 a mlo depth).length = d.length := by
          rw [hp1.1, hlen1]
        obtain ⟨hp2, hs2⟩ := ih (quickSort d1 a mlo depth) mhi b (by omega)
        have hout1 := hp1.2.1
        have hout2 := hp2.2.1
        have hlen3 : (quickSort (quickSort d1 a mlo depth) mhi b depth).length = d.length := by
          rw [hp2.1, hlen2]
        have hpv : nmAt (quickSort (quickSort d1 a mlo depth) mhi b depth) mlo
            = nmAt d1 mlo := by
          unfold nmAt
          rw [hout2 mlo (Or.inl hmm), hout1 mlo (Or.inr (le_refl mlo))]
        have hmid : ∀ k, mlo ≤ k → k < mhi →
            nmAt (quickSort (quickSort d1 a mlo depth) mhi b depth) k = nmAt d1 k := by
          intro k hk1 hk2
          unfold nmAt
          rw [hout2 k (Or.inl hk2), hout1 k (Or.inr hk1)]
        have hi3 : ∀ k, a ≤ k → k < mlo →
            nmAt (quickSort (quickSort d1 a mlo depth) mhi b depth) k ≤ nmAt d1 mlo := by
          intro k hk1 hk2
          have hstep := permWithin_nm_bound d1 (quickSort d1 a mlo depth) a mlo
            (fun s => s ≤ nmAt d1 mlo) hp1 (by omega) hD3 k hk1 hk2
          have hkv : nmAt (quickSort (quickSort d1 a mlo depth) mhi b depth) k
              = nmAt (quickSort d1 a mlo depth) k := by
            unfold nmAt
            rw [hout2 k (Or.inl (by omega))]
          rw [hkv]
          exact hstep
        have hi5 : ∀ k, mhi ≤ k → k < b →
            nmAt d1 mlo ≤ nmAt (quickSort (quickSort d1 a mlo depth) mhi b depth) k := by
          have hpre : ∀ k, mhi ≤ k → k < b →
              nmAt d1 mlo ≤ nmAt (quickSort d1 a mlo depth) k := by
            intro k hk1 hk2
            have hkv : nmAt (quickSort d1 a mlo depth) k = nmAt d1 k := by
              unfold nmAt
              rw [hout1 k (Or.inr (by omega))]
            rw [hkv]
            exact hD5 k hk1 hk2
          exact permWithin_nm_bound (quickSort d1 a mlo depth) _ mhi b
            (fun s => nmAt d1 mlo ≤ s) hp2 (by omega) hpre
        have hsort1 : SortedOn (quickSort (quickSort d1 a mlo depth) mhi b depth) a mlo := by
          apply sortedOn_congr _ _ _ _ _ hs1
          intro k hk1 hk2
          exact hout2 k (Or.inl (by omega))
        refine ⟨?_, ?_⟩
        · exact permWithin_trans hperm
            (permWithin_trans
              (permWithin_mono a b hp1 (le_refl a) (by omega) (by omega))
              (permWithin_mono a b hp2 (by omega) (le_refl b) (by omega)))
        · apply sortedOn_stitch _ a mlo mhi b hmlo hmm hmhi hsort1 hs2
          · intro k hk1 hk2
            rw [hpv]
            exact hi3 k hk1 hk2
          · intro k hk1 hk2
            rw [hpv, hmid k hk1 hk2]
            exact hD4 k hk1 hk2
          · intro k hk1 hk2
            rw [hpv]
            exact hi5 k hk1 hk2
      · rename_i hside
        obtain ⟨hp1, hs1⟩ := ih d1 mhi b (by omega)
        have hlen2 : (quickSort d1 mhi b depth).length = d.length := by
          rw [hp1.1, hlen1]
        obtain ⟨hp2, hs2⟩ := ih (quickSort d1 mhi b depth) a mlo (by omega)
        have hout1 := hp1.2.1
        have hout2 := hp2.2.1
        have hlen3 : (quickSort (quickSort d1 mhi b depth) a mlo depth).length = d.length := by
          rw [hp2.1, hlen2]
        have hpv : nmAt (quickSort (quickSort d1 mhi b depth) a mlo depth) mlo
            = nmAt d1 mlo := by
          unfold nmAt
          rw [hout2 mlo (Or.inr (le_refl mlo)), hout1 mlo (Or.inl hmm)]
        have hmid : ∀ k, mlo ≤ k → k < mhi →
            nmAt (quickSort (quickSort d1 mhi b depth) a mlo depth) k = nmAt d1 k := by
          intro k hk1 hk2
          unfold nmAt
          rw [hout2 k (Or.inr hk1), hout1 k (Or.inl hk2)]
        have hi3 : ∀ k, a ≤ k → k < mlo →
            nmAt (quickSort (quickSort d1 mhi b depth) a mlo depth) k ≤ nmAt d1 mlo := by
          have hpre : ∀ k, a ≤ k → k < mlo →
              nmAt (quickSort d1 mhi b depth) k ≤ nmAt d1 mlo := by
            intro k hk1 hk2
            have hkv : nmAt (quickSort d1 mhi b depth) k = nmAt d1 k := by
              unfold nmAt
              rw [hout1 k (Or.inl (by omega))]
            rw [hkv]
            exact hD3 k hk1 hk2
          exact permWithin_nm_bound (quickSort d1 mhi b depth) _ a mlo
            (fun s => s ≤ nmAt d1 mlo) hp2 (by omega) hpre
        have hi5 : ∀ k, mhi ≤ k → k < b →
            nmAt d1 mlo ≤ nmAt (quickSort (quickSort d1 mhi b depth) a mlo depth) k := by
          intro k hk1 hk2
          have hstep := permWithin_nm_bound d1 (quickSort d1 mhi b depth) mhi b
            (fun s => nmAt d1 mlo ≤ s) hp1 (by omega) hD5 k hk1 hk2
          have hkv : nmAt (quickSort (quickSort d1 mhi b depth) a mlo depth) k
              = nmAt (quickSort d1 mhi b depth) k := by
            unfold nmAt
            rw [hout2 k (Or.inr (by omega))]
          rw [hkv]
          exact hstep
        have hsort2 : SortedOn (quickSort (quickSort d1 mhi b depth) a mlo depth) mhi b := by
          apply sortedOn_congr _ _ _ _ _ hs1
          intro k hk1 hk2
          exact hout2 k (Or.inr (by omega))
        refine ⟨?_, ?_⟩
        · exact permWithin_trans hperm
            (permWithin_trans
              (permWithin_mono a b hp1 (by omega) (le_refl b) (by omega))
              (permWithin_mono a b hp2 (le_refl a) (by omega) (by omega)))
        · apply sortedOn_stitch _ a mlo mhi b hmlo hmm hmhi hs2 hsort2
          · intro k hk1 hk2
            rw [hpv]
            exact hi3 k hk1 hk2
          · intro k hk1 hk2
            rw [hpv, hmid k hk1 hk2]
            exact hD4 k hk1 hk2
          · intro k hk1 hk2
            rw [hpv]
            exact hi5 k hk1 hk2
    · split
      · rename_i h1
        exact shellInsertion_spec d a b hb
      · rename_i h1
        exact ⟨permWithin_refl d a b, sortedOn_single d a b (by omega)⟩

theorem sortedOn_pairwise (d : LocalstackServiceCollection)
    (h : SortedOn d 0 d.length) :
    List.Pairwise (fun x y => x.Name ≤ y.Name) d := by
  rw [List.pairwise_iff_getElem]
  intro i j hi hj hij
  have hle := h i j (Nat.zero_le i) (le_of_lt hij) hj
  unfold nmAt at hle
  rw [getD_eq_dif, dif_pos hi, getD_eq_dif, dif_pos hj] at hle
  exact hle

/-- C8 (amended): `Sort()` reorders the calling collection in place into
lexicographically non-decreasing order by `Name` and returns the calling
collection itself, so the result is a permutation of the input sorted by
name.  The stability conjunct of the original claim is refuted by
`Sort_stability_counterexample`: `sort.Sort` uses the standard library's
unstable introsort, whose shell pass reorders equal-named elements. -/
theorem Sort_sorted_perm (collection : LocalstackServiceCollection) :
    (LocalstackServiceCollection.Sort collection).Perm collection ∧
    List.Pairwise (fun x y => x.Name ≤ y.Name)
      (LocalstackServiceCollection.Sort collection) := by
  unfold LocalstackServiceCollection.Sort sortSort Len
  obtain ⟨hp, hs⟩ := quickSort_spec (maxDepth collection.length) collection 0
    collection.length (le_refl _)
  have hlen : (quickSort collection 0 collection.length
      (maxDepth collection.length)).length = collection.length := hp.1
  refine ⟨permWithin_perm hp (le_refl _), ?_⟩
  apply sortedOn_pairwise
  rw [hlen]
  exact hs
